import Mathlib

/-!
Verification model of the repository's Python helper scripts
(`scripts/normalize_azure_storage_secret.py`, `scripts/configure_demo_hosts.py`).

Python strings are modelled as `List Char`.  Python library routines used by
the scripts (`str.strip`, `str.lower`, `re` patterns, `urllib.parse.urlparse`,
`ipaddress`, `json.loads`) are modelled explicitly below; the JSON decoder and
the SHA-256 digest are kept abstract (they are passed in as parameters), since
the scripts only ever pass their results along.
-/

set_option maxHeartbeats 1000000

/-- ASCII whitespace as recognised by `str.strip()` / `\s` (the scripts only
ever meet ASCII data; the Unicode-only whitespace code points are not
modelled). -/
def pyWs (c : Char) : Bool :=
  c = ' ' || c = '\t' || c = '\n' || c = '\r' || c = '\x0b' || c = '\x0c'

/-- `str.strip()` (whitespace on both ends). -/
def pyStrip (cs : List Char) : List Char :=
  ((cs.dropWhile pyWs).reverse.dropWhile pyWs).reverse

/-- `str.lstrip(ch)` for a single character: drop all leading copies. -/
def lstripChar (ch : Char) (cs : List Char) : List Char :=
  cs.dropWhile (fun c => c = ch)

/-- `str.rstrip(ch)` for a single character: drop all trailing copies. -/
def rstripChar (ch : Char) (cs : List Char) : List Char :=
  (cs.reverse.dropWhile (fun c => c = ch)).reverse

/-- `str.strip(ch)` for a single character: both ends. -/
def stripChar (ch : Char) (cs : List Char) : List Char :=
  rstripChar ch (lstripChar ch cs)

/-- `str.lower()` (ASCII model). -/
def lowerL (cs : List Char) : List Char := cs.map Char.toLower

/-- Does `hay` start with `pat`?  (`str.startswith`). -/
def startsWithL (hay pat : List Char) : Bool :=
  match pat, hay with
  | [], _ => true
  | _ :: _, [] => false
  | p :: ps, h :: hs => p = h && startsWithL hs ps

/-- Case-insensitive `startswith` against an already-lowercase pattern. -/
def lowerStartsWith (hay pat : List Char) : Bool :=
  startsWithL (lowerL hay) pat

/-- Substring containment (`pat in hay` for strings). -/
def containsSub (hay pat : List Char) : Bool :=
  match hay with
  | [] => startsWithL [] pat
  | _ :: t => startsWithL hay pat || containsSub t pat

/-- Character membership (`ch in s`). -/
def containsChar (cs : List Char) (ch : Char) : Bool := cs.contains ch

/-- `";".join(parts)` and friends. -/
def joinSep (sep : Char) : List (List Char) → List Char
  | [] => []
  | [x] => x
  | x :: y :: rest => x ++ sep :: joinSep sep (y :: rest)

/-- `re.split` on a *run* of separator characters: pieces between maximal
runs of characters satisfying `p` (empty pieces appear at the ends when the
text starts or ends with a separator, exactly like `re.split(r"[;\n]+", s)`). -/
def splitRunsBy (p : Char → Bool) : List Char → List (List Char)
  | [] => [[]]
  | c :: cs =>
    let r := splitRunsBy p cs
    if p c then
      match cs with
      | [] => [] :: r
      | c2 :: _ => if p c2 then r else [] :: r
    else
      match r with
      | [] => [[c]]
      | h :: t => (c :: h) :: t

/-- Separator class of `re.split(r"[;\n]+", s)`. -/
def isSemiNl (c : Char) : Bool := c = ';' || c = '\n'

/-- Separator class of `re.split(r"[\s,]+", s)`. -/
def isWsComma (c : Char) : Bool := pyWs c || c = ','

/-- Split at the first character satisfying `p`:
returns `(before, sep, after)`. -/
def splitAtPred (p : Char → Bool) : List Char → Option (List Char × Char × List Char)
  | [] => none
  | c :: cs =>
    if p c then some ([], c, cs)
    else
      match splitAtPred p cs with
      | none => none
      | some (a, s, b) => some (c :: a, s, b)

/-- `s.split(ch, 1)[0]` — the part before the first `ch` (whole string when
absent). -/
def takeBefore (ch : Char) (cs : List Char) : List Char :=
  match splitAtPred (fun c => c = ch) cs with
  | none => cs
  | some (a, _, _) => a

/-- `s.split(ch, 1)` as a pair, `none` when `ch` is absent. -/
def splitFirst (ch : Char) (cs : List Char) : Option (List Char × List Char) :=
  match splitAtPred (fun c => c = ch) cs with
  | none => none
  | some (a, _, b) => some (a, b)

/-- Decimal digits of a natural number (`str(n)`). -/
def natChars (n : Nat) : List Char := (Nat.repr n).data

/-- Word character for the `\b` boundary of Python regexes (ASCII model of
`\w`). -/
def isWordChar (c : Char) : Bool := c.isAlphanum || c = '_'

/-- `str.splitlines()` boundary characters after `\r`/`\r\n` have already been
normalised away (ASCII model: `\n`, `\x0b`, `\x0c`, `\x1c`, `\x1d`, `\x1e`). -/
def isLineBreak (c : Char) : Bool :=
  c = '\n' || c = '\x0b' || c = '\x0c' || c = '\x1c' || c = '\x1d' || c = '\x1e'

/-- `str.splitlines()`: split at every boundary character, no trailing empty
piece for a trailing newline. -/
def splitLinesGo (acc : List Char) : List Char → List (List Char)
  | [] => if acc = [] then [] else [acc.reverse]
  | c :: cs =>
    if isLineBreak c then acc.reverse :: splitLinesGo [] cs
    else splitLinesGo (c :: acc) cs

def splitLines (cs : List Char) : List (List Char) := splitLinesGo [] cs

/-! ## JSON values (model of the structures produced by `json.loads`) -/

mutual
inductive Json where
  | str (s : List Char)
  | atom
  | obj (fields : JFields)
  | arr (items : JList)

inductive JFields where
  | nil
  | cons (key : List Char) (value : Json) (rest : JFields)

inductive JList where
  | nil
  | cons (head : Json) (rest : JList)
end

mutual
def Json.size : Json → Nat
  | .str _ => 1
  | .atom => 1
  | .obj fs => 1 + JFields.size fs
  | .arr xs => 1 + JList.size xs

def JFields.size : JFields → Nat
  | .nil => 0
  | .cons _ v rest => Json.size v + JFields.size rest

def JList.size : JList → Nat
  | .nil => 0
  | .cons v rest => Json.size v + JList.size rest
end

/-- The values of a JSON object, in insertion order (`dict.values()`). -/
def JFields.values : JFields → List Json
  | .nil => []
  | .cons _ v rest => v :: JFields.values rest

def JList.toList : JList → List Json
  | .nil => []
  | .cons v rest => v :: JList.toList rest

mutual
/-- All string leaves of a JSON value, in document order. -/
def Json.leafStrings : Json → List (List Char)
  | .str s => [s]
  | .atom => []
  | .obj fs => JFields.leafStrings fs
  | .arr xs => JList.leafStrings xs

def JFields.leafStrings : JFields → List (List Char)
  | .nil => []
  | .cons _ v rest => Json.leafStrings v ++ JFields.leafStrings rest

def JList.leafStrings : JList → List (List Char)
  | .nil => []
  | .cons v rest => Json.leafStrings v ++ JList.leafStrings rest
end

/-- Total size of a stack of JSON values. -/
def stackSize (stack : List Json) : Nat := (stack.map Json.size).sum

/-- `iter_string_candidates` of `parse_credential`: an explicit stack
(`list.pop()` pops the most recently pushed element, so pushing children in
order means visiting them in reverse), collecting non-empty stripped string
leaves.  The fuel is only a termination device; `stackSize stack` steps always
suffice. -/
def iterGo : Nat → List Json → List (List Char)
  | _, [] => []
  | 0, _ => []
  | fuel + 1, j :: rest =>
    match j with
    | .str s =>
      let t := pyStrip s
      if t = [] then iterGo fuel rest else t :: iterGo fuel rest
    | .atom => iterGo fuel rest
    | .obj fs => iterGo fuel ((JFields.values fs).reverse ++ rest)
    | .arr xs => iterGo fuel ((JList.toList xs).reverse ++ rest)

def iterStrings (j : Json) : List (List Char) := iterGo (Json.size j) [j]

/-! ## `normalize_azure_storage_secret.py` -/

/-- `AzureCredential` (dataclass of `normalize_azure_storage_secret.py`). -/
structure AzureCredential where
  storage_account : List Char
  connection_string : List Char
  account_key : Option (List Char) := none
  sas_token : Option (List Char) := none
deriving DecidableEq, Repr

/-- Failure of `parse_credential`: the two `ValueError`s of the source, plus
`fuelOut`, the model's stand-in for Python's recursion limit (it can only be
reached when the abstract JSON decoder is dishonest). -/
inductive ParseErr where
  | empty
  | unrecognized (normalized : List Char)
  | fuelOut
deriving DecidableEq, Repr

/-- The apostrophe character. -/
def chApos : Char := Char.ofNat 39

/-- `value.replace("\r\n", "\n").replace("\r", "\n")`. -/
def normNl : List Char → List Char
  | [] => []
  | '\r' :: '\n' :: rest => '\n' :: normNl rest
  | '\r' :: rest => '\n' :: normNl rest
  | c :: rest => c :: normNl rest

/-- `value.startswith(q) and value.endswith(q)` (true for a 1-character
string consisting of the quote, as in Python). -/
def quotedBy (q : Char) (v : List Char) : Bool :=
  v ≠ [] && v.head? = some q && v.getLast? = some q

/-- Lines 48–52: strip, then remove one matching pair of outer quotes and
strip again. -/
def unquoteStrip (raw : List Char) : List Char :=
  let v := pyStrip raw
  if quotedBy '"' v || quotedBy chApos v then pyStrip ((v.drop 1).dropLast) else v

/-- The recognised key names of the delimited-connection-string detector. -/
def credKeywords : List (List Char) :=
  [("accountname".data), ("accountkey".data), ("sharedaccesssignature".data),
   ("defaultendpointsprotocol".data), ("blobendpoint".data), ("queueendpoint".data),
   ("tableendpoint".data), ("fileendpoint".data), ("endpointsuffix".data)]

/-- Does one of the keywords, followed by `=`, start here (case-insensitively)? -/
def kwAt (rest : List Char) : Bool :=
  credKeywords.any (fun kw => startsWithL (lowerL rest) (kw ++ ['=']))

/-- `\b` holds before a word character iff the previous character is absent or
not a word character. -/
def boundaryOk (prev : Option Char) : Bool :=
  match prev with
  | none => true
  | some p => !isWordChar p

/-- `re.search(r"\b(accountname|...|endpointsuffix)=", s, re.IGNORECASE)`. -/
def kwSearchGo (prev : Option Char) : List Char → Bool
  | [] => false
  | c :: cs => (boundaryOk prev && kwAt (c :: cs)) || kwSearchGo (some c) cs

def kwSearch (cs : List Char) : Bool := kwSearchGo none cs

/-- Trigger of the delimited key=value branch (lines 65–74). -/
def branch2cond (normalized : List Char) : Bool :=
  containsChar normalized '=' &&
    (containsChar normalized ';' || containsChar normalized '\n' || kwSearch normalized)

/-- Trigger of the development-storage branch (line 58). -/
def devCond (normalized : List Char) : Bool :=
  lowerStartsWith normalized ("usedevelopmentstorage=true".data)

/-- Lines 58–64: development-storage pass-through. -/
def branch1 (normalized storage : List Char) : AzureCredential :=
  let parts := ((splitRunsBy isSemiNl normalized).map pyStrip).filter (· ≠ [])
  { storage_account := storage, connection_string := joinSep ';' parts }

/-- `re.match(r"\s*([^:=]+)\s*[:=]\s*(.*)\s*$", segment)`: succeeds iff the
segment has a `:`/`=` preceded by at least one other character; yields the
stripped key and value. -/
def isKvSep (c : Char) : Bool := c = ':' || c = '='

def parseSegment (seg : List Char) : Option (List Char × List Char) :=
  match splitAtPred isKvSep seg with
  | none => none
  | some (before, _, after) =>
    if before = [] then none else some (pyStrip before, pyStrip after)

/-- The `parts` dict: lowered key ↦ (original key, value); later assignments
win, which the head-first representation realises via `find?`. -/
def partsOfSegments (segs : List (List Char)) : List (List Char × List Char × List Char) :=
  segs.foldl
    (fun m seg =>
      if seg = [] then m
      else
        match parseSegment seg with
        | none => m
        | some (k, v) => if k = [] then m else (lowerL k, k, v) :: m)
    []

def partsGet (m : List (List Char × List Char × List Char)) (low : List Char) :
    Option (List Char × List Char) :=
  match m.find? (fun e => e.1 = low) with
  | none => none
  | some (_, orig, val) => some (orig, val)

/-- Lines 92–97: the protocol field, defaulting to `https`. -/
def b2proto (m : List (List Char × List Char × List Char)) : List Char :=
  match partsGet m ("defaultendpointsprotocol".data) with
  | some (k, v) => k ++ '=' :: v
  | none => ("DefaultEndpointsProtocol=https".data)

/-- Lines 99–100: the `AccountName` field, emitted only when non-empty. -/
def b2name (m : List (List Char × List Char × List Char)) (storage : List Char) :
    List (List Char) :=
  if (match partsGet m ("accountname".data) with
      | some (_, v) => v
      | none => storage) ≠ [] then
    [("AccountName=".data) ++
      (match partsGet m ("accountname".data) with
       | some (_, v) => v
       | none => storage)]
  else []

/-- Lines 102–104: the blob endpoint field, echoed whenever present. -/
def b2blob (m : List (List Char × List Char × List Char)) : List (List Char) :=
  match partsGet m ("blobendpoint".data) with
  | some (k, v) => [k ++ '=' :: v]
  | none => []

/-- Lines 106–107: the `AccountKey` field, emitted when truthy. -/
def b2key (m : List (List Char × List Char × List Char)) : List (List Char) :=
  match (partsGet m ("accountkey".data)).map (fun e => e.2) with
  | some k => if k ≠ [] then [("AccountKey=".data) ++ k] else []
  | none => []

/-- Lines 109–110: the `SharedAccessSignature` field, emitted when truthy. -/
def b2sas (m : List (List Char × List Char × List Char)) : List (List Char) :=
  match (partsGet m ("sharedaccesssignature".data)).map (fun e => e.2) with
  | some s => if s ≠ [] then [("SharedAccessSignature=".data) ++ s] else []
  | none => []

/-- Lines 112–116: the endpoint suffix, defaulted only when neither an
explicit suffix nor a blob endpoint was given. -/
def b2suffix (m : List (List Char × List Char × List Char)) : List (List Char) :=
  match partsGet m ("endpointsuffix".data) with
  | some (k, v) => [k ++ '=' :: v]
  | none =>
    if partsGet m ("blobendpoint".data) = none then
      [("EndpointSuffix=core.windows.net".data)]
    else []

/-- Lines 118–121: queue/table/file endpoints, echoed in that order. -/
def b2extra (m : List (List Char × List Char × List Char)) : List (List Char) :=
  (match partsGet m ("queueendpoint".data) with
   | some (k, v) => [k ++ '=' :: v]
   | none => []) ++
  (match partsGet m ("tableendpoint".data) with
   | some (k, v) => [k ++ '=' :: v]
   | none => []) ++
  (match partsGet m ("fileendpoint".data) with
   | some (k, v) => [k ++ '=' :: v]
   | none => [])

/-- Lines 92–122: the canonical field list (protocol, account name, blob
endpoint, account key, SAS, suffix, queue/table/file endpoints). -/
def branch2Fields (m : List (List Char × List Char × List Char)) (storage : List Char) :
    List (List Char) :=
  b2proto m :: (b2name m storage ++ b2blob m ++ b2key m ++ b2sas m ++ b2suffix m ++ b2extra m)

/-- Lines 75–129: the delimited key=value branch. -/
def branch2 (normalized storage : List Char) : AzureCredential :=
  let m := partsOfSegments (splitRunsBy isSemiNl normalized)
  let account :=
    match partsGet m ("accountname".data) with
    | some (_, v) => v
    | none => storage
  { storage_account := if account = [] then storage else account
    connection_string := joinSep ';' (branch2Fields m storage)
    account_key := (partsGet m ("accountkey".data)).map (fun e => e.2)
    sas_token := (partsGet m ("sharedaccesssignature".data)).map (fun e => e.2) }

/-! ### Model of `urllib.parse.urlparse` (the fields the script uses) -/

structure UrlParts where
  scheme : List Char
  netloc : List Char
  path : List Char
  query : List Char
  fragment : List Char
deriving DecidableEq, Repr

def schemeChar (c : Char) : Bool := c.isAlpha || c.isDigit || c = '+' || c = '-' || c = '.'

def urlUnsafe (c : Char) : Bool := c = '\t' || c = '\r' || c = '\n'

def c0OrSpace (c : Char) : Bool := c.val ≤ 32

/-- CPython `urlsplit`: strip surrounding C0 controls/space, drop tab/CR/LF,
split off `scheme:` (first character alphabetic, all scheme characters),
`//netloc` (up to the next `/`, `?` or `#`), then fragment at the first `#`
and query at the first `?`. -/
def urlParse (url0 : List Char) : UrlParts :=
  let url1 := ((url0.dropWhile c0OrSpace).reverse.dropWhile c0OrSpace).reverse
  let url := url1.filter (fun c => !urlUnsafe c)
  let schemeRest :=
    match splitAtPred (fun c => c = ':') url with
    | some (pre, _, post) =>
      if pre ≠ [] && (match pre with | c :: _ => c.isAlpha | [] => false) && pre.all schemeChar
      then (lowerL pre, post)
      else (([] : List Char), url)
    | none => (([] : List Char), url)
  let scheme := schemeRest.1
  let rest := schemeRest.2
  let netRest :=
    if startsWithL rest ("//".data) then
      let r := rest.drop 2
      let stop := fun (c : Char) => c = '/' || c = '?' || c = '#'
      (r.takeWhile (fun c => !stop c), r.dropWhile (fun c => !stop c))
    else (([] : List Char), rest)
  let netloc := netRest.1
  let rest2 := netRest.2
  let restFrag :=
    match splitFirst '#' rest2 with
    | some (a, b) => (a, b)
    | none => (rest2, ([] : List Char))
  let pathQuery :=
    match splitFirst '?' restFrag.1 with
    | some (a, b) => (a, b)
    | none => (restFrag.1, ([] : List Char))
  { scheme := scheme, netloc := netloc, path := pathQuery.1,
    query := pathQuery.2, fragment := restFrag.2 }

/-- CPython `SplitResult.hostname`: the part of the netloc after the last `@`,
then (bracketed IPv6 literal or up-to-the-first-`:`), lowercased; `none` when
empty. -/
def urlHostname (netloc : List Char) : Option (List Char) :=
  let h0 := ((netloc.reverse).takeWhile (fun c => c ≠ '@')).reverse
  let h1 :=
    if containsChar h0 '[' then
      ((h0.dropWhile (fun c => c ≠ '[')).drop 1).takeWhile (fun c => c ≠ ']')
    else h0.takeWhile (fun c => c ≠ ':')
  let h := lowerL h1
  if h = [] then none else some h

/-- `re.match(r"^(?P<name>[^.]+)\.blob\.core\.windows\.net$", hostname)`. -/
def blobAccount (h : List Char) : Option (List Char) :=
  match splitFirst '.' h with
  | none => none
  | some (name, rest) =>
    if name ≠ [] && rest = ("blob.core.windows.net".data) then some name else none

/-- Lines 131–161: the URL-with-SAS-query branch, exposing the computed
account name, blob endpoint and token. -/
def branch3Parts (value storage : List Char) : Option (List Char × List Char × List Char) :=
  let u := urlParse value
  let q0 := u.query
  let q :=
    if q0 = [] && u.path ≠ [] && containsChar u.path '?' then
      match splitFirst '?' u.path with
      | some (_, b) => b
      | none => q0
    else q0
  if u.scheme ≠ [] && q ≠ [] then
    let ql := lowerL q
    if containsSub ql ("sig=".data) && containsSub ql ("sv=".data) then
      let hn := urlHostname u.netloc
      let account :=
        match hn with
        | some h =>
          match blobAccount h with
          | some nm => nm
          | none => storage
        | none => storage
      let blob :=
        match hn with
        | some h => u.scheme ++ ("://".data) ++ h ++ ("/".data)
        | none => ("https://".data) ++ account ++ (".blob.core.windows.net/".data)
      some (account, blob, q)
    else none
  else none

def branch3 (value storage : List Char) : Option AzureCredential :=
  (branch3Parts value storage).map fun acg =>
    { storage_account := acg.1
      connection_string :=
        ("DefaultEndpointsProtocol=https;AccountName=".data) ++ acg.1 ++
        (";BlobEndpoint=".data) ++ acg.2.1 ++
        (";SharedAccessSignature=".data) ++ acg.2.2
      account_key := none
      sas_token := some acg.2.2 }

/-- Lines 163–172: the bare SAS-token branch. -/
def branch4 (value storage : List Char) : Option AzureCredential :=
  let token := lstripChar '?' value
  let tl := lowerL token
  if containsSub tl ("sig=".data) && containsSub tl ("sv=".data) then
    some { storage_account := storage
           connection_string :=
             ("DefaultEndpointsProtocol=https;AccountName=".data) ++ storage ++
             (";BlobEndpoint=https://".data) ++ storage ++
             (".blob.core.windows.net/;SharedAccessSignature=".data) ++ token
           account_key := none
           sas_token := some token }
  else none

/-- Character class `[A-Za-z0-9+/=_-]` of the bare-account-key detector. -/
def b64Char (c : Char) : Bool :=
  c.isAlpha || c.isDigit || c = '+' || c = '/' || c = '=' || c = '_' || c = '-'

/-- Character class `[;&?{}\s]` of the bare-account-key detector. -/
def badStructChar (c : Char) : Bool :=
  c = ';' || c = '&' || c = '?' || c = '\x7b' || c = '\x7d' || pyWs c

/-- Lines 174–191: the bare-account-key branch. -/
def branch5 (value normalized storage : List Char) : Option AzureCredential :=
  let b := pyStrip normalized
  if b ≠ [] && !(b.any badStructChar) && !(containsChar (rstripChar '=' b) '=') &&
      b.all b64Char && decide (15 ≤ b.length) then
    some { storage_account := storage
           connection_string :=
             ("DefaultEndpointsProtocol=https;AccountName=".data) ++ storage ++
             (";AccountKey=".data) ++ value ++
             (";EndpointSuffix=core.windows.net".data)
           account_key := some value
           sas_token := none }
  else none

/-- Trigger of the multi-line `key: value` branch (line 194). -/
def mlCond (normalized : List Char) : Bool :=
  let s := normalized.dropWhile pyWs
  containsChar normalized '\n' && !(startsWithL s ['\x7b'] || startsWithL s ['['])

/-- Lines 195–203: reinterpret each `key: value` line, stripping inline `#`
comments and one layer of quoting, as `key=value`. -/
def colonSegments (normalized : List Char) : List (List Char) :=
  (splitLines normalized).foldr
    (fun line acc =>
      let clean := pyStrip line
      if clean = [] || !containsChar clean ':' then acc
      else
        match splitFirst ':' clean with
        | none => acc
        | some (k, v) =>
          let cv := stripChar chApos (stripChar '"' (pyStrip (takeBefore '#' (pyStrip v))))
          (pyStrip k ++ '=' :: cv) :: acc)
    []

/-- Lines 231–239: try each distinct candidate string (skipping the original
input), returning the first successful parse; a swallowed failure is a
`ValueError`, while the model's `fuelOut` propagates (as a `RecursionError`
would). -/
def tryCands (recurse : List Char → Except ParseErr AzureCredential) (value : List Char) :
    List (List Char) → List (List Char) → Option (Except ParseErr AzureCredential)
  | _, [] => none
  | seen, cand :: rest =>
    if cand = value || seen.contains cand then tryCands recurse value seen rest
    else
      match recurse cand with
      | .ok c => some (.ok c)
      | .error .fuelOut => some (.error .fuelOut)
      | .error _ => tryCands recurse value (cand :: seen) rest

/-- The JSON fallback (lines 210–239) with the recursive call abstracted. -/
def jsonStepF (recurse : List Char → Except ParseErr AzureCredential)
    (decode : List Char → Option Json) (value normalized : List Char) :
    Except ParseErr AzureCredential :=
  match decode value with
  | some j =>
    match tryCands recurse value [] (iterStrings j) with
    | some r => r
    | none => .error (.unrecognized normalized)
  | none => .error (.unrecognized normalized)

/-- `parse_credential` (lines 47–247), with explicit fuel for the two
recursive detection branches.  `decode` models `json.loads` (`none` for a
`JSONDecodeError`). -/
def parseCredGo (decode : List Char → Option Json) :
    Nat → List Char → List Char → Except ParseErr AzureCredential
  | 0, _, _ => .error .fuelOut
  | fuel + 1, raw, storage =>
    let value := unquoteStrip raw
    if value = [] then .error .empty
    else
      let normalized := normNl value
      if devCond normalized then .ok (branch1 normalized storage)
      else if branch2cond normalized then .ok (branch2 normalized storage)
      else
        match branch3 value storage with
        | some c => .ok c
        | none =>
          match branch4 value storage with
          | some c => .ok c
          | none =>
            match branch5 value normalized storage with
            | some c => .ok c
            | none =>
              if mlCond normalized then
                match colonSegments normalized with
                | [] => jsonStepF (fun cand => parseCredGo decode fuel cand storage)
                    decode value normalized
                | seg :: segs =>
                  match parseCredGo decode fuel (joinSep ';' (seg :: segs)) storage with
                  | .ok c => .ok c
                  | .error .fuelOut => .error .fuelOut
                  | .error _ => jsonStepF (fun cand => parseCredGo decode fuel cand storage)
                      decode value normalized
              else jsonStepF (fun cand => parseCredGo decode fuel cand storage)
                  decode value normalized

/-- `parse_credential(raw, storage_account)`. -/
def parse_credential (decode : List Char → Option Json) (raw storage : List Char) :
    Except ParseErr AzureCredential :=
  parseCredGo decode (raw.length + 1) raw storage

/-! ### The diagnostic failure message (lines 22–44 and 241–247) -/

/-- `re.sub(r"\s+", " ", ·)` on an already-stripped string. -/
def collapseRuns : List Char → List Char
  | [] => []
  | c :: cs =>
    if pyWs c then
      match cs with
      | c2 :: _ => if pyWs c2 then collapseRuns cs else ' ' :: collapseRuns cs
      | [] => [' ']
    else c :: collapseRuns cs

/-- The three characters that the source file holds where an ellipsis was
intended (the file stores the UTF-8 ellipsis double-encoded). -/
def srcEllipsis : List Char := ['â', '€', '¦']

/-- `_redacted_preview`. -/
def redactedPreview (value : List Char) : List Char :=
  let compact := collapseRuns (pyStrip value)
  if compact = [] then ("<empty>".data)
  else if compact.length ≤ 6 then List.replicate compact.length '*'
  else compact.take 4 ++ srcEllipsis ++ compact.drop (compact.length - 2)

/-- `re.match(r"^[a-zA-Z][a-zA-Z0-9+.-]*://", value)`. -/
def looksUrl (value : List Char) : Bool :=
  match value with
  | [] => false
  | c :: rest => c.isAlpha && startsWithL (rest.dropWhile schemeChar) ("://".data)

def yesNo (b : Bool) : List Char := if b then ("yes".data) else ("no".data)

/-- `_heuristic_summary`. -/
def heuristicSummary (value : List Char) : List Char :=
  let lowered := lowerL value
  let stripped := value.dropWhile pyWs
  ("has_equals=".data) ++ yesNo (containsChar value '=') ++
  (", has_newlines=".data) ++ yesNo (containsChar value '\n') ++
  (", has_question=".data) ++ yesNo (containsChar value '?') ++
  (", looks_json=".data) ++ yesNo (startsWithL stripped ['\x7b'] || startsWithL stripped ['[']) ++
  (", looks_url=".data) ++ yesNo (looksUrl value) ++
  (", has_accountname=".data) ++ yesNo (containsSub lowered ("accountname".data)) ++
  (", has_sig=".data) ++ yesNo (containsSub lowered ("sig=".data))

/-- The message of the `ValueError` raised for each failure, as a function of
an abstract hex digest `hash` modelling `hashlib.sha256(...).hexdigest()`. -/
def errorMessage (hash : List Char → List Char) : ParseErr → List Char
  | .empty => ("Credential must not be empty".data)
  | .fuelOut => ("maximum recursion depth exceeded".data)
  | .unrecognized norm =>
    ("Unable to detect credential type. Provide an account key, SAS token, or connection string. (len=".data)
    ++ natChars norm.length
    ++ (", fingerprint=".data) ++ (hash norm).take 12
    ++ (", preview=".data) ++ redactedPreview norm
    ++ (", ".data) ++ heuristicSummary norm ++ (")".data)

/-! ## Model of `ipaddress.ip_address` -/

/-- Split at *every* occurrence of `ch` (`str.split(ch)`). -/
def splitAll (ch : Char) : List Char → List (List Char)
  | [] => [[]]
  | c :: cs =>
    let r := splitAll ch cs
    if c = ch then [] :: r
    else
      match r with
      | [] => [[c]]
      | h :: t => (c :: h) :: t

def digitVal (c : Char) : Nat := c.toNat - 48

def decValue (ds : List Char) : Nat := ds.foldl (fun acc c => acc * 10 + digitVal c) 0

/-- One dotted-quad octet: 1–3 decimal digits, no leading zero, at most 255. -/
def parseOctet (cs : List Char) : Option Nat :=
  if cs = [] || 3 < cs.length || !cs.all Char.isDigit then none
  else if 1 < cs.length && cs.head? = some '0' then none
  else
    let v := decValue cs
    if v ≤ 255 then some v else none

def ip4 (a b c d : Nat) : Nat := ((a * 256 + b) * 256 + c) * 256 + d

/-- `ipaddress.IPv4Address` textual form. -/
def parseIPv4 (cs : List Char) : Option Nat :=
  match splitAll '.' cs with
  | [a, b, c, d] =>
    match parseOctet a, parseOctet b, parseOctet c, parseOctet d with
    | some va, some vb, some vc, some vd => some (ip4 va vb vc vd)
    | _, _, _, _ => none
  | _ => none

def isHexDigit (c : Char) : Bool :=
  c.isDigit || ('a' ≤ c && c ≤ 'f') || ('A' ≤ c && c ≤ 'F')

def hexVal (c : Char) : Nat :=
  if c.isDigit then c.toNat - 48
  else if 'a' ≤ c && c ≤ 'f' then c.toNat - 87
  else c.toNat - 55

/-- One IPv6 hextet: 1–4 hexadecimal digits. -/
def parseHextet (cs : List Char) : Option Nat :=
  if cs = [] || 4 < cs.length || !cs.all isHexDigit then none
  else some (cs.foldl (fun acc c => acc * 16 + hexVal c) 0)

/-- A part of an IPv6 address: either source text or the value of a hextet
synthesised from an embedded IPv4 address. -/
inductive HexPart where
  | txt (cs : List Char)
  | val (n : Nat)

def HexPart.isEmptyTxt : HexPart → Bool
  | .txt [] => true
  | _ => false

def parseHexPart : HexPart → Option Nat
  | .txt cs => parseHextet cs
  | .val n => some n

def foldHex (ps : List HexPart) : Option Nat :=
  ps.foldl
    (fun acc p =>
      match acc, parseHexPart p with
      | some a, some h => some (a * 65536 + h)
      | _, _ => none)
    (some 0)

/-- `ipaddress.IPv6Address` textual form (transcribed from CPython's
`_ip_int_from_string`; the `%zone` suffix is not modelled and is rejected). -/
def parseIPv6 (cs : List Char) : Option Nat :=
  if cs = [] || containsChar cs '%' then none
  else
    let rawParts := splitAll ':' cs
    if rawParts.length < 3 then none
    else
      let lastPart := rawParts.getLastD []
      let withV4 : Option (List HexPart) :=
        if containsChar lastPart '.' then
          match parseIPv4 lastPart with
          | some v => some (rawParts.dropLast.map HexPart.txt ++ [.val (v / 65536), .val (v % 65536)])
          | none => none
        else some (rawParts.map HexPart.txt)
      match withV4 with
      | none => none
      | some parts =>
        let n := parts.length
        if 9 < n then none
        else
          let interior := (parts.drop 1).dropLast
          let emptyCount := interior.countP HexPart.isEmptyTxt
          if 2 ≤ emptyCount then none
          else if emptyCount = 1 then
            let skipIdx := 1 + interior.findIdx HexPart.isEmptyTxt
            let headEmpty := (parts.take 1).countP HexPart.isEmptyTxt = 1
            let lastEmpty := (parts.drop (n - 1)).countP HexPart.isEmptyTxt = 1
            if headEmpty && skipIdx ≠ 1 then none
            else if lastEmpty && skipIdx ≠ n - 2 then none
            else
              let hi := if headEmpty then 0 else skipIdx
              let lo := if lastEmpty then 0 else n - skipIdx - 1
              if 8 < hi + lo then none
              else
                let skipped := 8 - (hi + lo)
                if skipped < 1 then none
                else
                  match foldHex (parts.take hi), foldHex (parts.drop (n - lo)) with
                  | some hv, some lv => some (hv * 2 ^ (16 * (skipped + lo)) + lv)
                  | _, _ => none
          else
            if n ≠ 8 then none
            else if (parts.take 1).countP HexPart.isEmptyTxt = 1 then none
            else if (parts.drop (n - 1)).countP HexPart.isEmptyTxt = 1 then none
            else foldHex parts

/-- Does `ipaddress.ip_address(s)` succeed? -/
def isValidIP (cs : List Char) : Bool :=
  (parseIPv4 cs).isSome || (parseIPv6 cs).isSome

/-- A parsed IP address object. -/
inductive PyIP where
  | v4 (n : Nat)
  | v6 (n : Nat)
deriving DecidableEq, Repr

/-- Network membership: same `plen`-bit prefix. -/
def inNet (width : Nat) (n base plen : Nat) : Bool :=
  n / 2 ^ (width - plen) = base / 2 ^ (width - plen)

def ip6h (h0 h1 : Nat) : Nat := (h0 * 65536 + h1) * 2 ^ 96

/-- `is_private` (the `_private_networks` tables of CPython `ipaddress`). -/
def PyIP.is_private : PyIP → Bool
  | .v4 n =>
    inNet 32 n (ip4 0 0 0 0) 8 || inNet 32 n (ip4 10 0 0 0) 8 ||
    inNet 32 n (ip4 127 0 0 0) 8 || inNet 32 n (ip4 169 254 0 0) 16 ||
    inNet 32 n (ip4 172 16 0 0) 12 || inNet 32 n (ip4 192 0 0 0) 29 ||
    inNet 32 n (ip4 192 0 0 170) 31 || inNet 32 n (ip4 192 0 2 0) 24 ||
    inNet 32 n (ip4 192 168 0 0) 16 || inNet 32 n (ip4 198 18 0 0) 15 ||
    inNet 32 n (ip4 198 51 100 0) 24 || inNet 32 n (ip4 203 0 113 0) 24 ||
    inNet 32 n (ip4 240 0 0 0) 4 || n = ip4 255 255 255 255
  | .v6 n =>
    n = 1 || n = 0 || inNet 128 n (65535 * 2 ^ 32) 96 ||
    inNet 128 n (256 * 2 ^ 112) 64 || inNet 128 n (ip6h 8193 0) 23 ||
    inNet 128 n (ip6h 8193 2) 48 || inNet 128 n (ip6h 8193 3512) 32 ||
    inNet 128 n (ip6h 8193 16) 28 || inNet 128 n (ip6h 64512 0) 7 ||
    inNet 128 n (ip6h 65152 0) 10

def PyIP.is_loopback : PyIP → Bool
  | .v4 n => inNet 32 n (ip4 127 0 0 0) 8
  | .v6 n => n = 1

def PyIP.is_link_local : PyIP → Bool
  | .v4 n => inNet 32 n (ip4 169 254 0 0) 16
  | .v6 n => inNet 128 n (ip6h 65152 0) 10

def PyIP.is_multicast : PyIP → Bool
  | .v4 n => inNet 32 n (ip4 224 0 0 0) 4
  | .v6 n => inNet 128 n (ip6h 65280 0) 8

def PyIP.is_unspecified : PyIP → Bool
  | .v4 n => n = 0
  | .v6 n => n = 0

/-! ## `configure_demo_hosts.py` -/

/-- `Hosts` dataclass. -/
structure Hosts where
  keycloak : List Char
  midpoint : List Char
  argocd : List Char
deriving DecidableEq, Repr

/-- `build_hosts(ip)`: validate, then derive the three nip.io hostnames. -/
def build_hosts (ip : List Char) : Option Hosts :=
  if isValidIP ip then
    some { keycloak := ("kc.".data) ++ ip ++ (".nip.io".data)
           midpoint := ("mp.".data) ++ ip ++ (".nip.io".data)
           argocd := ("argocd.".data) ++ ip ++ (".nip.io".data) }
  else none

/-- `_split_candidates(raw)`. -/
def split_candidates (raw : List Char) : List (List Char) :=
  if raw = [] then []
  else (splitRunsBy isWsComma (pyStrip raw)).filter (· ≠ [])

inductive ResolveErr where
  | badExplicitIp
  | noAddress
deriving DecidableEq, Repr

/-- The `for candidate in reversed(...)` loop: first valid address wins. -/
def findValidIP : List (List Char) → Option (List Char)
  | [] => none
  | c :: cs => if isValidIP c then some c else findValidIP cs

/-- The DNS loop: first hostname that resolves wins. -/
def resolveDns (dns : List Char → Option (List Char)) : List (List Char) → Option (List Char)
  | [] => none
  | h :: hs =>
    match dns h with
    | some a => some a
    | none => resolveDns dns hs

/-- `resolve_ingress_ip`.  `ipStatus`/`hostnameStatus` are the stdout of the
two `kubectl` jsonpath queries (`none` models a `KubectlError`, which the
source turns into `""`); `dns` models `socket.gethostbyname` (`none` for an
`OSError`).  An untruthy explicit IP/hostname is modelled by `some []`. -/
def resolve_ingress_ip (explicitIp explicitHostname : Option (List Char))
    (ipStatus hostnameStatus : Option (List Char))
    (dns : List Char → Option (List Char)) : Except ResolveErr (List Char) :=
  let expIp := explicitIp.getD []
  if expIp ≠ [] then
    if isValidIP expIp then .ok expIp else .error .badExplicitIp
  else
    let ipVals := (ipStatus.map pyStrip).getD []
    match findValidIP (split_candidates ipVals).reverse with
    | some c => .ok c
    | none =>
      let expHost := explicitHostname.getD []
      let hostVals := (hostnameStatus.map pyStrip).getD []
      let cands := (if expHost ≠ [] then [expHost] else []) ++ split_candidates hostVals
      match resolveDns dns cands with
      | some a => .ok a
      | none => .error .noAddress

inductive IngressOutcome where
  | reached (port : Nat)
  | nonPublicErr
  | unreachableErr
  | unreachableWarn
deriving DecidableEq, Repr

/-- The non-public–address test of `ensure_ingress_accessible`. -/
def nonPublic (ip : PyIP) : Bool :=
  ip.is_private || ip.is_loopback || ip.is_link_local || ip.is_multicast || ip.is_unspecified

def connectLoop (connect : Nat → Bool) (raiseOnError : Bool) (attempted : List Nat) :
    List Nat → IngressOutcome × List Nat
  | [] => ((if raiseOnError then .unreachableErr else .unreachableWarn), attempted)
  | p :: ps =>
    if connect p then (.reached p, attempted ++ [p])
    else connectLoop connect raiseOnError (attempted ++ [p]) ps

/-- `ensure_ingress_accessible(ip, ports=…, raise_on_error=…)` over an
already-parsed address.  `connect` models `socket.create_connection`; the
returned list records the ports for which a TCP connection was attempted. -/
def ensure_ingress_accessible (ip : PyIP) (ports : List Nat) (raiseOnError : Bool)
    (connect : Nat → Bool) : IngressOutcome × List Nat :=
  if nonPublic ip then (.nonPublicErr, []) else connectLoop connect raiseOnError [] ports

/-! ### Manifest host rewriting and the stale-host scan -/

def digitsSpan (cs : List Char) : List Char × List Char :=
  (cs.takeWhile Char.isDigit, cs.dropWhile Char.isDigit)

/-- Consume an exact literal. -/
def dropLit : List Char → List Char → Option (List Char)
  | [], cs => some cs
  | _ :: _, [] => none
  | l :: ls, c :: cs => if l = c then dropLit ls cs else none

/-- `\d+\.` of the rewrite pattern: a maximal non-empty digit run followed by
a dot (backtracking cannot help, since giving digits back still leaves a digit
where the dot is required). -/
def updOct (cs : List Char) : Option (List Char) :=
  let s := digitsSpan cs
  if s.1 = [] then none
  else
    match s.2 with
    | '.' :: r => some r
    | _ => none

/-- A match of `re.sub`'s pattern `pfx\.\d+\.\d+\.\d+\.\d+\.nip\.io` at the
head of `cs`: returns the rest after the match. -/
def updMatch (pfx : List Char) (cs : List Char) : Option (List Char) :=
  match dropLit (pfx ++ ['.']) cs with
  | none => none
  | some r0 =>
    match updOct r0 with
    | none => none
    | some r1 =>
      match updOct r1 with
      | none => none
      | some r2 =>
        match updOct r2 with
        | none => none
        | some r3 =>
          let s := digitsSpan r3
          if s.1 = [] then none else dropLit (".nip.io".data) s.2

/-- `pattern.sub(repl, content)`: leftmost non-overlapping matches replaced,
scanning resumes after each match.  Fuel `cs.length` always suffices. -/
def subPatF (pfx repl : List Char) : Nat → List Char → List Char
  | _, [] => []
  | 0, cs => cs
  | fuel + 1, c :: cs =>
    match updMatch pfx (c :: cs) with
    | some rest => repl ++ subPatF pfx repl fuel rest
    | none => c :: subPatF pfx repl fuel cs

def subPat (pfx repl : List Char) (cs : List Char) : List Char :=
  subPatF pfx repl cs.length cs

/-- The three substitutions of `update_manifest_hosts`, in source order. -/
def update_content (hosts : Hosts) (content : List Char) : List Char :=
  subPat ("argocd".data) hosts.argocd
    (subPat ("mp".data) hosts.midpoint
      (subPat ("kc".data) hosts.keycloak content))

/-- The file system: a list of (path, content) pairs; paths not listed do not
exist.  (The scan's directory recursion is outside the claims, which quantify
over file sets.) -/
def fsGet (fs : List (String × List Char)) (p : String) : Option (List Char) :=
  (fs.find? (fun e => e.1 = p)).map (fun e => e.2)

def fsSet (fs : List (String × List Char)) (p : String) (c : List Char) :
    List (String × List Char) :=
  fs.map (fun e => if e.1 = p then (p, c) else e)

/-- One iteration of the `update_manifest_hosts` loop: skip a missing file,
rewrite the content, write back only when it changed. -/
def updStep (hosts : Hosts) (st : List (String × List Char) × List String) (path : String) :
    List (String × List Char) × List String :=
  match fsGet st.1 path with
  | none => st
  | some content =>
    let updated := update_content hosts content
    if updated = content then st else (fsSet st.1 path updated, st.2 ++ [path])

/-- `update_manifest_hosts(manifest_files, hosts)` over the modelled file
system; returns the new file system and the list of files written. -/
def update_manifest_hosts (paths : List String) (fs : List (String × List Char))
    (hosts : Hosts) : List (String × List Char) × List String :=
  paths.foldl (updStep hosts) (fs, [])

/-- `\d{1,3}\.` of the scan pattern: a maximal digit run of length 1–3
followed by a dot; returns the digits and the rest. -/
def discOct (cs : List Char) : Option (List Char × List Char) :=
  let s := digitsSpan cs
  if s.1 = [] || 3 < s.1.length then none
  else
    match s.2 with
    | '.' :: r => some (s.1, r)
    | _ => none

/-- A match of the scan pattern
`\b(kc|mp|argocd)\.(\d{1,3}\.\d{1,3}\.\d{1,3}\.\d{1,3})\.nip\.io\b` at the
head of `cs` for one service prefix: returns the `ip` group and the rest. -/
def discMatchAt (prev : Option Char) (pfx : List Char) (cs : List Char) :
    Option (List Char × List Char) :=
  if !boundaryOk prev then none
  else
    match dropLit (pfx ++ ['.']) cs with
    | none => none
    | some r0 =>
      match discOct r0 with
      | none => none
      | some (d1, r1) =>
        match discOct r1 with
        | none => none
        | some (d2, r2) =>
          match discOct r2 with
          | none => none
          | some (d3, r3) =>
            let s := digitsSpan r3
            if s.1 = [] || 3 < s.1.length then none
            else
              match dropLit (".nip.io".data) s.2 with
              | none => none
              | some rest =>
                let bOk :=
                  match rest with
                  | [] => true
                  | c :: _ => !isWordChar c
                if bOk then some (d1 ++ '.' :: d2 ++ '.' :: d3 ++ '.' :: s.1, rest) else none

/-- Alternation over the three service prefixes (first characters distinct,
so at most one can match); returns `(group 0, ip group, rest)`. -/
def discMatch (prev : Option Char) (cs : List Char) : Option (List Char × List Char × List Char) :=
  match discMatchAt prev ("kc".data) cs with
  | some (ip, rest) => some (("kc.".data) ++ ip ++ (".nip.io".data), ip, rest)
  | none =>
    match discMatchAt prev ("mp".data) cs with
    | some (ip, rest) => some (("mp.".data) ++ ip ++ (".nip.io".data), ip, rest)
    | none =>
      match discMatchAt prev ("argocd".data) cs with
      | some (ip, rest) => some (("argocd.".data) ++ ip ++ (".nip.io".data), ip, rest)
      | none => none

/-- `finditer` of the scan pattern: leftmost non-overlapping matches in order;
every match ends in `o`, so the boundary context after a match is the
character `o`.  Fuel `cs.length` always suffices. -/
def discScanF : Nat → Option Char → List Char → List (List Char × List Char)
  | _, _, [] => []
  | 0, _, _ => []
  | fuel + 1, prev, c :: cs =>
    match discMatch prev (c :: cs) with
    | some (text, ip, rest) => (text, ip) :: discScanF fuel (some 'o') rest
    | none => discScanF fuel (some c) cs

def discScan (content : List Char) : List (List Char × List Char) :=
  discScanF content.length none content

/-- `discover_stale_hosts(paths, expected_ip)` over the modelled file system:
every match whose embedded IP differs from the expected one, in path order. -/
def discover_stale_hosts (paths : List String) (fs : List (String × List Char))
    (expected : List Char) : List (String × List Char) :=
  paths.foldr
    (fun path acc =>
      match fsGet fs path with
      | none => acc
      | some content =>
        ((discScan content).filterMap
          (fun tip => if tip.2 ≠ expected then some (path, tip.1) else none)) ++ acc)
    []

/-! ### JSON rendering (for stating the JSON-wrapper claim) -/

def hexDigitChar : Nat → Char
  | 0 => '0' | 1 => '1' | 2 => '2' | 3 => '3' | 4 => '4' | 5 => '5' | 6 => '6'
  | 7 => '7' | 8 => '8' | 9 => '9' | 10 => 'a' | 11 => 'b' | 12 => 'c' | 13 => 'd'
  | 14 => 'e' | 15 => 'f' | _ => '0'

/-- One character of a JSON string literal, escaped as `json.dumps` would. -/
def jsonEscChar (c : Char) : List Char :=
  if c = '"' then ['\\', '"']
  else if c = '\\' then ['\\', '\\']
  else if c = '\n' then ['\\', 'n']
  else if c = '\r' then ['\\', 'r']
  else if c = '\t' then ['\\', 't']
  else if c.toNat < 32 then
    ['\\', 'u', '0', '0', hexDigitChar (c.toNat / 16), hexDigitChar (c.toNat % 16)]
  else [c]

def jsonEscape (s : List Char) : List Char := s.flatMap jsonEscChar

def jsonQuote (s : List Char) : List Char := '"' :: jsonEscape s ++ ['"']

mutual
/-- A compact JSON serialisation of a document (a text that `json.loads`
would decode back to it). -/
def Json.render : Json → List Char
  | .str s => jsonQuote s
  | .atom => ("null".data)
  | .obj fs => '\x7b' :: JFields.render fs ++ ['\x7d']
  | .arr xs => '[' :: JList.render xs ++ [']']

def JFields.render : JFields → List Char
  | .nil => []
  | .cons k v .nil => jsonQuote k ++ ':' :: ' ' :: Json.render v
  | .cons k v (.cons k2 v2 rest) =>
    jsonQuote k ++ ':' :: ' ' :: Json.render v ++ ',' :: ' ' ::
      JFields.render (.cons k2 v2 rest)

def JList.render : JList → List Char
  | .nil => []
  | .cons v .nil => Json.render v
  | .cons v (.cons v2 rest) => Json.render v ++ ',' :: ' ' :: JList.render (.cons v2 rest)
end

/-! ### Side conditions under which `parse_credential` is idempotent -/

/-- A string that survives the re-parse of a canonical connection string
unchanged: stripped, and free of the split separators. -/
def goodStr (s : List Char) : Bool :=
  pyStrip s = s && !containsChar s ';' && !containsChar s '\n' && !containsChar s '\r'

/-- Non-degeneracy of the fields picked up by the delimited key=value branch:
no empty `AccountName`/`AccountKey`/`SharedAccessSignature` values (an empty
account name is only harmless when the fallback account is empty too), and a
clean fallback account when it gets written into the output. -/
def goodParts (m : List (List Char × List Char × List Char)) (storage : List Char) : Bool :=
  (match partsGet m ("accountname".data) with
   | some (_, v) => v ≠ [] || storage = []
   | none => storage = [] || goodStr storage) &&
  (match partsGet m ("accountkey".data) with
   | some (_, v) => v ≠ []
   | none => true) &&
  (match partsGet m ("sharedaccesssignature".data) with
   | some (_, v) => v ≠ []
   | none => true)

/-- Companion of `tryCands`: the side condition evaluated at the candidate
that succeeds. -/
def goodCands (recurse : List Char → Except ParseErr AzureCredential)
    (good : List Char → Bool) (value : List Char) :
    List (List Char) → List (List Char) → Bool
  | _, [] => false
  | seen, cand :: rest =>
    if cand = value || seen.contains cand then goodCands recurse good value seen rest
    else
      match recurse cand with
      | .ok _ => good cand
      | .error .fuelOut => false
      | .error _ => goodCands recurse good value (cand :: seen) rest

/-- Companion of `jsonStepF` for the side condition. -/
def goodJsonF (recurse : List Char → Except ParseErr AzureCredential)
    (good : List Char → Bool) (decode : List Char → Option Json) (value : List Char) : Bool :=
  match decode value with
  | some j => goodCands recurse good value [] (iterStrings j)
  | none => false

/-- The idempotence side condition, mirroring the branch selection of
`parseCredGo`: it holds when the branch that finally produces the credential
does so with non-degenerate fields (see `goodParts`/`goodStr`). -/
def goodRun (decode : List Char → Option Json) : Nat → List Char → List Char → Bool
  | 0, _, _ => false
  | fuel + 1, raw, storage =>
    let value := unquoteStrip raw
    if value = [] then false
    else
      let normalized := normNl value
      if devCond normalized then true
      else if branch2cond normalized then
        goodParts (partsOfSegments (splitRunsBy isSemiNl normalized)) storage
      else
        match branch3Parts value storage with
        | some acg => acg.1 ≠ [] && goodStr acg.1 && goodStr acg.2.1 && goodStr acg.2.2
        | none =>
          match branch4 value storage with
          | some _ => storage ≠ [] && goodStr storage && goodStr (lstripChar '?' value)
          | none =>
            match branch5 value normalized storage with
            | some _ => storage ≠ [] && goodStr storage && goodStr value
            | none =>
              if mlCond normalized then
                match colonSegments normalized with
                | [] => goodJsonF (fun cand => parseCredGo decode fuel cand storage)
                    (fun cand => goodRun decode fuel cand storage) decode value
                | seg :: segs =>
                  match parseCredGo decode fuel (joinSep ';' (seg :: segs)) storage with
                  | .ok _ => goodRun decode fuel (joinSep ';' (seg :: segs)) storage
                  | .error .fuelOut => false
                  | .error _ => goodJsonF (fun cand => parseCredGo decode fuel cand storage)
                      (fun cand => goodRun decode fuel cand storage) decode value
              else goodJsonF (fun cand => parseCredGo decode fuel cand storage)
                  (fun cand => goodRun decode fuel cand storage) decode value

/-! ### Occurrence counting (for the manifest-scan claims) -/

/-- Does content contain a match of one of the three rewrite patterns
anywhere? -/
def anyUpdMatch (cs : List Char) : Bool :=
  (updMatch ("kc".data) cs).isSome || (updMatch ("mp".data) cs).isSome ||
    (updMatch ("argocd".data) cs).isSome

def containsHostPat : List Char → Bool
  | [] => false
  | c :: cs => anyUpdMatch (c :: cs) || containsHostPat cs

/-- Number of positions at which `pat` occurs in `cs`. -/
def occCount (pat : List Char) : List Char → Nat
  | [] => if pat = [] then 1 else 0
  | c :: cs => (if startsWithL (c :: cs) pat then 1 else 0) + occCount pat cs

/-- Number of positions *inside `a`* at which `pat` occurs in `a ++ b`. -/
def occIn (pat a b : List Char) : Nat :=
  match a with
  | [] => 0
  | c :: a2 => (if startsWithL (c :: (a2 ++ b)) pat then 1 else 0) + occIn pat a2 b

/-- The last character of `x`, or `prev` when `x` is empty (the boundary
context after scanning past `x`). -/
def lastOr (prev : Option Char) (x : List Char) : Option Char :=
  match x.getLast? with
  | some c => some c
  | none => prev

/-! ## Basic lemmas -/

theorem startsWithL_append_self (a b : List Char) : startsWithL (a ++ b) a = true := by
  induction a with
  | nil => simp [startsWithL]
  | cons c cs ih => simpa [startsWithL] using ih

theorem containsSub_of_startsWith {hay pat : List Char} (h : startsWithL hay pat = true) :
    containsSub hay pat = true := by
  cases hay with
  | nil => simpa [containsSub] using h
  | cons c t => simp [containsSub, h]

theorem containsSub_append_left {b pat : List Char} (a : List Char)
    (h : containsSub b pat = true) : containsSub (a ++ b) pat = true := by
  induction a with
  | nil => simpa using h
  | cons c cs ih => simp [containsSub, ih]

theorem containsSub_mid (a pat b : List Char) : containsSub (a ++ pat ++ b) pat = true := by
  rw [List.append_assoc]
  exact containsSub_append_left a (containsSub_of_startsWith (startsWithL_append_self pat b))

theorem joinSep_startsWith_head (sep : Char) (f : List Char) (rest : List (List Char)) :
    startsWithL (joinSep sep (f :: rest)) f = true := by
  cases rest with
  | nil => simpa [joinSep] using startsWithL_append_self f []
  | cons y ys => simpa [joinSep] using startsWithL_append_self f (sep :: joinSep sep (y :: ys))

theorem joinSep_mem_tail (sep : Char) (f0 f : List Char) (rest : List (List Char))
    (h : f ∈ rest) : containsSub (joinSep sep (f0 :: rest)) (sep :: f) = true := by
  induction rest generalizing f0 with
  | nil => cases h
  | cons g gs ih =>
    rcases List.mem_cons.mp h with rfl | hmem
    · have : startsWithL (sep :: joinSep sep (f :: gs)) (sep :: f) = true := by
        have := joinSep_startsWith_head sep f gs
        simpa [startsWithL] using this
      have := containsSub_of_startsWith this
      simpa [joinSep] using containsSub_append_left f0 this
    · have := ih g hmem
      simpa [joinSep] using containsSub_append_left (f0 ++ [sep]) (by simpa using this)

theorem pyStrip_eq_self {cs : List Char} (h1 : ∀ c, cs.head? = some c → pyWs c = false)
    (h2 : ∀ c, cs.getLast? = some c → pyWs c = false) : pyStrip cs = cs := by
  unfold pyStrip
  have hd : cs.dropWhile pyWs = cs := by
    cases cs with
    | nil => rfl
    | cons c cs' =>
      rw [List.dropWhile_cons, h1 c rfl]
      simp
  rw [hd]
  rcases hrev : cs.reverse with _ | ⟨d, r⟩
  · have hnil : cs = [] := by simpa using congrArg List.reverse hrev
    simp [hnil]
  · have hdl : cs.getLast? = some d := by
      rw [← List.head?_reverse, hrev]
      rfl
    rw [List.dropWhile_cons, h2 d hdl]
    simp [← hrev]

/-! ## Claim C7 -/

/-- C7: for every IP address that is private, loopback, link-local, multicast,
or unspecified, `ensure_ingress_accessible` raises the non-public-IP error
without attempting any TCP connection, for every candidate port list, for both
values of the skip-reachability flag, and for any connectivity whatsoever. -/
theorem C7_non_public_ip_always_rejected (ip : PyIP) (ports : List Nat)
    (raiseOnError : Bool) (connect : Nat → Bool)
    (h : ip.is_private = true ∨ ip.is_loopback = true ∨ ip.is_link_local = true ∨
      ip.is_multicast = true ∨ ip.is_unspecified = true) :
    ensure_ingress_accessible ip ports raiseOnError connect = (.nonPublicErr, []) := by
  have hnp : nonPublic ip = true := by
    unfold nonPublic
    rcases h with h | h | h | h | h <;> simp [h]
  simp [ensure_ingress_accessible, hnp]

/-- Witness: the private address `10.0.0.4` with the default ports is rejected
(with the failure-raising flag set and a connectivity that would accept). -/
theorem C7_witness :
    PyIP.is_private (.v4 (ip4 10 0 0 4)) = true ∧
    ensure_ingress_accessible (.v4 (ip4 10 0 0 4)) [80, 443] true (fun _ => true) =
      (.nonPublicErr, []) := by
  refine ⟨by decide, ?_⟩
  exact C7_non_public_ip_always_rejected _ _ _ _ (Or.inl (by decide))

/-! ## Claim C6 -/

theorem findValidIP_reverse (l : List (List Char)) :
    findValidIP l.reverse = (l.filter (fun c => isValidIP c)).getLast? := by
  induction l using List.reverseRecOn with
  | nil => simp [findValidIP]
  | append_singleton l x ih =>
    rw [List.reverse_append]
    by_cases hx : isValidIP x
    · simp [findValidIP, hx, List.filter_append]
    · simp [findValidIP, hx, List.filter_append, ih]

/-- C6: with no explicit IP override and a load-balancer status carrying
several candidates at least one of which is a valid address,
`resolve_ingress_ip` returns the last-listed valid candidate. -/
theorem C6_resolve_picks_last_valid_candidate (status : List Char)
    (explicitHostname hostnameStatus : Option (List Char))
    (dns : List Char → Option (List Char))
    (hmany : 2 ≤ (split_candidates (pyStrip status)).length)
    (hv : (split_candidates (pyStrip status)).filter (fun c => isValidIP c) ≠ []) :
    resolve_ingress_ip none explicitHostname (some status) hostnameStatus dns =
      .ok (((split_candidates (pyStrip status)).filter (fun c => isValidIP c)).getLastD []) := by
  rcases hlast : ((split_candidates (pyStrip status)).filter (fun c => isValidIP c)).getLast?
    with _ | ⟨x⟩
  · exact absurd (List.getLast?_eq_none_iff.mp hlast) hv
  · have hfind : findValidIP (split_candidates (pyStrip status)).reverse = some x := by
      rw [findValidIP_reverse, hlast]
    have hD : ((split_candidates (pyStrip status)).filter (fun c => isValidIP c)).getLastD [] = x := by
      simp [List.getLastD_eq_getLast?, hlast]
    unfold resolve_ingress_ip
    rw [hD]
    simp [hfind]

/-- Witness: the spec's example — for the status `"198.51.100.7 203.0.113.10"`
the resolution returns `203.0.113.10`, the last-listed candidate. -/
theorem C6_witness :
    resolve_ingress_ip none none (some ("198.51.100.7 203.0.113.10".data)) none
      (fun _ => none) = .ok ("203.0.113.10".data) := by
  have h := C6_resolve_picks_last_valid_candidate ("198.51.100.7 203.0.113.10".data)
    none none (fun _ => none) (by decide) (by decide)
  rw [show ((split_candidates (pyStrip ("198.51.100.7 203.0.113.10".data))).filter
      (fun c => isValidIP c)).getLastD [] = ("203.0.113.10".data) from by decide] at h
  exact h

/-! ## Claim C10 -/

/-- C10: an input that is empty, whitespace-only, or whitespace-only after
removing one matching pair of outer quotes, is rejected with the
`Credential must not be empty` error — for every fallback account and every
JSON decoder (no detection branch is consulted). -/
theorem C10_blank_input_rejected (decode : List Char → Option Json)
    (raw storage : List Char)
    (h : pyStrip raw = [] ∨
      (quotedBy '"' (pyStrip raw) = true ∧ pyStrip ((pyStrip raw).tail.dropLast) = []) ∨
      (quotedBy chApos (pyStrip raw) = true ∧ pyStrip ((pyStrip raw).tail.dropLast) = [])) :
    parse_credential decode raw storage = .error .empty := by
  have hempty : unquoteStrip raw = [] := by
    unfold unquoteStrip
    rcases h with h | ⟨hq, hs⟩ | ⟨hq, hs⟩
    · simp [h, quotedBy]
    · simp [hq, List.drop_one, hs]
    · simp [hq, List.drop_one, hs]
  unfold parse_credential parseCredGo
  simp [hempty]

/-- Witness: a quoted whitespace credential is rejected as empty. -/
theorem C10_witness :
    parse_credential (fun _ => none) ("  \"  \"  ".data) ("acct".data) = .error .empty :=
  C10_blank_input_rejected _ _ _ (Or.inr (Or.inl ⟨by decide, by decide⟩))

/-! ## Claim C9 -/

theorem eq_none_of_isSome_false {α : Type} {o : Option α} (h : o.isSome = false) : o = none := by
  cases o <;> simp_all

theorem updMatch_none_of_no_pat {c : Char} {cs : List Char}
    (h : containsHostPat (c :: cs) = false) {pfx : List Char}
    (hpfx : pfx = ("kc".data) ∨ pfx = ("mp".data) ∨ pfx = ("argocd".data)) :
    updMatch pfx (c :: cs) = none := by
  have h2 : anyUpdMatch (c :: cs) = false := by
    have hh := h
    unfold containsHostPat at hh
    exact (Bool.or_eq_false_iff.mp hh).1
  unfold anyUpdMatch at h2
  rw [Bool.or_eq_false_iff] at h2
  rw [Bool.or_eq_false_iff] at h2
  rcases hpfx with rfl | rfl | rfl
  · exact eq_none_of_isSome_false h2.1.1
  · exact eq_none_of_isSome_false h2.1.2
  · exact eq_none_of_isSome_false h2.2

theorem containsHostPat_tail {c : Char} {cs : List Char}
    (h : containsHostPat (c :: cs) = false) : containsHostPat cs = false := by
  unfold containsHostPat at h
  exact (Bool.or_eq_false_iff.mp h).2

theorem subPatF_id {pfx : List Char}
    (hpfx : pfx = ("kc".data) ∨ pfx = ("mp".data) ∨ pfx = ("argocd".data))
    (repl : List Char) :
    ∀ (cs : List Char) (fuel : Nat), containsHostPat cs = false →
      subPatF pfx repl fuel cs = cs := by
  intro cs
  induction cs with
  | nil => intro fuel _; cases fuel <;> rfl
  | cons c cs ih =>
    intro fuel h
    cases fuel with
    | zero => rfl
    | succ f =>
      rw [subPatF, updMatch_none_of_no_pat h hpfx, ih f (containsHostPat_tail h)]

theorem update_content_id {content : List Char} (hosts : Hosts)
    (h : containsHostPat content = false) : update_content hosts content = content := by
  unfold update_content subPat
  rw [subPatF_id (Or.inl rfl) _ _ _ h, subPatF_id (Or.inr (Or.inl rfl)) _ _ _ h,
    subPatF_id (Or.inr (Or.inr rfl)) _ _ _ h]

theorem fsGet_fsSet_ne {fs : List (String × List Char)} {p q : String} {c : List Char}
    (h : p ≠ q) : fsGet (fsSet fs q c) p = fsGet fs p := by
  induction fs with
  | nil => rfl
  | cons e fs ih =>
    unfold fsSet fsGet
    rw [List.map_cons]
    by_cases he : e.1 = q
    · rw [if_pos he]
      have h1 : ((q, c).1 = p) = False := by simp [Ne.symm h]
      have h2 : (e.1 = p) = False := by simp [he, Ne.symm h]
      simp only [List.find?, h1, h2, decide_False]
      simpa [fsGet, fsSet] using ih
    · rw [if_neg he]
      by_cases hp : e.1 = p
      · simp [List.find?, hp]
      · have h2 : (e.1 = p) = False := by simp [hp]
        simp only [List.find?, h2, decide_False]
        simpa [fsGet, fsSet] using ih

theorem update_fold_preserves (hosts : Hosts) (path : String) (co : Option (List Char))
    (hco : ∀ content, co = some content → containsHostPat content = false) :
    ∀ (paths : List String) (st : List (String × List Char) × List String),
      fsGet st.1 path = co → path ∉ st.2 →
      fsGet (paths.foldl (updStep hosts) st).1 path = co ∧
        path ∉ (paths.foldl (updStep hosts) st).2 := by
  intro paths
  induction paths with
  | nil => intro st h1 h2; exact ⟨h1, h2⟩
  | cons p2 rest ih =>
    intro st h1 h2
    rw [List.foldl_cons]
    rcases hget : fsGet st.1 p2 with _ | ⟨c2⟩
    · have hst : updStep hosts st p2 = st := by
        unfold updStep
        rw [hget]
      rw [hst]
      exact ih st h1 h2
    · by_cases heq : p2 = path
      · subst heq
        rcases co with _ | ⟨c⟩
        · rw [h1] at hget; cases hget
        · have hc2 : c2 = c := by rw [h1] at hget; exact (Option.some_inj.mp hget).symm
          subst hc2
          have hupd : update_content hosts c2 = c2 := update_content_id hosts (hco c2 rfl)
          have hst : updStep hosts st p2 = st := by
            unfold updStep
            rw [hget]
            simp [hupd]
          rw [hst]
          exact ih st h1 h2
      · have hne : path ≠ p2 := fun hh => heq hh.symm
        have hstep1 : fsGet (updStep hosts st p2).1 path = co := by
          unfold updStep
          rw [hget]
          by_cases hch : update_content hosts c2 = c2
          · simp only [hch, if_pos rfl]
            exact h1
          · simp only [if_neg hch]
            rw [fsGet_fsSet_ne hne]
            exact h1
        have hstep2 : path ∉ (updStep hosts st p2).2 := by
          unfold updStep
          rw [hget]
          by_cases hch : update_content hosts c2 = c2
          · simp only [hch, if_pos rfl]
            exact h2
          · simp only [if_neg hch]
            simp [h2, hne]
        exact ih _ hstep1 hstep2

/-- C9: `update_manifest_hosts` modifies only files whose content matches one
of the `kc./mp./argocd.<IPv4>.nip.io` rewrite patterns: an existing file with
no such match keeps its exact content and is not written, and a listed path
that does not exist on disk is skipped without error (it still does not exist
afterwards and is never written). -/
theorem C9_update_frame (paths : List String) (fs : List (String × List Char))
    (hosts : Hosts) (path : String) :
    (∀ content, fsGet fs path = some content → containsHostPat content = false →
      fsGet (update_manifest_hosts paths fs hosts).1 path = some content ∧
        path ∉ (update_manifest_hosts paths fs hosts).2) ∧
    (fsGet fs path = none →
      fsGet (update_manifest_hosts paths fs hosts).1 path = none ∧
        path ∉ (update_manifest_hosts paths fs hosts).2) := by
  constructor
  · intro content hget hclean
    exact update_fold_preserves hosts path (some content)
      (fun c hc => by cases hc; exact hclean) paths (fs, []) hget (by simp)
  · intro hget
    exact update_fold_preserves hosts path none (fun c hc => by cases hc) paths (fs, [])
      hget (by simp)

/-- Witness for C9: a file whose content holds no host pattern is untouched,
for a concrete manifest list that also names a missing file. -/
theorem C9_witness :
    fsGet (update_manifest_hosts ["a.yaml", "missing.yaml"]
        [("a.yaml", ("plain: text".data))]
        ⟨("kc.1.2.3.4.nip.io".data), ("mp.1.2.3.4.nip.io".data),
         ("argocd.1.2.3.4.nip.io".data)⟩).1 "a.yaml" = some ("plain: text".data) ∧
    "a.yaml" ∉ (update_manifest_hosts ["a.yaml", "missing.yaml"]
        [("a.yaml", ("plain: text".data))]
        ⟨("kc.1.2.3.4.nip.io".data), ("mp.1.2.3.4.nip.io".data),
         ("argocd.1.2.3.4.nip.io".data)⟩).2 :=
  (C9_update_frame _ _ _ _).1 ("plain: text".data) (by decide) (by decide)

/-! ## Claim C5 -/

theorem tryCands_error (recurse : List Char → Except ParseErr AzureCredential)
    (value : List Char) :
    ∀ (cands seen : List (List Char)) (e : ParseErr),
      tryCands recurse value seen cands = some (.error e) → e = .fuelOut := by
  intro cands
  induction cands with
  | nil => intro seen e h; cases h
  | cons cand rest ih =>
    intro seen e h
    unfold tryCands at h
    split at h
    · exact ih _ _ h
    · split at h
      · cases h
      · cases h; rfl
      · exact ih _ _ h

theorem jsonStepF_error (recurse : List Char → Except ParseErr AzureCredential)
    (decode : List Char → Option Json) (value normalized : List Char) (e : ParseErr)
    (h : jsonStepF recurse decode value normalized = .error e) :
    e = .fuelOut ∨ e = .unrecognized normalized := by
  unfold jsonStepF at h
  split at h
  · split at h
    · rename_i r hr
      cases h
      exact Or.inl (tryCands_error recurse value _ _ _ hr)
    · cases h
      exact Or.inr rfl
  · cases h
    exact Or.inr rfl

theorem parseCredGo_succ_error (decode : List Char → Option Json) (fuel : Nat)
    (raw storage : List Char) (e : ParseErr)
    (h : parseCredGo decode (fuel + 1) raw storage = .error e) :
    (e = .empty ∧ unquoteStrip raw = []) ∨ e = .fuelOut ∨
      e = .unrecognized (normNl (unquoteStrip raw)) := by
  unfold parseCredGo at h
  simp only [] at h
  split at h
  · cases h
    exact Or.inl ⟨rfl, by assumption⟩
  · split at h
    · cases h
    · split at h
      · cases h
      · split at h
        · cases h
        · split at h
          · cases h
          · split at h
            · cases h
            · split at h
              · split at h
                · exact Or.inr (jsonStepF_error _ _ _ _ _ h)
                · split at h
                  · cases h
                  · cases h
                    exact Or.inr (Or.inl rfl)
                  · exact Or.inr (jsonStepF_error _ _ _ _ _ h)
              · exact Or.inr (jsonStepF_error _ _ _ _ _ h)

/-- C5 (amended): every failing input that is still non-empty after stripping
whitespace and outer quotes is rejected with the detailed `ValueError`, whose
message carries the hash-prefix fingerprint, the redacted preview, the input
length, and the boolean heuristic summary of the normalised input.  (The
`fuelOut` exclusion only discharges the model's stand-in for Python's
recursion limit, reachable only with a dishonest JSON decoder.) -/
theorem C5_failure_is_diagnosable (decode : List Char → Option Json)
    (raw storage : List Char) (e : ParseErr)
    (h : parse_credential decode raw storage = .error e)
    (hne : unquoteStrip raw ≠ []) (hf : e ≠ .fuelOut) :
    e = .unrecognized (normNl (unquoteStrip raw)) ∧
    ∀ hash : List Char → List Char,
      containsSub (errorMessage hash e) ((hash (normNl (unquoteStrip raw))).take 12) = true ∧
      containsSub (errorMessage hash e) (redactedPreview (normNl (unquoteStrip raw))) = true ∧
      containsSub (errorMessage hash e) (natChars (normNl (unquoteStrip raw)).length) = true ∧
      containsSub (errorMessage hash e) (heuristicSummary (normNl (unquoteStrip raw))) = true := by
  rcases parseCredGo_succ_error decode raw.length raw storage e h with ⟨_, hv⟩ | he | he
  · exact absurd hv hne
  · exact absurd he hf
  · subst he
    refine ⟨rfl, fun hash => ?_⟩
    refine ⟨?_, ?_, ?_, ?_⟩
    · simp only [errorMessage, List.append_assoc]
      exact containsSub_append_left _ (containsSub_append_left _ (containsSub_append_left _
        (containsSub_of_startsWith (startsWithL_append_self _ _))))
    · simp only [errorMessage, List.append_assoc]
      exact containsSub_append_left _ (containsSub_append_left _ (containsSub_append_left _
        (containsSub_append_left _ (containsSub_append_left _
          (containsSub_of_startsWith (startsWithL_append_self _ _))))))
    · simp only [errorMessage, List.append_assoc]
      exact containsSub_append_left _ (containsSub_of_startsWith
        (startsWithL_append_self _ _))
    · simp only [errorMessage, List.append_assoc]
      exact containsSub_append_left _ (containsSub_append_left _ (containsSub_append_left _
        (containsSub_append_left _ (containsSub_append_left _ (containsSub_append_left _
          (containsSub_append_left _ (containsSub_of_startsWith
            (startsWithL_append_self _ _))))))))

/-- Witness: the unparseable input `what is this` produces the detailed error,
and its message contains the fingerprint prefix of a sample digest. -/
theorem C5_witness :
    parse_credential (fun _ => none) ("what is this".data) ("acct".data) =
      .error (.unrecognized ("what is this".data)) ∧
    containsSub
      (errorMessage (fun _ => ("0123456789abcdef0".data)) (.unrecognized ("what is this".data)))
      ((("0123456789abcdef0".data)).take 12) = true := by
  have heq : parse_credential (fun _ => none) ("what is this".data) ("acct".data) =
      .error (.unrecognized ("what is this".data)) := by rfl
  refine ⟨heq, ?_⟩
  exact ((C5_failure_is_diagnosable (fun _ => none) ("what is this".data) ("acct".data)
    _ heq (by decide) (by decide)).2 (fun _ => ("0123456789abcdef0".data))).1

/-- Counterexample to C5 as frozen: the input `" "` (one space) is a non-empty
string on which `parse_credential` fails, but with the bare
`Credential must not be empty` message, which carries no fingerprint
component. -/
theorem C5_counterexample :
    (" ".data) ≠ [] ∧
    parse_credential (fun _ => none) (" ".data) ("acct".data) = .error .empty ∧
    containsSub (errorMessage (fun _ => ("0123456789abcdef0".data)) .empty)
      (", fingerprint=".data) = false := by
  exact ⟨by decide, rfl, by decide⟩

/-! ## Claim C2 -/

theorem partsOfSegments_inv (segs : List (List Char)) :
    ∀ e ∈ partsOfSegments segs, e.1 = lowerL e.2.1 := by
  have main : ∀ (l : List (List Char)) (acc : List (List Char × List Char × List Char)),
      (∀ e ∈ acc, e.1 = lowerL e.2.1) →
      ∀ e ∈ l.foldl (fun m seg =>
        if seg = [] then m
        else
          match parseSegment seg with
          | none => m
          | some (k, v) => if k = [] then m else (lowerL k, k, v) :: m) acc,
        e.1 = lowerL e.2.1 := by
    intro l
    induction l with
    | nil => intro acc hacc e he; exact hacc e he
    | cons seg rest ih =>
      intro acc hacc e he
      rw [List.foldl_cons] at he
      refine ih _ ?_ e he
      intro e2 he2
      by_cases hs : seg = []
      · simp only [hs, if_pos rfl] at he2
        exact hacc e2 he2
      · simp only [if_neg hs] at he2
        rcases hps : parseSegment seg with _ | ⟨k, v⟩
        · rw [hps] at he2
          exact hacc e2 he2
        · rw [hps] at he2
          by_cases hk : k = []
          · simp only [hk, if_pos rfl] at he2
            exact hacc e2 he2
          · simp only [if_neg hk] at he2
            rcases List.mem_cons.mp he2 with rfl | hmem
            · rfl
            · exact hacc e2 hmem
  exact main segs [] (by intro e he; cases he)

theorem partsGet_lower {segs : List (List Char)} {low k v : List Char}
    (h : partsGet (partsOfSegments segs) low = some (k, v)) : lowerL k = low := by
  unfold partsGet at h
  rcases hf : (partsOfSegments segs).find? (fun e => e.1 = low) with _ | ⟨e⟩
  · rw [hf] at h; cases h
  · rw [hf] at h
    have hp : (e.1 = low) := by
      have := List.find?_some hf
      simpa using this
    have hinv := partsOfSegments_inv segs e (List.mem_of_find?_eq_some hf)
    cases h
    rw [← hp, hinv]

theorem joinSep_head (sep : Char) (f : List Char) (rest : List (List Char)) :
    ∃ t, joinSep sep (f :: rest) = f ++ t := by
  cases rest with
  | nil => exact ⟨[], by simp [joinSep]⟩
  | cons y ys => exact ⟨sep :: joinSep sep (y :: ys), rfl⟩

theorem lowerStartsWith_false_of_head {x p : Char} {rest ps : List Char}
    (h : x.toLower ≠ p) : lowerStartsWith (x :: rest) (p :: ps) = false := by
  simp only [lowerStartsWith, lowerL, List.map_cons, startsWithL, Bool.and_eq_false_imp,
    decide_eq_true_eq]
  intro hh
  exact absurd hh.symm h

theorem tryCands_ok (recurse : List Char → Except ParseErr AzureCredential)
    (value : List Char) (c : AzureCredential) :
    ∀ (cands seen : List (List Char)),
      tryCands recurse value seen cands = some (.ok c) → ∃ cand, recurse cand = .ok c := by
  intro cands
  induction cands with
  | nil => intro seen h; cases h
  | cons cand rest ih =>
    intro seen h
    unfold tryCands at h
    split at h
    · exact ih _ h
    · split at h
      · rename_i c2 hr
        cases h
        exact ⟨cand, hr⟩
      · cases h
      · exact ih _ h

theorem jsonStepF_ok {recurse : List Char → Except ParseErr AzureCredential}
    {decode : List Char → Option Json} {value normalized : List Char} {c : AzureCredential}
    (h : jsonStepF recurse decode value normalized = .ok c) :
    ∃ cand, recurse cand = .ok c := by
  unfold jsonStepF at h
  split at h
  · split at h
    · rename_i r hr
      subst h
      exact tryCands_ok recurse value c _ _ hr
    · cases h
  · cases h

theorem branch2_not_dev (m : List (List Char × List Char × List Char)) (storage : List Char)
    (hlow : ∀ k v, partsGet m ("defaultendpointsprotocol".data) = some (k, v) →
      lowerL k = ("defaultendpointsprotocol".data)) :
    lowerStartsWith (joinSep ';' (branch2Fields m storage))
      ("usedevelopmentstorage=true".data) = false := by
  have hshape : ∃ pf rest, branch2Fields m storage = pf :: rest ∧
      ∃ x xs, pf = x :: xs ∧ x.toLower = 'd' := by
    unfold branch2Fields b2proto
    rcases hp : partsGet m ("defaultendpointsprotocol".data) with _ | ⟨k, v⟩
    · exact ⟨_, _, rfl, 'D', _, rfl, by decide⟩
    · have hl := hlow k v hp
      cases k with
      | nil => exact absurd hl (by decide)
      | cons x k2 =>
        have hl2 : x.toLower :: lowerL k2 = 'd' :: ("efaultendpointsprotocol".data) := by
          have hlit : ("defaultendpointsprotocol".data) =
              'd' :: ("efaultendpointsprotocol".data) := by decide
          simpa [lowerL, hlit] using hl
        have hx : x.toLower = 'd' := by
          simpa using congrArg List.head? hl2
        exact ⟨_, _, rfl, x, _, rfl, hx⟩
  obtain ⟨pf, rest, hbf, x, xs, hpf, hx⟩ := hshape
  rw [hbf]
  obtain ⟨t, ht⟩ := joinSep_head ';' pf rest
  rw [ht, hpf]
  exact lowerStartsWith_false_of_head (by rw [hx]; decide)

theorem conn_contains_key (m : List (List Char × List Char × List Char))
    (storage ko k : List Char)
    (hak : partsGet m ("accountkey".data) = some (ko, k)) (hk : k ≠ []) :
    containsSub (joinSep ';' (branch2Fields m storage))
      (';' :: (("AccountKey=".data) ++ k)) = true := by
  apply joinSep_mem_tail
  simp only [b2key, hak, Option.map]
  simp [hk, List.mem_append]

theorem conn_contains_sas (m : List (List Char × List Char × List Char))
    (storage so s : List Char)
    (hsa : partsGet m ("sharedaccesssignature".data) = some (so, s)) (hs : s ≠ []) :
    containsSub (joinSep ';' (branch2Fields m storage))
      (';' :: (("SharedAccessSignature=".data) ++ s)) = true := by
  apply joinSep_mem_tail
  simp only [b2sas, hsa, Option.map]
  simp [hs, List.mem_append]

theorem startsD_not_dev (r : List Char) :
    lowerStartsWith (("DefaultEndpointsProtocol=https;AccountName=".data) ++ r)
      ("usedevelopmentstorage=true".data) = false :=
  lowerStartsWith_false_of_head (by decide)

theorem credOk_invariant (decode : List Char → Option Json) :
    ∀ (fuel : Nat) (raw storage : List Char) (c : AzureCredential),
      parseCredGo decode fuel raw storage = .ok c →
      (lowerStartsWith c.connection_string ("usedevelopmentstorage=true".data) = true →
        c.account_key = none ∧ c.sas_token = none) ∧
      (∀ k s, c.account_key = some k → c.sas_token = some s → k ≠ [] → s ≠ [] →
        containsSub c.connection_string ((";AccountKey=".data) ++ k) = true ∧
        containsSub c.connection_string ((";SharedAccessSignature=".data) ++ s) = true) := by
  intro fuel
  induction fuel with
  | zero => intro raw storage c h; cases h
  | succ fuel ih =>
    intro raw storage c h
    unfold parseCredGo at h
    simp only [] at h
    split at h
    · cases h
    · split at h
      · cases h
        exact ⟨fun _ => ⟨rfl, rfl⟩, fun k s hk => by cases hk⟩
      · split at h
        · -- the delimited key=value branch
          cases h
          constructor
          · intro hdev
            simp only [branch2] at hdev
            have hfd := branch2_not_dev
              (partsOfSegments (splitRunsBy isSemiNl (normNl (unquoteStrip raw)))) storage
              (fun k v hp => partsGet_lower hp)
            simp [hfd] at hdev
          · intro k s hk hs hkne hsne
            simp only [branch2] at hk hs ⊢
            rcases hak : partsGet (partsOfSegments (splitRunsBy isSemiNl
                (normNl (unquoteStrip raw)))) ("accountkey".data) with _ | ⟨ko, kv⟩
            · rw [hak] at hk; cases hk
            · rw [hak] at hk
              simp only [Option.map, Option.some.injEq] at hk
              subst hk
              rcases hsa : partsGet (partsOfSegments (splitRunsBy isSemiNl
                  (normNl (unquoteStrip raw)))) ("sharedaccesssignature".data) with _ | ⟨so, sv⟩
              · rw [hsa] at hs; cases hs
              · rw [hsa] at hs
                simp only [Option.map, Option.some.injEq] at hs
                subst hs
                have hmark1 : ((";AccountKey=".data) ++ kv) =
                    ';' :: (("AccountKey=".data) ++ kv) := rfl
                have hmark2 : ((";SharedAccessSignature=".data) ++ sv) =
                    ';' :: (("SharedAccessSignature=".data) ++ sv) := rfl
                rw [hmark1, hmark2]
                exact ⟨conn_contains_key _ _ _ _ hak hkne, conn_contains_sas _ _ _ _ hsa hsne⟩
        · split at h
          · -- URL-with-SAS branch
            rename_i c2 hb3
            cases h
            rcases hbp : branch3Parts (unquoteStrip raw) storage with _ | ⟨acg⟩
            · rw [branch3, hbp] at hb3; cases hb3
            · rw [branch3, hbp] at hb3
              simp only [Option.map, Option.some.injEq] at hb3
              subst hb3
              refine ⟨fun hdev => ?_, fun k s hk => by cases hk⟩
              have hfd : lowerStartsWith
                  (("DefaultEndpointsProtocol=https;AccountName=".data) ++ acg.1 ++
                    (";BlobEndpoint=".data) ++ acg.2.1 ++
                    (";SharedAccessSignature=".data) ++ acg.2.2)
                  ("usedevelopmentstorage=true".data) = false :=
                lowerStartsWith_false_of_head (by decide)
              dsimp only [] at hdev
              rw [hfd] at hdev
              simp at hdev
          · split at h
            · -- bare SAS branch
              rename_i c2 hb4
              cases h
              rw [branch4] at hb4
              split at hb4
              · simp only [Option.some.injEq] at hb4
                subst hb4
                refine ⟨fun hdev => ?_, fun k s hk => by cases hk⟩
                have hfd : lowerStartsWith
                    (("DefaultEndpointsProtocol=https;AccountName=".data) ++ storage ++
                      (";BlobEndpoint=https://".data) ++ storage ++
                      (".blob.core.windows.net/;SharedAccessSignature=".data) ++
                      lstripChar '?' (unquoteStrip raw))
                    ("usedevelopmentstorage=true".data) = false :=
                  lowerStartsWith_false_of_head (by decide)
                dsimp only [] at hdev
                rw [hfd] at hdev
                simp at hdev
              · cases hb4
            · split at h
              · -- bare account key branch
                rename_i c2 hb5
                cases h
                rw [branch5] at hb5
                split at hb5
                · simp only [Option.some.injEq] at hb5
                  subst hb5
                  refine ⟨fun hdev => ?_, fun k s hk hs => by cases hs⟩
                  have hfd : lowerStartsWith
                      (("DefaultEndpointsProtocol=https;AccountName=".data) ++ storage ++
                        (";AccountKey=".data) ++ unquoteStrip raw ++
                        (";EndpointSuffix=core.windows.net".data))
                      ("usedevelopmentstorage=true".data) = false :=
                    lowerStartsWith_false_of_head (by decide)
                  dsimp only [] at hdev
                  rw [hfd] at hdev
                  simp at hdev
                · cases hb5
              · split at h
                · split at h
                  · obtain ⟨cand, hc⟩ := jsonStepF_ok h
                    exact ih _ _ _ hc
                  · split at h
                    · rename_i c2 hin
                      cases h
                      exact ih _ _ _ hin
                    · cases h
                    · obtain ⟨cand, hc⟩ := jsonStepF_ok h
                      exact ih _ _ _ hc
                · obtain ⟨cand, hc⟩ := jsonStepF_ok h
                  exact ih _ _ _ hc

/-- C2 (amended): on every successful parse, a development-storage credential
(`UseDevelopmentStorage=true` connection string) populates neither
`account_key` nor `sas_token`; and whenever both fields are populated
(non-empty), the produced connection string explicitly lists both an
`AccountKey` and a `SharedAccessSignature` field — i.e. both can only be
populated when the delimited key=value source supplied both, so every other
detection branch populates at most one. -/
theorem C2_key_sas_population (decode : List Char → Option Json)
    (raw storage : List Char) (c : AzureCredential)
    (h : parse_credential decode raw storage = .ok c) :
    (lowerStartsWith c.connection_string ("usedevelopmentstorage=true".data) = true →
      c.account_key = none ∧ c.sas_token = none) ∧
    (∀ k s, c.account_key = some k → c.sas_token = some s → k ≠ [] → s ≠ [] →
      containsSub c.connection_string ((";AccountKey=".data) ++ k) = true ∧
      containsSub c.connection_string ((";SharedAccessSignature=".data) ++ s) = true) :=
  credOk_invariant decode _ raw storage c h

/-- Witness: the development-storage credential populates neither field. -/
theorem C2_witness :
    parse_credential (fun _ => none) ("UseDevelopmentStorage=true".data) ("acct".data) =
      .ok ⟨("acct".data), ("UseDevelopmentStorage=true".data), none, none⟩ ∧
    (⟨("acct".data), ("UseDevelopmentStorage=true".data), none, none⟩ :
        AzureCredential).account_key = none ∧
    (⟨("acct".data), ("UseDevelopmentStorage=true".data), none, none⟩ :
        AzureCredential).sas_token = none := by
  have heq : parse_credential (fun _ => none) ("UseDevelopmentStorage=true".data)
      ("acct".data) =
      .ok ⟨("acct".data), ("UseDevelopmentStorage=true".data), none, none⟩ := by rfl
  exact ⟨heq, (C2_key_sas_population _ _ _ _ heq).1 (by decide)⟩

/-- Counterexample to C2 as frozen: a key=value source carrying both an
account key and a shared-access signature yields a credential with *both*
fields populated, contradicting "never both". -/
theorem C2_counterexample :
    parse_credential (fun _ => none)
      ("AccountName=a;AccountKey=k;SharedAccessSignature=sv=1&sig=2".data) ("acct".data) =
      .ok ⟨("a".data),
        ("DefaultEndpointsProtocol=https;AccountName=a;AccountKey=k;SharedAccessSignature=sv=1&sig=2;EndpointSuffix=core.windows.net".data),
        some ("k".data), some ("sv=1&sig=2".data)⟩ ∧
    ¬ ((some ("k".data) : Option (List Char)) = none ∨
        (some ("sv=1&sig=2".data) : Option (List Char)) = none) := by
  exact ⟨by rfl, by decide⟩

/-! ## Claim C3 -/

theorem branch2_congr (n n2 storage : List Char)
    (h : ∀ low, partsGet (partsOfSegments (splitRunsBy isSemiNl n2)) low =
      partsGet (partsOfSegments (splitRunsBy isSemiNl n)) low) :
    branch2 n2 storage = branch2 n storage := by
  unfold branch2 branch2Fields b2proto b2name b2blob b2key b2sas b2suffix b2extra
  simp only [h]

/-- C3 (amended): a delimited key=value input is parsed by the canonical
reconstruction branch, whose output lists the fields in the fixed canonical
order (protocol, account name, blob endpoint, account key, SAS, suffix, other
endpoints); the field list depends only on the parsed key↦value map, so any
re-ordering of the input that yields the same map yields the identical
credential; `DefaultEndpointsProtocol=https` is inserted exactly when the
input gave no explicit protocol (regardless of any blob endpoint), and
`EndpointSuffix=core.windows.net` is defaulted exactly when the input gave
neither an explicit suffix nor an explicit blob endpoint. -/
theorem C3_canonical_order_and_defaults (decode : List Char → Option Json)
    (raw storage : List Char)
    (hval : unquoteStrip raw ≠ [])
    (hdev : devCond (normNl (unquoteStrip raw)) = false)
    (hb2 : branch2cond (normNl (unquoteStrip raw)) = true) :
    parse_credential decode raw storage = .ok (branch2 (normNl (unquoteStrip raw)) storage) ∧
    (branch2 (normNl (unquoteStrip raw)) storage).connection_string =
      joinSep ';' (branch2Fields
        (partsOfSegments (splitRunsBy isSemiNl (normNl (unquoteStrip raw)))) storage) ∧
    ((partsGet (partsOfSegments (splitRunsBy isSemiNl (normNl (unquoteStrip raw))))
        ("defaultendpointsprotocol".data) = none →
      b2proto (partsOfSegments (splitRunsBy isSemiNl (normNl (unquoteStrip raw)))) =
        ("DefaultEndpointsProtocol=https".data)) ∧
     (∀ k v, partsGet (partsOfSegments (splitRunsBy isSemiNl (normNl (unquoteStrip raw))))
        ("defaultendpointsprotocol".data) = some (k, v) →
      b2proto (partsOfSegments (splitRunsBy isSemiNl (normNl (unquoteStrip raw)))) =
        k ++ '=' :: v)) ∧
    (partsGet (partsOfSegments (splitRunsBy isSemiNl (normNl (unquoteStrip raw))))
        ("endpointsuffix".data) = none →
      (b2suffix (partsOfSegments (splitRunsBy isSemiNl (normNl (unquoteStrip raw)))) =
          [("EndpointSuffix=core.windows.net".data)] ↔
        partsGet (partsOfSegments (splitRunsBy isSemiNl (normNl (unquoteStrip raw))))
          ("blobendpoint".data) = none)) ∧
    (∀ raw2, unquoteStrip raw2 ≠ [] →
      devCond (normNl (unquoteStrip raw2)) = false →
      branch2cond (normNl (unquoteStrip raw2)) = true →
      (∀ low, partsGet (partsOfSegments (splitRunsBy isSemiNl (normNl (unquoteStrip raw2)))) low =
        partsGet (partsOfSegments (splitRunsBy isSemiNl (normNl (unquoteStrip raw)))) low) →
      parse_credential decode raw2 storage =
        .ok (branch2 (normNl (unquoteStrip raw)) storage)) := by
  have hrun : ∀ raw0, unquoteStrip raw0 ≠ [] →
      devCond (normNl (unquoteStrip raw0)) = false →
      branch2cond (normNl (unquoteStrip raw0)) = true →
      parse_credential decode raw0 storage =
        .ok (branch2 (normNl (unquoteStrip raw0)) storage) := by
    intro raw0 h1 h2 h3
    unfold parse_credential parseCredGo
    simp only []
    rw [if_neg h1, h2, h3]
    simp
  refine ⟨hrun raw hval hdev hb2, rfl, ⟨?_, ?_⟩, ?_, ?_⟩
  · intro hp
    unfold b2proto
    rw [hp]
  · intro k v hp
    unfold b2proto
    rw [hp]
  · intro hsuf
    unfold b2suffix
    rw [hsuf]
    by_cases hb : partsGet (partsOfSegments (splitRunsBy isSemiNl (normNl (unquoteStrip raw))))
        ("blobendpoint".data) = none
    · simp [hb]
    · simp [hb]
  · intro raw2 h1 h2 h3 hsame
    rw [hrun raw2 h1 h2 h3,
      branch2_congr (normNl (unquoteStrip raw)) (normNl (unquoteStrip raw2)) storage hsame]

/-- Witness: the two orderings `AccountKey=abcd;AccountName=x` and
`AccountName=x;AccountKey=abcd` produce the identical credential. -/
theorem C3_witness :
    parse_credential (fun _ => none) ("AccountKey=abcd;AccountName=x".data) ("st".data) =
      .ok (branch2 (normNl (unquoteStrip ("AccountKey=abcd;AccountName=x".data))) ("st".data)) ∧
    parse_credential (fun _ => none) ("AccountName=x;AccountKey=abcd".data) ("st".data) =
      .ok (branch2 (normNl (unquoteStrip ("AccountKey=abcd;AccountName=x".data))) ("st".data)) := by
  have h := C3_canonical_order_and_defaults (fun _ => none)
    ("AccountKey=abcd;AccountName=x".data) ("st".data) (by decide) (by decide) (by decide)
  refine ⟨h.1, ?_⟩
  refine h.2.2.2.2 ("AccountName=x;AccountKey=abcd".data) (by decide) (by decide) (by decide) ?_
  intro low
  by_cases h1 : low = ("accountname".data)
  · subst h1; decide
  · by_cases h2 : low = ("accountkey".data)
    · subst h2; decide
    · have hm1 : partsOfSegments (splitRunsBy isSemiNl
          (normNl (unquoteStrip ("AccountName=x;AccountKey=abcd".data)))) =
          [(("accountkey".data), ("AccountKey".data), ("abcd".data)),
           (("accountname".data), ("AccountName".data), ("x".data))] := by decide
      have hm2 : partsOfSegments (splitRunsBy isSemiNl
          (normNl (unquoteStrip ("AccountKey=abcd;AccountName=x".data)))) =
          [(("accountname".data), ("AccountName".data), ("x".data)),
           (("accountkey".data), ("AccountKey".data), ("abcd".data))] := by decide
      rw [hm1, hm2]
      unfold partsGet
      have hn1 : ¬(("accountname".data) = low) := fun hh => h1 hh.symm
      have hn2 : ¬(("accountkey".data) = low) := fun hh => h2 hh.symm
      simp [List.find?, hn1, hn2]

/-- Counterexample to C3 as frozen: for the input
`BlobEndpoint=https://x;AccountKey=abc` the blob endpoint is explicit, yet the
default `DefaultEndpointsProtocol=https` is still inserted — the protocol
default does not depend on the blob endpoint. -/
theorem C3_counterexample :
    parse_credential (fun _ => none) ("BlobEndpoint=https://x;AccountKey=abc".data)
      ("acct".data) =
      .ok ⟨("acct".data),
        ("DefaultEndpointsProtocol=https;AccountName=acct;BlobEndpoint=https://x;AccountKey=abc".data),
        some ("abc".data), none⟩ ∧
    startsWithL
      ("DefaultEndpointsProtocol=https;AccountName=acct;BlobEndpoint=https://x;AccountKey=abc".data)
      ("DefaultEndpointsProtocol=https;".data) = true ∧
    partsGet (partsOfSegments (splitRunsBy isSemiNl
      ("BlobEndpoint=https://x;AccountKey=abc".data))) ("blobendpoint".data) ≠ none := by
  exact ⟨by rfl, by decide, by decide⟩

/-! ## Claim C1 -/

theorem tryCands_congr {recurse1 recurse2 : List Char → Except ParseErr AzureCredential}
    (value : List Char)
    (hrec : ∀ cand r, recurse1 cand = r → r ≠ .error .fuelOut → recurse2 cand = r) :
    ∀ (cands seen : List (List Char)) (o : Option (Except ParseErr AzureCredential)),
      tryCands recurse1 value seen cands = o → o ≠ some (.error .fuelOut) →
      tryCands recurse2 value seen cands = o := by
  intro cands
  induction cands with
  | nil =>
    intro seen o h _
    exact h
  | cons cand rest ih =>
    intro seen o h ho
    unfold tryCands at h ⊢
    split at h
    · rename_i hskip
      rw [if_pos hskip]
      exact ih _ _ h ho
    · rename_i hskip
      rw [if_neg hskip]
      rcases hr1 : recurse1 cand with e | c
      · rw [hr1] at h
        cases e with
        | fuelOut =>
          simp only [] at h
          exact absurd h.symm (by simpa using ho)
        | empty =>
          rw [hrec cand (.error .empty) hr1 (by simp)]
          exact ih _ _ h ho
        | unrecognized n =>
          rw [hrec cand (.error (.unrecognized n)) hr1 (by simp)]
          exact ih _ _ h ho
      · rw [hr1] at h
        rw [hrec cand (.ok c) hr1 (by simp)]
        exact h

theorem jsonStepF_congr {recurse1 recurse2 : List Char → Except ParseErr AzureCredential}
    {decode : List Char → Option Json} {value normalized : List Char}
    {r : Except ParseErr AzureCredential}
    (hrec : ∀ cand r0, recurse1 cand = r0 → r0 ≠ .error .fuelOut → recurse2 cand = r0)
    (h : jsonStepF recurse1 decode value normalized = r) (hr : r ≠ .error .fuelOut) :
    jsonStepF recurse2 decode value normalized = r := by
  unfold jsonStepF at h ⊢
  split at h
  · rename_i j hj
    rcases ht : tryCands recurse1 value [] (iterStrings j) with _ | ⟨r0⟩
    · rw [ht] at h
      rw [tryCands_congr value hrec _ _ none ht (by simp)]
      exact h
    · rw [ht] at h
      subst h
      rw [tryCands_congr value hrec _ _ (some r0) ht (by simpa using hr)]
  · exact h

theorem parseCredGo_mono (decode : List Char → Option Json) :
    ∀ (n : Nat) (raw storage : List Char) (r : Except ParseErr AzureCredential),
      parseCredGo decode n raw storage = r → r ≠ .error .fuelOut →
      ∀ m, n ≤ m → parseCredGo decode m raw storage = r := by
  intro n
  induction n with
  | zero =>
    intro raw storage r h hr m _
    exact absurd h.symm hr
  | succ n ih =>
    intro raw storage r h hr m hm
    rcases m with _ | m2
    · omega
    · have hm2 : n ≤ m2 := by omega
      unfold parseCredGo at h ⊢
      simp only [] at h ⊢
      split at h
      · rename_i hc
        rw [if_pos hc]
        exact h
      · rename_i hc
        rw [if_neg hc]
        split at h
        · rename_i hdev
          rw [if_pos hdev]
          exact h
        · rename_i hdev
          rw [if_neg hdev]
          split at h
          · rename_i hb2
            rw [if_pos hb2]
            exact h
          · rename_i hb2
            rw [if_neg hb2]
            split at h
            · exact h
            · split at h
              · exact h
              · split at h
                · exact h
                · split at h
                  · rename_i hml
                    rw [if_pos hml]
                    split at h
                    · exact jsonStepF_congr
                        (fun cand r0 h0 hr0 => ih cand storage r0 h0 hr0 m2 hm2) h hr
                    · rename_i seg segs hcs
                      rcases hin : parseCredGo decode n (joinSep ';' (seg :: segs)) storage
                        with e2 | c2
                      · rw [hin] at h
                        cases e2 with
                        | fuelOut =>
                          simp only [] at h
                          exact absurd h.symm hr
                        | empty =>
                          rw [ih _ _ _ hin (by simp) m2 hm2]
                          exact jsonStepF_congr
                            (fun cand r0 h0 hr0 => ih cand storage r0 h0 hr0 m2 hm2) h hr
                        | unrecognized nn =>
                          rw [ih _ _ _ hin (by simp) m2 hm2]
                          exact jsonStepF_congr
                            (fun cand r0 h0 hr0 => ih cand storage r0 h0 hr0 m2 hm2) h hr
                      · rw [hin] at h
                        rw [ih _ _ _ hin (by simp) m2 hm2]
                        exact h
                  · rename_i hml
                    rw [if_neg hml]
                    exact jsonStepF_congr
                      (fun cand r0 h0 hr0 => ih cand storage r0 h0 hr0 m2 hm2) h hr

theorem hexDigitChar_ge32 (n : Nat) : 32 ≤ (hexDigitChar n).toNat := by
  unfold hexDigitChar
  split <;> decide

theorem jsonEscChar_ge32 {c x : Char} (hx : x ∈ jsonEscChar c) : 32 ≤ x.toNat := by
  unfold jsonEscChar at hx
  split at hx
  · simp only [List.mem_cons, List.not_mem_nil, or_false] at hx
    rcases hx with rfl | rfl <;> decide
  · split at hx
    · simp only [List.mem_cons, List.not_mem_nil, or_false] at hx
      rcases hx with rfl | rfl <;> decide
    · split at hx
      · simp only [List.mem_cons, List.not_mem_nil, or_false] at hx
        rcases hx with rfl | rfl <;> decide
      · split at hx
        · simp only [List.mem_cons, List.not_mem_nil, or_false] at hx
          rcases hx with rfl | rfl <;> decide
        · split at hx
          · simp only [List.mem_cons, List.not_mem_nil, or_false] at hx
            rcases hx with rfl | rfl <;> decide
          · split at hx
            · simp only [List.mem_cons, List.not_mem_nil, or_false] at hx
              rcases hx with rfl | rfl | rfl | rfl | rfl | rfl
              · decide
              · decide
              · decide
              · decide
              · exact hexDigitChar_ge32 _
              · exact hexDigitChar_ge32 _
            · rename_i hge
              simp only [List.mem_cons, List.not_mem_nil, or_false] at hx
              subst hx
              omega

theorem jsonEscape_ge32 {s : List Char} {x : Char} (hx : x ∈ jsonEscape s) : 32 ≤ x.toNat := by
  unfold jsonEscape at hx
  rcases List.mem_flatMap.mp hx with ⟨c, _, hc⟩
  exact jsonEscChar_ge32 hc

theorem jsonQuote_ge32 {s : List Char} {x : Char} (hx : x ∈ jsonQuote s) : 32 ≤ x.toNat := by
  unfold jsonQuote at hx
  rcases List.mem_cons.mp hx with rfl | hx
  · decide
  rcases List.mem_append.mp hx with h | h
  · exact jsonEscape_ge32 h
  · rw [List.mem_singleton.mp h]
    decide

mutual
theorem render_ge32 : ∀ (j : Json) (x : Char), x ∈ Json.render j → 32 ≤ x.toNat
  | .str s, x, hx => jsonQuote_ge32 hx
  | .atom, x, hx => by
    have h4 : ("null".data) = ['n', 'u', 'l', 'l'] := rfl
    rw [Json.render, h4] at hx
    rcases List.mem_cons.mp hx with rfl | hx
    · decide
    rcases List.mem_cons.mp hx with rfl | hx
    · decide
    rcases List.mem_cons.mp hx with rfl | hx
    · decide
    rcases List.mem_cons.mp hx with rfl | hx
    · decide
    cases hx
  | .obj fs, x, hx => by
    rw [Json.render] at hx
    rcases List.mem_cons.mp hx with rfl | hx
    · decide
    rcases List.mem_append.mp hx with h | h
    · exact render_ge32F fs x h
    · rw [List.mem_singleton.mp h]
      decide
  | .arr xs, x, hx => by
    rw [Json.render] at hx
    rcases List.mem_cons.mp hx with rfl | hx
    · decide
    rcases List.mem_append.mp hx with h | h
    · exact render_ge32L xs x h
    · rw [List.mem_singleton.mp h]
      decide

theorem render_ge32F : ∀ (fs : JFields) (x : Char), x ∈ JFields.render fs → 32 ≤ x.toNat
  | .nil, x, hx => by cases hx
  | .cons k v .nil, x, hx => by
    rw [JFields.render] at hx
    rcases List.mem_append.mp hx with h | hx
    · exact jsonQuote_ge32 h
    rcases List.mem_cons.mp hx with rfl | hx
    · decide
    rcases List.mem_cons.mp hx with rfl | hx
    · decide
    exact render_ge32 v x hx
  | .cons k v (.cons k2 v2 rest), x, hx => by
    rw [JFields.render] at hx
    rcases List.mem_append.mp hx with hx | hx
    · rcases List.mem_append.mp hx with h | hx
      · exact jsonQuote_ge32 h
      rcases List.mem_cons.mp hx with rfl | hx
      · decide
      rcases List.mem_cons.mp hx with rfl | hx
      · decide
      exact render_ge32 v x hx
    · rcases List.mem_cons.mp hx with rfl | hx
      · decide
      rcases List.mem_cons.mp hx with rfl | hx
      · decide
      exact render_ge32F (.cons k2 v2 rest) x hx

theorem render_ge32L : ∀ (xs : JList) (x : Char), x ∈ JList.render xs → 32 ≤ x.toNat
  | .nil, x, hx => by cases hx
  | .cons v .nil, x, hx => by
    rw [JList.render] at hx
    exact render_ge32 v x hx
  | .cons v (.cons v2 rest), x, hx => by
    rw [JList.render] at hx
    rcases List.mem_append.mp hx with h | hx
    · exact render_ge32 v x h
    rcases List.mem_cons.mp hx with rfl | hx
    · decide
    rcases List.mem_cons.mp hx with rfl | hx
    · decide
    exact render_ge32L (.cons v2 rest) x hx
end

theorem stackSize_cons (j : Json) (rest : List Json) :
    stackSize (j :: rest) = Json.size j + stackSize rest := by
  simp [stackSize]

theorem stackSize_append (a b : List Json) :
    stackSize (a ++ b) = stackSize a + stackSize b := by
  simp [stackSize]

theorem stackSize_reverse (l : List Json) : stackSize l.reverse = stackSize l := by
  simp [stackSize, List.sum_reverse]

theorem values_stackSize : ∀ (fs : JFields), stackSize (JFields.values fs) = JFields.size fs
  | .nil => rfl
  | .cons _ v rest => by
    rw [JFields.values, stackSize_cons, values_stackSize rest, JFields.size]

theorem toList_stackSize : ∀ (xs : JList), stackSize (JList.toList xs) = JList.size xs
  | .nil => rfl
  | .cons v rest => by
    rw [JList.toList, stackSize_cons, toList_stackSize rest, JList.size]

theorem Json.size_pos (j : Json) : 1 ≤ Json.size j := by
  cases j <;> rw [Json.size] <;> omega

theorem leaf_of_values : ∀ {fs : JFields} {v : Json}, v ∈ JFields.values fs →
    ∀ {l : List Char}, l ∈ Json.leafStrings v → l ∈ JFields.leafStrings fs
  | .nil, v, hv, _, _ => by cases hv
  | .cons k w rest, v, hv, l, hl => by
    rw [JFields.values] at hv
    rw [JFields.leafStrings]
    rcases List.mem_cons.mp hv with rfl | hv2
    · exact List.mem_append.mpr (Or.inl hl)
    · exact List.mem_append.mpr (Or.inr (leaf_of_values hv2 hl))

theorem leaf_of_toList : ∀ {xs : JList} {v : Json}, v ∈ JList.toList xs →
    ∀ {l : List Char}, l ∈ Json.leafStrings v → l ∈ JList.leafStrings xs
  | .nil, v, hv, _, _ => by cases hv
  | .cons w rest, v, hv, l, hl => by
    rw [JList.toList] at hv
    rw [JList.leafStrings]
    rcases List.mem_cons.mp hv with rfl | hv2
    · exact List.mem_append.mpr (Or.inl hl)
    · exact List.mem_append.mpr (Or.inr (leaf_of_toList hv2 hl))

theorem leaf_split_fields : ∀ {fs : JFields} {l : List Char}, l ∈ JFields.leafStrings fs →
    ∃ v ∈ JFields.values fs, l ∈ Json.leafStrings v
  | .nil, _, h => by cases h
  | .cons k w rest, l, h => by
    rw [JFields.leafStrings] at h
    rw [JFields.values]
    rcases List.mem_append.mp h with h2 | h2
    · exact ⟨w, List.mem_cons_self _ _, h2⟩
    · obtain ⟨v, hv, hl⟩ := leaf_split_fields h2
      exact ⟨v, List.mem_cons_of_mem _ hv, hl⟩

theorem leaf_split_list : ∀ {xs : JList} {l : List Char}, l ∈ JList.leafStrings xs →
    ∃ v ∈ JList.toList xs, l ∈ Json.leafStrings v
  | .nil, _, h => by cases h
  | .cons w rest, l, h => by
    rw [JList.leafStrings] at h
    rw [JList.toList]
    rcases List.mem_append.mp h with h2 | h2
    · exact ⟨w, List.mem_cons_self _ _, h2⟩
    · obtain ⟨v, hv, hl⟩ := leaf_split_list h2
      exact ⟨v, List.mem_cons_of_mem _ hv, hl⟩

theorem iterGo_mem (fuel : Nat) :
    ∀ (stack : List Json) (t : List Char), t ∈ iterGo fuel stack →
      ∃ jj ∈ stack, ∃ l ∈ Json.leafStrings jj, t = pyStrip l := by
  induction fuel with
  | zero =>
    intro stack t h
    rcases stack with _ | ⟨j, rest⟩
    · cases h
    · rw [show iterGo 0 (j :: rest) = [] from rfl] at h
      cases h
  | succ f ih =>
    intro stack t h
    rcases stack with _ | ⟨j, rest⟩
    · rw [show iterGo (f + 1) ([] : List Json) = [] from rfl] at h
      cases h
    · cases j with
      | str s =>
        rw [iterGo] at h
        by_cases hts : pyStrip s = []
        · rw [if_pos hts] at h
          obtain ⟨jj, hjj, l, hl, ht⟩ := ih rest t h
          exact ⟨jj, List.mem_cons_of_mem _ hjj, l, hl, ht⟩
        · rw [if_neg hts] at h
          rcases List.mem_cons.mp h with rfl | h2
          · exact ⟨.str s, List.mem_cons_self _ _, s, by rw [Json.leafStrings]; exact List.mem_singleton.mpr rfl, rfl⟩
          · obtain ⟨jj, hjj, l, hl, ht⟩ := ih rest t h2
            exact ⟨jj, List.mem_cons_of_mem _ hjj, l, hl, ht⟩
      | atom =>
        rw [iterGo] at h
        obtain ⟨jj, hjj, l, hl, ht⟩ := ih rest t h
        exact ⟨jj, List.mem_cons_of_mem _ hjj, l, hl, ht⟩
      | obj fs =>
        rw [iterGo] at h
        obtain ⟨jj, hjj, l, hl, ht⟩ := ih _ t h
        rcases List.mem_append.mp hjj with h2 | h2
        · have h3 : jj ∈ JFields.values fs := List.mem_reverse.mp h2
          refine ⟨.obj fs, List.mem_cons_self _ _, l, ?_, ht⟩
          rw [Json.leafStrings]
          exact leaf_of_values h3 hl
        · exact ⟨jj, List.mem_cons_of_mem _ h2, l, hl, ht⟩
      | arr xs =>
        rw [iterGo] at h
        obtain ⟨jj, hjj, l, hl, ht⟩ := ih _ t h
        rcases List.mem_append.mp hjj with h2 | h2
        · have h3 : jj ∈ JList.toList xs := List.mem_reverse.mp h2
          refine ⟨.arr xs, List.mem_cons_self _ _, l, ?_, ht⟩
          rw [Json.leafStrings]
          exact leaf_of_toList h3 hl
        · exact ⟨jj, List.mem_cons_of_mem _ h2, l, hl, ht⟩

theorem size_le_stackSize {jj : Json} {stack : List Json} (h : jj ∈ stack) :
    Json.size jj ≤ stackSize stack :=
  List.single_le_sum (fun _ _ => Nat.zero_le _) _ (List.mem_map_of_mem Json.size h)

theorem iterGo_ne_nil (fuel : Nat) :
    ∀ (stack : List Json), stackSize stack ≤ fuel →
      (∃ jj ∈ stack, ∃ l ∈ Json.leafStrings jj, pyStrip l ≠ []) →
      iterGo fuel stack ≠ [] := by
  induction fuel with
  | zero =>
    intro stack hsz hex
    obtain ⟨jj, hjj, _⟩ := hex
    have h1 := Json.size_pos jj
    have h2 := size_le_stackSize hjj
    omega
  | succ f ih =>
    intro stack hsz hex
    obtain ⟨jj, hjj, l, hl, hne⟩ := hex
    rcases stack with _ | ⟨j, rest⟩
    · cases hjj
    · rw [stackSize_cons] at hsz
      have hjs := Json.size_pos j
      cases j with
      | str s =>
        rw [iterGo]
        by_cases hts : pyStrip s = []
        · rw [if_pos hts]
          apply ih rest (by rw [Json.size] at hsz; omega)
          rcases List.mem_cons.mp hjj with rfl | h2
          · rw [Json.leafStrings] at hl
            rw [List.mem_singleton.mp hl] at hne
            exact absurd hts hne
          · exact ⟨jj, h2, l, hl, hne⟩
        · rw [if_neg hts]
          simp
      | atom =>
        rw [iterGo]
        apply ih rest (by rw [Json.size] at hsz; omega)
        rcases List.mem_cons.mp hjj with rfl | h2
        · rw [Json.leafStrings] at hl
          cases hl
        · exact ⟨jj, h2, l, hl, hne⟩
      | obj fs =>
        rw [iterGo]
        apply ih ((JFields.values fs).reverse ++ rest)
        · rw [stackSize_append, stackSize_reverse, values_stackSize]
          rw [Json.size] at hsz
          omega
        · rcases List.mem_cons.mp hjj with rfl | h2
          · rw [Json.leafStrings] at hl
            obtain ⟨v, hv, hlv⟩ := leaf_split_fields hl
            exact ⟨v, List.mem_append.mpr (Or.inl (List.mem_reverse.mpr hv)), l, hlv, hne⟩
          · exact ⟨jj, List.mem_append.mpr (Or.inr h2), l, hl, hne⟩
      | arr xs =>
        rw [iterGo]
        apply ih ((JList.toList xs).reverse ++ rest)
        · rw [stackSize_append, stackSize_reverse, toList_stackSize]
          rw [Json.size] at hsz
          omega
        · rcases List.mem_cons.mp hjj with rfl | h2
          · rw [Json.leafStrings] at hl
            obtain ⟨v, hv, hlv⟩ := leaf_split_list hl
            exact ⟨v, List.mem_append.mpr (Or.inl (List.mem_reverse.mpr hv)), l, hlv, hne⟩
          · exact ⟨jj, List.mem_append.mpr (Or.inr h2), l, hl, hne⟩

theorem iterStrings_all {j : Json} {s : List Char}
    (hleaf : ∀ l ∈ Json.leafStrings j, l = s) (hs : pyStrip s = s)
    {t : List Char} (ht : t ∈ iterStrings j) : t = s := by
  obtain ⟨jj, hjj, l, hl, htl⟩ := iterGo_mem _ _ _ ht
  rw [List.mem_singleton.mp hjj] at hl
  rw [htl, hleaf l hl, hs]

theorem iterStrings_ne_nil {j : Json} {l0 : List Char}
    (hl0 : l0 ∈ Json.leafStrings j) (hne : pyStrip l0 ≠ []) : iterStrings j ≠ [] := by
  apply iterGo_ne_nil (Json.size j) [j] (by simp [stackSize])
  exact ⟨j, List.mem_singleton.mpr rfl, l0, hl0, hne⟩

theorem jsonEscChar_len (c : Char) : 1 ≤ (jsonEscChar c).length := by
  unfold jsonEscChar
  split_ifs <;> simp

theorem jsonEscape_len (s : List Char) : s.length ≤ (jsonEscape s).length := by
  induction s with
  | nil => simp [jsonEscape]
  | cons c cs ih =>
    have h1 := jsonEscChar_len c
    simp only [jsonEscape, List.flatMap_cons, List.length_append, List.length_cons] at ih ⊢
    omega

mutual
theorem render_leaf_len : ∀ (j : Json) (l : List Char), l ∈ Json.leafStrings j →
    l.length + 2 ≤ (Json.render j).length
  | .str s, l, hl => by
    rw [Json.leafStrings] at hl
    rw [List.mem_singleton.mp hl, Json.render]
    unfold jsonQuote
    have := jsonEscape_len s
    simp only [List.length_cons, List.length_append, List.length_singleton]
    omega
  | .atom, l, hl => by
    rw [Json.leafStrings] at hl
    cases hl
  | .obj fs, l, hl => by
    rw [Json.leafStrings] at hl
    rw [Json.render]
    have := render_leaf_lenF fs l hl
    simp only [List.length_cons, List.length_append, List.length_singleton]
    omega
  | .arr xs, l, hl => by
    rw [Json.leafStrings] at hl
    rw [Json.render]
    have := render_leaf_lenL xs l hl
    simp only [List.length_cons, List.length_append, List.length_singleton]
    omega

theorem render_leaf_lenF : ∀ (fs : JFields) (l : List Char), l ∈ JFields.leafStrings fs →
    l.length + 2 ≤ (JFields.render fs).length
  | .nil, l, hl => by
    rw [JFields.leafStrings] at hl
    cases hl
  | .cons k v .nil, l, hl => by
    rw [JFields.leafStrings] at hl
    rw [JFields.render]
    rcases List.mem_append.mp hl with h | h
    · have := render_leaf_len v l h
      simp only [List.length_append, List.length_cons]
      omega
    · rw [JFields.leafStrings] at h
      cases h
  | .cons k v (.cons k2 v2 rest), l, hl => by
    rw [JFields.leafStrings] at hl
    rw [JFields.render]
    rcases List.mem_append.mp hl with h | h
    · have := render_leaf_len v l h
      simp only [List.length_append, List.length_cons]
      omega
    · have := render_leaf_lenF (.cons k2 v2 rest) l h
      simp only [List.length_append, List.length_cons]
      omega

theorem render_leaf_lenL : ∀ (xs : JList) (l : List Char), l ∈ JList.leafStrings xs →
    l.length + 2 ≤ (JList.render xs).length
  | .nil, l, hl => by
    rw [JList.leafStrings] at hl
    cases hl
  | .cons v .nil, l, hl => by
    rw [JList.leafStrings] at hl
    rw [JList.render]
    rcases List.mem_append.mp hl with h | h
    · exact render_leaf_len v l h
    · rw [JList.leafStrings] at h
      cases h
  | .cons v (.cons v2 rest), l, hl => by
    rw [JList.leafStrings] at hl
    rw [JList.render]
    rcases List.mem_append.mp hl with h | h
    · have := render_leaf_len v l h
      simp only [List.length_append, List.length_cons]
      omega
    · have := render_leaf_lenL (.cons v2 rest) l h
      simp only [List.length_append, List.length_cons]
      omega
end

theorem normNl_eq_self : ∀ {cs : List Char}, (∀ x ∈ cs, x ≠ '\r') → normNl cs = cs := by
  intro cs
  induction cs with
  | nil => intro _; rfl
  | cons c rest ih =>
    intro h
    have hc : c ≠ '\r' := h c (List.mem_cons_self _ _)
    unfold normNl
    split
    · rename_i heq
      exact (List.cons_ne_nil _ _ heq).elim
    · rename_i heq
      injection heq with h1 h2
      exact absurd h1 hc
    · rename_i heq
      injection heq with h1 h2
      exact absurd h1 hc
    · rename_i c2 rest2 hno1 hno2 heq
      injection heq with h1 h2
      subst h1
      subst h2
      rw [ih (fun x hx => h x (List.mem_cons_of_mem _ hx))]

theorem containsChar_false_of_forall {cs : List Char} {ch : Char}
    (h : ∀ x ∈ cs, x ≠ ch) : containsChar cs ch = false := by
  induction cs with
  | nil => rfl
  | cons c rest ih =>
    have hc : c ≠ ch := h c (List.mem_cons_self _ _)
    have hr := ih (fun x hx => h x (List.mem_cons_of_mem _ hx))
    rw [containsChar] at hr ⊢
    rw [List.contains_cons, hr]
    simpa using fun hh => hc hh.symm

theorem render_obj_head (fs : JFields) : (Json.render (.obj fs)).head? = some '\x7b' := by
  rw [Json.render]
  rfl

theorem render_arr_head (xs : JList) : (Json.render (.arr xs)).head? = some '[' := by
  rw [Json.render]
  rfl

theorem render_obj_last (fs : JFields) : (Json.render (.obj fs)).getLast? = some '\x7d' := by
  rw [Json.render]
  exact List.getLast?_concat _

theorem render_arr_last (xs : JList) : (Json.render (.arr xs)).getLast? = some ']' := by
  rw [Json.render]
  exact List.getLast?_concat _

/-- Both-ends `dropWhile` (the shape of `str.strip` and of `urlsplit`'s
control-character strip) leaves a string whose ends fail the predicate
unchanged. -/
theorem stripEnds_eq_self (p : Char → Bool) {cs : List Char}
    (h1 : ∀ c, cs.head? = some c → p c = false)
    (h2 : ∀ c, cs.getLast? = some c → p c = false) :
    ((cs.dropWhile p).reverse.dropWhile p).reverse = cs := by
  have hd : cs.dropWhile p = cs := by
    cases cs with
    | nil => rfl
    | cons c cs' =>
      rw [List.dropWhile_cons, h1 c rfl]
      simp
  rw [hd]
  rcases hrev : cs.reverse with _ | ⟨d, r⟩
  · have hnil : cs = [] := by simpa using congrArg List.reverse hrev
    simp [hnil]
  · have hdl : cs.getLast? = some d := by
      rw [← List.head?_reverse, hrev]
      rfl
    rw [List.dropWhile_cons, h2 d hdl]
    simp [← hrev]

theorem quotedBy_false_of_head {q a : Char} {cs : List Char}
    (hh : cs.head? = some a) (hne : a ≠ q) : quotedBy q cs = false := by
  unfold quotedBy
  rw [hh]
  have hb : (decide (some a = some q)) = false := by simp [hne]
  rw [hb]
  simp

theorem unquoteStrip_id {cs : List Char} {a z : Char}
    (hh : cs.head? = some a) (hl : cs.getLast? = some z)
    (hwa : pyWs a = false) (hwz : pyWs z = false)
    (hq1 : a ≠ '"') (hq2 : a ≠ chApos) :
    unquoteStrip cs = cs := by
  have hstrip : pyStrip cs = cs := by
    apply pyStrip_eq_self
    · intro c h
      rw [hh] at h
      cases h
      exact hwa
    · intro c h
      rw [hl] at h
      cases h
      exact hwz
  unfold unquoteStrip
  simp only []
  rw [hstrip]
  rw [quotedBy_false_of_head hh hq1, quotedBy_false_of_head hh hq2]
  simp

theorem devCond_false_of_head {cs : List Char} {a : Char} (hh : cs.head? = some a)
    (ha : a.toLower ≠ 'u') : devCond cs = false := by
  cases cs with
  | nil => cases hh
  | cons c rest =>
    have hc : c = a := by simpa using hh
    subst hc
    unfold devCond
    rw [show ("usedevelopmentstorage=true".data) =
      'u' :: ("sedevelopmentstorage=true".data) from rfl]
    exact lowerStartsWith_false_of_head ha

theorem splitAtPred_head (p : Char → Bool) : ∀ (cs : List Char) {pre : List Char} {sc : Char}
    {post : List Char}, splitAtPred p cs = some (pre, sc, post) →
    pre = [] ∨ pre.head? = cs.head?
  | [], _, _, _, h => by cases h
  | c :: cs', pre, sc, post, h => by
    rw [splitAtPred] at h
    split at h
    · cases h
      exact Or.inl rfl
    · split at h
      · cases h
      · cases h
        exact Or.inr rfl

theorem urlParse_scheme_nil {cs : List Char} {a : Char} (hh : cs.head? = some a)
    (hna : a.isAlpha = false)
    (h1 : ∀ c, cs.head? = some c → c0OrSpace c = false)
    (h2 : ∀ c, cs.getLast? = some c → c0OrSpace c = false)
    (h3 : ∀ x ∈ cs, urlUnsafe x = false) :
    (urlParse cs).scheme = [] := by
  unfold urlParse
  simp only []
  rw [stripEnds_eq_self c0OrSpace h1 h2]
  rw [List.filter_eq_self.mpr (fun x hx => by rw [h3 x hx]; rfl)]
  rcases hsp : splitAtPred (fun c => c = ':') cs with _ | ⟨pre, sc, post⟩
  · rfl
  · rcases splitAtPred_head _ cs hsp with rfl | hph
    · simp
    · rw [hh] at hph
      cases pre with
      | nil => cases hph
      | cons p ps =>
        have hp : p = a := by simpa using hph
        subst hp
        simp [hna]

theorem branch3Parts_none_of_scheme {v acct : List Char}
    (hs : (urlParse v).scheme = []) : branch3Parts v acct = none := by
  unfold branch3Parts
  simp only []
  rw [hs]
  simp

theorem branch3_none_of_scheme {v acct : List Char}
    (hs : (urlParse v).scheme = []) : branch3 v acct = none := by
  unfold branch3
  rw [branch3Parts_none_of_scheme hs]
  rfl

theorem branch5_none_of_struct {v n acct : List Char} (hstrip : pyStrip n = n)
    (h : n.any badStructChar = true ∨ n.all b64Char = false) :
    branch5 v n acct = none := by
  unfold branch5
  simp only []
  rw [hstrip]
  rcases h with h | h
  · rw [h]
    simp
  · rw [h]
    simp

theorem mlCond_false_of_no_nl {n : List Char} (h : containsChar n '\n' = false) :
    mlCond n = false := by
  unfold mlCond
  simp only []
  rw [h]
  simp

/-- When every early detection branch declines, a structural value falls
through to the JSON-decode step. -/
theorem parseCredGo_json_step (decode : List Char → Option Json) (fuel : Nat)
    (v acct : List Char)
    (hval : unquoteStrip v = v) (hne : v ≠ [])
    (hnn : normNl v = v)
    (hdev : devCond v = false) (hb2 : branch2cond v = false)
    (hb3 : branch3 v acct = none) (hb4 : branch4 v acct = none)
    (hb5 : branch5 v v acct = none) (hml : mlCond v = false) :
    parseCredGo decode (fuel + 1) v acct =
      jsonStepF (fun cand => parseCredGo decode fuel cand acct) decode v v := by
  conv_lhs => unfold parseCredGo
  simp only []
  rw [hval, if_neg hne, hnn, hdev, hb2, hb3, hb4, hb5, hml]
  rfl

/-- Core of the JSON-wrapper round trip: when the document's rendering slips
past every earlier detection branch, the decoder returns the document, and the
sole string leaf parses to `c`, the rendering parses to `c` as well. -/
theorem parse_render_core (decode : List Char → Option Json) (j : Json)
    (s acct : List Char) (c : AzureCredential)
    (hleaf : ∀ l ∈ Json.leafStrings j, l = s)
    (hne : Json.leafStrings j ≠ [])
    (hs : pyStrip s = s)
    (hok : parse_credential decode s acct = .ok c)
    (hdecode : decode (Json.render j) = some j)
    (hb2 : branch2cond (Json.render j) = false)
    (hb4 : branch4 (Json.render j) acct = none)
    (hval : unquoteStrip (Json.render j) = Json.render j)
    (hrne : Json.render j ≠ [])
    (hnn : normNl (Json.render j) = Json.render j)
    (hdev : devCond (Json.render j) = false)
    (hb3 : branch3 (Json.render j) acct = none)
    (hb5 : branch5 (Json.render j) (Json.render j) acct = none)
    (hml : mlCond (Json.render j) = false) :
    parse_credential decode (Json.render j) acct = .ok c := by
  obtain ⟨l0, hl0⟩ : ∃ l0, l0 ∈ Json.leafStrings j := by
    rcases hh : Json.leafStrings j with _ | ⟨x, xs⟩
    · exact absurd hh hne
    · exact ⟨x, by simp [hh]⟩
  have hsmem : s ∈ Json.leafStrings j := (hleaf l0 hl0) ▸ hl0
  have hlen : s.length + 2 ≤ (Json.render j).length := render_leaf_len j s hsmem
  have hsne : s ≠ [] := by
    intro hnil
    rw [hnil] at hok
    rw [show parse_credential decode [] acct = .error .empty from rfl] at hok
    cases hok
  have hrec : parseCredGo decode ((Json.render j).length) s acct = .ok c := by
    apply parseCredGo_mono decode (s.length + 1) s acct (.ok c) hok (by simp)
    omega
  have hcv : s ≠ Json.render j := by
    intro h
    rw [h] at hlen
    omega
  have hiter : iterStrings j ≠ [] := iterStrings_ne_nil hsmem (by rw [hs]; exact hsne)
  rcases hit : iterStrings j with _ | ⟨t, rest⟩
  · exact absurd hit hiter
  have hts : t = s := iterStrings_all hleaf hs (by rw [hit]; exact List.mem_cons_self _ _)
  subst hts
  have htry : tryCands (fun cand => parseCredGo decode ((Json.render j).length) cand acct)
      (Json.render j) [] (t :: rest) = some (.ok c) := by
    unfold tryCands
    rw [if_neg (by simp [hcv])]
    rw [hrec]
  have hjs : jsonStepF (fun cand => parseCredGo decode ((Json.render j).length) cand acct)
      decode (Json.render j) (Json.render j) = .ok c := by
    unfold jsonStepF
    split
    · rename_i j2 hj2
      rw [hdecode] at hj2
      injection hj2 with hj2
      subst hj2
      split
      · rename_i r hr
        rw [hit, htry] at hr
        injection hr with hr
        exact hr.symm
      · rename_i hr
        rw [hit, htry] at hr
        cases hr
    · rename_i hj2
      rw [hdecode] at hj2
      cases hj2
  show parseCredGo decode ((Json.render j).length + 1) (Json.render j) acct = .ok c
  rw [parseCredGo_json_step decode _ _ _ hval hrne hnn hdev hb2 hb3 hb4 hb5 hml]
  exact hjs

theorem render_no_cr (j : Json) : ∀ x ∈ Json.render j, x ≠ '\r' :=
  fun _ hx h => by
    rw [h] at hx
    exact absurd (render_ge32 j _ hx) (by decide)

theorem render_no_nl (j : Json) : containsChar (Json.render j) '\n' = false :=
  containsChar_false_of_forall fun _ hx h => by
    rw [h] at hx
    exact absurd (render_ge32 j _ hx) (by decide)

theorem render_url_safe (j : Json) : ∀ x ∈ Json.render j, urlUnsafe x = false := fun x hx => by
  have h := render_ge32 j x hx
  have h1 : x ≠ '\t' := fun he => by rw [he] at h; exact absurd h (by decide)
  have h2 : x ≠ '\r' := fun he => by rw [he] at h; exact absurd h (by decide)
  have h3 : x ≠ '\n' := fun he => by rw [he] at h; exact absurd h (by decide)
  unfold urlUnsafe
  simp [h1, h2, h3]

/-- C1 (amended): a JSON document of nested objects and arrays whose every
string leaf is the same string `s` (already stripped) renders to a text on
which `parse_credential` — given a decoder that recovers the document, and
provided the rendering itself does not spuriously trigger the delimited
key=value branch or the bare-SAS branch — returns exactly the credential that
`s` parses to.  (As frozen the claim is false: the rendering of a JSON wrapper
around a `;`-delimited connection string contains `=` together with `;`, so
the key=value branch of lines 65–74 captures the whole JSON text before the
JSON branch ever runs; see the counterexample.) -/
theorem C1_json_wrapped_roundtrip (decode : List Char → Option Json) (j : Json)
    (s acct : List Char) (c : AzureCredential)
    (hstruct : (∃ fs, j = Json.obj fs) ∨ (∃ xs, j = Json.arr xs))
    (hleaf : ∀ l ∈ Json.leafStrings j, l = s)
    (hne : Json.leafStrings j ≠ [])
    (hs : pyStrip s = s)
    (hok : parse_credential decode s acct = .ok c)
    (hdecode : decode (Json.render j) = some j)
    (hb2 : branch2cond (Json.render j) = false)
    (hb4 : branch4 (Json.render j) acct = none) :
    parse_credential decode (Json.render j) acct = .ok c := by
  rcases hstruct with ⟨fs, rfl⟩ | ⟨xs, rfl⟩
  · have hh := render_obj_head fs
    have hl := render_obj_last fs
    apply parse_render_core decode _ s acct c hleaf hne hs hok hdecode hb2 hb4
    · exact unquoteStrip_id hh hl (by decide) (by decide) (by decide) (by decide)
    · intro h
      rw [h] at hh
      cases hh
    · exact normNl_eq_self (render_no_cr _)
    · exact devCond_false_of_head hh (by decide)
    · apply branch3_none_of_scheme
      refine urlParse_scheme_nil hh (by decide) ?_ ?_ (render_url_safe _)
      · intro c2 h
        rw [hh] at h
        injection h with h
        rw [← h]
        decide
      · intro c2 h
        rw [hl] at h
        injection h with h
        rw [← h]
        decide
    · apply branch5_none_of_struct
      · apply pyStrip_eq_self
        · intro c2 h
          rw [hh] at h
          injection h with h
          rw [← h]
          decide
        · intro c2 h
          rw [hl] at h
          injection h with h
          rw [← h]
          decide
      · left
        apply List.any_eq_true.mpr
        refine ⟨'\x7b', ?_, by decide⟩
        rw [Json.render]
        exact List.mem_append.mpr (Or.inl (List.mem_cons_self _ _))
    · exact mlCond_false_of_no_nl (render_no_nl _)
  · have hh := render_arr_head xs
    have hl := render_arr_last xs
    apply parse_render_core decode _ s acct c hleaf hne hs hok hdecode hb2 hb4
    · exact unquoteStrip_id hh hl (by decide) (by decide) (by decide) (by decide)
    · intro h
      rw [h] at hh
      cases hh
    · exact normNl_eq_self (render_no_cr _)
    · exact devCond_false_of_head hh (by decide)
    · apply branch3_none_of_scheme
      refine urlParse_scheme_nil hh (by decide) ?_ ?_ (render_url_safe _)
      · intro c2 h
        rw [hh] at h
        injection h with h
        rw [← h]
        decide
      · intro c2 h
        rw [hl] at h
        injection h with h
        rw [← h]
        decide
    · apply branch5_none_of_struct
      · apply pyStrip_eq_self
        · intro c2 h
          rw [hh] at h
          injection h with h
          rw [← h]
          decide
        · intro c2 h
          rw [hl] at h
          injection h with h
          rw [← h]
          decide
      · right
        apply Bool.eq_false_iff.mpr
        intro hall
        have hmem : ('[' : Char) ∈ Json.render (.arr xs) := by
          rw [Json.render]
          exact List.mem_append.mpr (Or.inl (List.mem_cons_self _ _))
        exact absurd (List.all_eq_true.mp hall _ hmem) (by decide)
    · exact mlCond_false_of_no_nl (render_no_nl _)

/-- Witness: the bare account key `ZmFrZUFjY291bnRLZXkxMjM0NTY=` parses via
the bare-key branch, and its JSON wrapper `{"value": "…"}` — whose rendering
triggers neither the key=value branch nor the SAS branch — parses to the
identical credential through the JSON branch. -/
theorem C1_witness :
    parse_credential (fun _ => none) ("ZmFrZUFjY291bnRLZXkxMjM0NTY=".data) ("demoacct".data) =
      .ok ⟨("demoacct".data),
        ("DefaultEndpointsProtocol=https;AccountName=demoacct;AccountKey=ZmFrZUFjY291bnRLZXkxMjM0NTY=;EndpointSuffix=core.windows.net".data),
        some ("ZmFrZUFjY291bnRLZXkxMjM0NTY=".data), none⟩ ∧
    parse_credential
      (fun t => if t = Json.render (Json.obj (JFields.cons ("value".data)
          (Json.str ("ZmFrZUFjY291bnRLZXkxMjM0NTY=".data)) JFields.nil))
        then some (Json.obj (JFields.cons ("value".data)
          (Json.str ("ZmFrZUFjY291bnRLZXkxMjM0NTY=".data)) JFields.nil)) else none)
      (Json.render (Json.obj (JFields.cons ("value".data)
        (Json.str ("ZmFrZUFjY291bnRLZXkxMjM0NTY=".data)) JFields.nil)))
      ("demoacct".data) =
      .ok ⟨("demoacct".data),
        ("DefaultEndpointsProtocol=https;AccountName=demoacct;AccountKey=ZmFrZUFjY291bnRLZXkxMjM0NTY=;EndpointSuffix=core.windows.net".data),
        some ("ZmFrZUFjY291bnRLZXkxMjM0NTY=".data), none⟩ := by
  refine ⟨rfl, ?_⟩
  exact C1_json_wrapped_roundtrip _ _ ("ZmFrZUFjY291bnRLZXkxMjM0NTY=".data) _ _
    (Or.inl ⟨_, rfl⟩) (by decide) (by decide) (by decide) rfl rfl (by decide) (by decide)

set_option maxRecDepth 8000 in
/-- Counterexample to C1 as frozen: wrapping the connection string
`DefaultEndpointsProtocol=https;…;EndpointSuffix=core.windows.net` in the JSON
document `{"connectionString": "…"}` does NOT yield the same credential — the
rendering contains `=` and `;`, so the delimited key=value branch captures the
raw JSON text before the JSON branch runs, and the produced connection string
ends in the stray characters `"}`. -/
theorem C1_counterexample :
    parse_credential (fun _ => none)
      ("DefaultEndpointsProtocol=https;AccountName=cnpgdemo;AccountKey=abcd;EndpointSuffix=core.windows.net".data)
      ("ignored".data) =
      .ok ⟨("cnpgdemo".data),
        ("DefaultEndpointsProtocol=https;AccountName=cnpgdemo;AccountKey=abcd;EndpointSuffix=core.windows.net".data),
        some ("abcd".data), none⟩ ∧
    (∀ l ∈ Json.leafStrings (Json.obj (JFields.cons ("connectionString".data)
        (Json.str ("DefaultEndpointsProtocol=https;AccountName=cnpgdemo;AccountKey=abcd;EndpointSuffix=core.windows.net".data))
        JFields.nil)),
      l = ("DefaultEndpointsProtocol=https;AccountName=cnpgdemo;AccountKey=abcd;EndpointSuffix=core.windows.net".data)) ∧
    branch2cond (Json.render (Json.obj (JFields.cons ("connectionString".data)
        (Json.str ("DefaultEndpointsProtocol=https;AccountName=cnpgdemo;AccountKey=abcd;EndpointSuffix=core.windows.net".data))
        JFields.nil))) = true ∧
    parse_credential (fun _ => none)
      (Json.render (Json.obj (JFields.cons ("connectionString".data)
        (Json.str ("DefaultEndpointsProtocol=https;AccountName=cnpgdemo;AccountKey=abcd;EndpointSuffix=core.windows.net".data))
        JFields.nil)))
      ("ignored".data) =
      .ok ⟨("cnpgdemo".data),
        ("DefaultEndpointsProtocol=https;AccountName=cnpgdemo;AccountKey=abcd;EndpointSuffix=core.windows.net\"\x7d".data),
        some ("abcd".data), none⟩ ∧
    ("DefaultEndpointsProtocol=https;AccountName=cnpgdemo;AccountKey=abcd;EndpointSuffix=core.windows.net\"\x7d".data) ≠
      ("DefaultEndpointsProtocol=https;AccountName=cnpgdemo;AccountKey=abcd;EndpointSuffix=core.windows.net".data) := by
  exact ⟨rfl, by decide, by decide, rfl, by decide⟩

/-! ## Claim C4: infrastructure -/

theorem dropWhile_head_false (p : Char → Bool) :
    ∀ (cs : List Char) {c : Char}, (cs.dropWhile p).head? = some c → p c = false := by
  intro cs
  induction cs with
  | nil => intro c h; cases h
  | cons d t ih =>
    intro c h
    rw [List.dropWhile_cons] at h
    by_cases hd : p d = true
    · rw [if_pos hd] at h
      exact ih h
    · rw [if_neg hd] at h
      cases h
      simpa using hd

theorem dropWhile_getLast (p : Char → Bool) :
    ∀ (cs : List Char), cs.dropWhile p ≠ [] → (cs.dropWhile p).getLast? = cs.getLast? := by
  intro cs
  induction cs with
  | nil => intro h; exact absurd rfl h
  | cons d t ih =>
    intro h
    rw [List.dropWhile_cons] at h ⊢
    by_cases hd : p d = true
    · rw [if_pos hd] at h ⊢
      cases t with
      | nil => exact absurd rfl h
      | cons x t2 =>
        rw [ih h]
        exact List.getLast?_cons_cons.symm
    · rw [if_neg hd]

theorem pyStrip_head (cs : List Char) :
    ∀ {c : Char}, (pyStrip cs).head? = some c → pyWs c = false := by
  intro c h
  unfold pyStrip at h
  rw [List.head?_reverse] at h
  have hne : ((cs.dropWhile pyWs).reverse.dropWhile pyWs) ≠ [] := by
    intro hnil
    rw [hnil] at h
    cases h
  rw [dropWhile_getLast pyWs _ hne, List.getLast?_reverse] at h
  exact dropWhile_head_false pyWs cs h

theorem pyStrip_last (cs : List Char) :
    ∀ {c : Char}, (pyStrip cs).getLast? = some c → pyWs c = false := by
  intro c h
  unfold pyStrip at h
  rw [List.getLast?_reverse] at h
  exact dropWhile_head_false pyWs _ h

theorem pyStrip_idem (cs : List Char) : pyStrip (pyStrip cs) = pyStrip cs :=
  pyStrip_eq_self (fun _ h => pyStrip_head cs h) (fun _ h => pyStrip_last cs h)

theorem mem_pyStrip {x : Char} {cs : List Char} (h : x ∈ pyStrip cs) : x ∈ cs := by
  unfold pyStrip at h
  rw [List.mem_reverse] at h
  have h2 := (List.dropWhile_sublist (l := (cs.dropWhile pyWs).reverse) pyWs).mem h
  rw [List.mem_reverse] at h2
  exact (List.dropWhile_sublist pyWs).mem h2

theorem splitRunsBy_ne_nil (p : Char → Bool) : ∀ (cs : List Char), splitRunsBy p cs ≠ [] := by
  intro cs
  induction cs with
  | nil => simp [splitRunsBy]
  | cons c cs ih =>
    unfold splitRunsBy
    simp only []
    split
    · split
      · simp
      · split
        · exact ih
        · simp
    · split
      · simp
      · simp

theorem splitRunsBy_no_sep (p : Char → Bool) :
    ∀ (cs piece : List Char), piece ∈ splitRunsBy p cs → ∀ ch ∈ piece, p ch = false := by
  intro cs
  induction cs with
  | nil =>
    intro piece hp ch hch
    simp [splitRunsBy] at hp
    subst hp
    cases hch
  | cons c cs ih =>
    intro piece hp ch hch
    unfold splitRunsBy at hp
    simp only [] at hp
    split at hp
    · rename_i hpc
      split at hp
      · rcases List.mem_cons.mp hp with rfl | h2
        · cases hch
        · exact ih piece h2 ch hch
      · split at hp
        · exact ih piece hp ch hch
        · rcases List.mem_cons.mp hp with rfl | h2
          · cases hch
          · exact ih piece h2 ch hch
    · rename_i hpc
      split at hp
      · rename_i hr
        rw [List.mem_singleton] at hp
        subst hp
        rcases List.mem_cons.mp hch with rfl | h2
        · simpa using hpc
        · cases h2
      · rename_i h0 t0 hr
        rcases List.mem_cons.mp hp with rfl | h2
        · rcases List.mem_cons.mp hch with rfl | h3
          · simpa using hpc
          · exact ih h0 (by rw [hr]; exact List.mem_cons_self _ _) ch h3
        · exact ih piece (by rw [hr]; exact List.mem_cons_of_mem _ h2) ch hch

theorem splitRunsBy_cons_notSep (p : Char → Bool) {c : Char} {cs h : List Char}
    {t : List (List Char)}
    (hc : p c = false) (hsplit : splitRunsBy p cs = h :: t) :
    splitRunsBy p (c :: cs) = (c :: h) :: t := by
  unfold splitRunsBy
  simp only []
  rw [if_neg (by simp [hc]), hsplit]

theorem splitRunsBy_append_notSep (p : Char → Bool) :
    ∀ (x : List Char) {w h : List Char} {t : List (List Char)}, (∀ ch ∈ x, p ch = false) →
      splitRunsBy p w = h :: t → splitRunsBy p (x ++ w) = (x ++ h) :: t := by
  intro x
  induction x with
  | nil =>
    intro w h t _ hw
    simpa using hw
  | cons c x2 ih =>
    intro w h t hx hw
    have h2 := ih (fun ch hch => hx ch (List.mem_cons_of_mem _ hch)) hw
    have hc := hx c (List.mem_cons_self _ _)
    rw [show (c :: x2) ++ w = c :: (x2 ++ w) from rfl]
    rw [splitRunsBy_cons_notSep p hc h2]
    rfl

theorem splitRunsBy_sep_cons (p : Char → Bool) {s zc : Char} (zt : List Char)
    (hs : p s = true) (hzc : p zc = false) :
    splitRunsBy p (s :: zc :: zt) = [] :: splitRunsBy p (zc :: zt) := by
  conv_lhs => unfold splitRunsBy
  simp only []
  rw [if_pos hs, if_neg (by simp [hzc])]

theorem splitRunsBy_joinSep (p : Char → Bool) {s : Char} (hs : p s = true) :
    ∀ (parts : List (List Char)) (x : List Char), x ≠ [] → (∀ ch ∈ x, p ch = false) →
      (∀ q ∈ parts, q ≠ [] ∧ ∀ ch ∈ q, p ch = false) →
      splitRunsBy p (joinSep s (x :: parts)) = x :: parts := by
  intro parts
  induction parts with
  | nil =>
    intro x hne hx _
    have h2 := splitRunsBy_append_notSep p x hx
      (show splitRunsBy p [] = [] :: [] from rfl)
    simpa [joinSep] using h2
  | cons y rest ih =>
    intro x hne hx hparts
    rw [show joinSep s (x :: y :: rest) = x ++ s :: joinSep s (y :: rest) from rfl]
    have hy := hparts y (List.mem_cons_self _ _)
    have hrest : ∀ q ∈ rest, q ≠ [] ∧ ∀ ch ∈ q, p ch = false :=
      fun q hq => hparts q (List.mem_cons_of_mem _ hq)
    have hjoin := ih y hy.1 hy.2 hrest
    cases hyc : y with
    | nil => exact absurd hyc hy.1
    | cons yc yt =>
      have hpyc : p yc = false := hy.2 yc (by rw [hyc]; exact List.mem_cons_self _ _)
      have hhead : ∃ z, joinSep s (y :: rest) = yc :: z := by
        cases rest with
        | nil => exact ⟨yt, by rw [joinSep, hyc]⟩
        | cons r rest2 =>
          refine ⟨yt ++ s :: joinSep s (r :: rest2), ?_⟩
          rw [show joinSep s (y :: r :: rest2) = y ++ s :: joinSep s (r :: rest2) from rfl, hyc]
          rfl
      obtain ⟨z, hz⟩ := hhead
      have hsep : splitRunsBy p (s :: joinSep s (y :: rest)) = [] :: (y :: rest) := by
        rw [hz, splitRunsBy_sep_cons p z hs hpyc, ← hz, hjoin]
      have h3 := splitRunsBy_append_notSep p x hx hsep
      rw [hyc] at h3
      simpa using h3

theorem splitAtPred_append (p : Char → Bool) :
    ∀ (K : List Char) {s : Char} (V : List Char), (∀ ch ∈ K, p ch = false) → p s = true →
      splitAtPred p (K ++ s :: V) = some (K, s, V) := by
  intro K
  induction K with
  | nil =>
    intro s V _ hs
    rw [List.nil_append]
    unfold splitAtPred
    rw [if_pos hs]
  | cons c K2 ih =>
    intro s V hK hs
    have hc := hK c (List.mem_cons_self _ _)
    show splitAtPred p (c :: (K2 ++ s :: V)) = _
    unfold splitAtPred
    rw [if_neg (by simp [hc])]
    rw [ih V (fun ch hch => hK ch (List.mem_cons_of_mem _ hch)) hs]

theorem parseSegment_eq {K V : List Char} (hK : K ≠ [])
    (hfree : ∀ ch ∈ K, isKvSep ch = false) :
    parseSegment (K ++ '=' :: V) = some (pyStrip K, pyStrip V) := by
  unfold parseSegment
  rw [splitAtPred_append isKvSep K V hfree (by decide)]
  show (if K = [] then none else some (pyStrip K, pyStrip V)) = some (pyStrip K, pyStrip V)
  rw [if_neg hK]

theorem find?_unique {α : Type} (p : α → Bool) (e0 : α) :
    ∀ (m : List α), e0 ∈ m → p e0 = true →
      (∀ e ∈ m, p e = true → e = e0) → m.find? p = some e0 := by
  intro m
  induction m with
  | nil => intro h; cases h
  | cons h t ih =>
    intro hmem hp huniq
    rw [List.find?_cons]
    by_cases hh : p h = true
    · rw [hh]
      exact congrArg some (huniq h (List.mem_cons_self _ _) hh)
    · have hhf : p h = false := by simpa using hh
      rw [hhf]
      apply ih ?_ hp (fun e he hl => huniq e (List.mem_cons_of_mem _ he) hl)
      rcases List.mem_cons.mp hmem with rfl | h2
      · exact absurd hp hh
      · exact h2

theorem partsGet_unique {m : List (List Char × List Char × List Char)} {low : List Char}
    {e0 : List Char × List Char × List Char} (hmem : e0 ∈ m) (he0 : e0.1 = low)
    (huniq : ∀ e ∈ m, e.1 = low → e = e0) :
    partsGet m low = some (e0.2.1, e0.2.2) := by
  unfold partsGet
  rw [find?_unique _ e0 m hmem (by simp [he0])
    (fun e he hl => huniq e he (by simpa using hl))]

theorem partsGet_none_of {m : List (List Char × List Char × List Char)} {low : List Char}
    (h : ∀ e ∈ m, e.1 ≠ low) : partsGet m low = none := by
  unfold partsGet
  rw [List.find?_eq_none.mpr (fun e he => by simpa using h e he)]

theorem partsOfSegments_acc :
    ∀ (segs : List (List Char)) (acc : List (List Char × List Char × List Char)),
      segs.foldl (fun m seg =>
        if seg = [] then m
        else
          match parseSegment seg with
          | none => m
          | some (k, v) => if k = [] then m else (lowerL k, k, v) :: m) acc
      = partsOfSegments segs ++ acc := by
  intro segs
  induction segs with
  | nil =>
    intro acc
    simp [partsOfSegments]
  | cons f segs ih =>
    intro acc
    rw [List.foldl_cons]
    rw [ih _]
    have hthis : partsOfSegments (f :: segs) = partsOfSegments segs ++
        ((fun (m : List (List Char × List Char × List Char)) (seg : List Char) =>
          if seg = [] then m
          else
            match parseSegment seg with
            | none => m
            | some (k, v) => if k = [] then m else (lowerL k, k, v) :: m) [] f) := by
      rw [show partsOfSegments (f :: segs) = segs.foldl (fun m seg =>
        if seg = [] then m
        else
          match parseSegment seg with
          | none => m
          | some (k, v) => if k = [] then m else (lowerL k, k, v) :: m)
          ((fun (m : List (List Char × List Char × List Char)) (seg : List Char) =>
            if seg = [] then m
            else
              match parseSegment seg with
              | none => m
              | some (k, v) => if k = [] then m else (lowerL k, k, v) :: m) [] f) from rfl]
      rw [ih _]
    rw [hthis, List.append_assoc]
    congr 1
    simp only []
    by_cases hf : f = []
    · simp [hf]
    · rw [if_neg hf, if_neg hf]
      rcases hps : parseSegment f with _ | ⟨k, v⟩
      · simp
      · by_cases hk : k = []
        · simp [hk]
        · simp [hk]

theorem splitAtPred_some_spec (p : Char → Bool) :
    ∀ (cs : List Char) {a : List Char} {s : Char} {b : List Char},
      splitAtPred p cs = some (a, s, b) →
      cs = a ++ s :: b ∧ p s = true ∧ ∀ ch ∈ a, p ch = false := by
  intro cs
  induction cs with
  | nil => intro a s b h; cases h
  | cons c cs ih =>
    intro a s b h
    unfold splitAtPred at h
    split at h
    · rename_i hpc
      cases h
      exact ⟨rfl, hpc, fun ch hch => by cases hch⟩
    · rename_i hpc
      split at h
      · cases h
      · rename_i a2 s2 b2 hs2
        cases h
        obtain ⟨heq, hps, hfree⟩ := ih hs2
        refine ⟨by rw [heq]; rfl, hps, ?_⟩
        intro ch hch
        rcases List.mem_cons.mp hch with rfl | h2
        · simpa using hpc
        · exact hfree ch h2

theorem parseSegment_spec {seg k v : List Char} (h : parseSegment seg = some (k, v)) :
    ∃ a b : List Char, ∃ s : Char, seg = a ++ s :: b ∧ a ≠ [] ∧
      (∀ ch ∈ a, isKvSep ch = false) ∧ k = pyStrip a ∧ v = pyStrip b := by
  unfold parseSegment at h
  split at h
  · cases h
  · rename_i a s b hs
    obtain ⟨heq, _, hfree⟩ := splitAtPred_some_spec isKvSep seg hs
    split at h
    · cases h
    · rename_i hne
      cases h
      exact ⟨a, b, s, heq, hne, hfree, rfl, rfl⟩

theorem partsOfSegments_cons (f : List Char) (segs : List (List Char)) :
    partsOfSegments (f :: segs) = partsOfSegments segs ++ partsOfSegments [f] := by
  have h1 : partsOfSegments (f :: segs) = segs.foldl (fun m seg =>
      if seg = [] then m
      else
        match parseSegment seg with
        | none => m
        | some (k, v) => if k = [] then m else (lowerL k, k, v) :: m)
      (partsOfSegments [f]) := rfl
  rw [h1, partsOfSegments_acc]

theorem partsOfSegments_append (a b : List (List Char)) :
    partsOfSegments (a ++ b) = partsOfSegments b ++ partsOfSegments a := by
  show (a ++ b).foldl _ [] = _
  rw [List.foldl_append]
  rw [partsOfSegments_acc b (a.foldl _ [])]
  rfl

theorem partsOfSegments_single {K V : List Char} (hK : K ≠ [])
    (hfree : ∀ ch ∈ K, isKvSep ch = false)
    (hsK : pyStrip K = K) (hsV : pyStrip V = V) :
    partsOfSegments [K ++ '=' :: V] = [(lowerL K, K, V)] := by
  show (if K ++ '=' :: V = [] then ([] : List (List Char × List Char × List Char))
    else
      match parseSegment (K ++ '=' :: V) with
      | none => []
      | some (k, v) => if k = [] then [] else [(lowerL k, k, v)]) = _
  rw [if_neg (by cases K <;> simp)]
  rw [parseSegment_eq hK hfree, hsK, hsV]
  show (if K = [] then ([] : List (List Char × List Char × List Char))
    else [(lowerL K, K, V)]) = _
  rw [if_neg hK]

theorem partsGet_nil (low : List Char) : partsGet [] low = none := rfl

theorem partsGet_singleton (klow K V low : List Char) :
    partsGet [(klow, K, V)] low = if klow = low then some (K, V) else none := by
  unfold partsGet
  by_cases h : klow = low
  · rw [if_pos h]
    rw [List.find?_cons, show (decide ((klow, K, V).1 = low)) = true by simp [h]]
  · rw [if_neg h]
    rw [List.find?_cons, show (decide ((klow, K, V).1 = low)) = false by simp [h]]
    rfl

theorem partsGet_append_left {A : List (List Char × List Char × List Char)}
    {low : List Char} {x : List Char × List Char}
    (h : partsGet A low = some x) (B : List (List Char × List Char × List Char)) :
    partsGet (A ++ B) low = some x := by
  unfold partsGet at h ⊢
  rcases hf : A.find? (fun e => e.1 = low) with _ | ⟨e⟩
  · rw [hf] at h
    cases h
  · rw [hf] at h
    rw [List.find?_append, hf]
    exact h

theorem partsGet_append_right {A : List (List Char × List Char × List Char)}
    {low : List Char} (h : ∀ e ∈ A, e.1 ≠ low)
    (B : List (List Char × List Char × List Char)) :
    partsGet (A ++ B) low = partsGet B low := by
  unfold partsGet
  rw [List.find?_append, List.find?_eq_none.mpr (fun e he => by simpa using h e he)]
  rfl

theorem partsGet_mem {m : List (List Char × List Char × List Char)} {low : List Char}
    {K V : List Char} (h : partsGet m low = some (K, V)) : (low, K, V) ∈ m := by
  unfold partsGet at h
  rcases hf : m.find? (fun e => e.1 = low) with _ | ⟨e⟩
  · rw [hf] at h
    cases h
  · rw [hf] at h
    have hmem := List.mem_of_find?_eq_some hf
    have hpred := List.find?_some hf
    rcases e with ⟨e1, e2, e3⟩
    cases h
    have : e1 = low := by simpa using hpred
    subst this
    exact hmem

theorem partsOfSegments_src : ∀ (segs : List (List Char))
    (e : List Char × List Char × List Char), e ∈ partsOfSegments segs →
    ∃ seg ∈ segs, ∃ k v, parseSegment seg = some (k, v) ∧ k ≠ [] ∧ e = (lowerL k, k, v) := by
  intro segs
  induction segs with
  | nil =>
    intro e h
    cases h
  | cons f segs ih =>
    intro e h
    rw [partsOfSegments_cons] at h
    rcases List.mem_append.mp h with h2 | h2
    · obtain ⟨seg, hseg, k, v, hp, hk, he⟩ := ih e h2
      exact ⟨seg, List.mem_cons_of_mem _ hseg, k, v, hp, hk, he⟩
    · have hsingle : partsOfSegments [f] =
          (if f = [] then ([] : List (List Char × List Char × List Char))
           else match parseSegment f with
           | none => []
           | some (k, v) => if k = [] then [] else [(lowerL k, k, v)]) := rfl
      rw [hsingle] at h2
      split at h2
      · cases h2
      · split at h2
        · cases h2
        · rename_i k v hps
          split at h2
          · cases h2
          · rename_i hk
            rw [List.mem_singleton] at h2
            exact ⟨f, List.mem_cons_self _ _, k, v, hps, hk, h2⟩

theorem partsOfSegments_keyprops {segs : List (List Char)} :
    ∀ e ∈ partsOfSegments segs,
      e.2.1 ≠ [] ∧ pyStrip e.2.1 = e.2.1 ∧ pyStrip e.2.2 = e.2.2 ∧
      ∀ ch ∈ e.2.1, isKvSep ch = false := by
  intro e he
  obtain ⟨seg, hseg, k, v, hp, hk, rfl⟩ := partsOfSegments_src segs e he
  obtain ⟨a, b, s, hseq, hane, hafree, hkv, hvv⟩ := parseSegment_spec hp
  subst hkv
  subst hvv
  exact ⟨hk, pyStrip_idem a, pyStrip_idem b,
    fun ch hch => hafree ch (mem_pyStrip hch)⟩

theorem partsOfSegments_charprop (Q : Char → Bool) {segs : List (List Char)}
    (hsegs : ∀ s ∈ segs, ∀ ch ∈ s, Q ch = false) :
    ∀ e ∈ partsOfSegments segs,
      (∀ ch ∈ e.2.1, Q ch = false) ∧ (∀ ch ∈ e.2.2, Q ch = false) := by
  intro e he
  obtain ⟨seg, hseg, k, v, hp, hk, rfl⟩ := partsOfSegments_src segs e he
  obtain ⟨a, b, s, hseq, hane, hafree, hkv, hvv⟩ := parseSegment_spec hp
  subst hkv
  subst hvv
  constructor
  · intro ch hch
    have hm : ch ∈ seg := by
      rw [hseq]
      exact List.mem_append.mpr (Or.inl (mem_pyStrip hch))
    exact hsegs seg hseg ch hm
  · intro ch hch
    have hm : ch ∈ seg := by
      rw [hseq]
      exact List.mem_append.mpr (Or.inr (List.mem_cons_of_mem _ (mem_pyStrip hch)))
    exact hsegs seg hseg ch hm

theorem normNl_no_cr : ∀ (cs : List Char), ∀ x ∈ normNl cs, x ≠ '\r' := by
  intro cs
  induction cs with
  | nil => intro x hx; cases hx
  | cons c rest ih =>
    intro x hx
    unfold normNl at hx
    split at hx
    · rename_i heq
      exact (List.cons_ne_nil _ _ heq).elim
    · rename_i rest2 heq
      injection heq with h1 h2
      rcases List.mem_cons.mp hx with rfl | h3
      · decide
      · apply ih
        rw [h2]
        rw [show normNl ('\n' :: rest2) = '\n' :: normNl rest2 from rfl]
        exact List.mem_cons_of_mem _ h3
    · rename_i r hguard heq
      injection heq with h1 h2
      rcases List.mem_cons.mp hx with rfl | h3
      · decide
      · apply ih
        rw [h2]
        exact h3
    · rename_i xx c2 r hg1 hg2 heq
      injection heq with h1 h2
      rcases List.mem_cons.mp hx with rfl | h3
      · intro hc
        exact hg2 hc
      · apply ih
        rw [h2]
        exact h3

theorem mem_joinSep {x : Char} {s : Char} :
    ∀ {parts : List (List Char)}, x ∈ joinSep s parts →
      x = s ∨ ∃ q ∈ parts, x ∈ q := by
  intro parts
  induction parts with
  | nil => intro h; cases h
  | cons q rest ih =>
    intro h
    cases rest with
    | nil =>
      rw [joinSep] at h
      exact Or.inr ⟨q, List.mem_cons_self _ _, h⟩
    | cons q2 rest2 =>
      rw [show joinSep s (q :: q2 :: rest2) = q ++ s :: joinSep s (q2 :: rest2) from rfl] at h
      rcases List.mem_append.mp h with h2 | h2
      · exact Or.inr ⟨q, List.mem_cons_self _ _, h2⟩
      · rcases List.mem_cons.mp h2 with rfl | h3
        · exact Or.inl rfl
        · rcases ih h3 with h4 | ⟨q3, hq3, hx3⟩
          · exact Or.inl h4
          · exact Or.inr ⟨q3, List.mem_cons_of_mem _ hq3, hx3⟩

theorem mem_joinSep_of {x : Char} {s : Char} :
    ∀ {parts : List (List Char)} {q : List Char}, q ∈ parts → x ∈ q →
      x ∈ joinSep s parts := by
  intro parts
  induction parts with
  | nil => intro q h; cases h
  | cons q0 rest ih =>
    intro q hq hx
    cases rest with
    | nil =>
      rw [joinSep]
      rcases List.mem_cons.mp hq with rfl | h2
      · exact hx
      · cases h2
    | cons q2 rest2 =>
      rw [show joinSep s (q0 :: q2 :: rest2) = q0 ++ s :: joinSep s (q2 :: rest2) from rfl]
      rcases List.mem_cons.mp hq with rfl | h2
      · exact List.mem_append.mpr (Or.inl hx)
      · exact List.mem_append.mpr (Or.inr (List.mem_cons_of_mem _ (ih h2 hx)))

/-- An echoed field group (`BlobEndpoint`, `QueueEndpoint`, `TableEndpoint`,
`FileEndpoint`, explicit `EndpointSuffix`): its re-parse recovers exactly the
entry it came from. -/
theorem echoGroup {m : List (List Char × List Char × List Char)} (κ : List Char)
    (hinv : ∀ e ∈ m, e.1 = lowerL e.2.1)
    (hpr : ∀ e ∈ m, e.2.1 ≠ [] ∧ pyStrip e.2.1 = e.2.1 ∧ pyStrip e.2.2 = e.2.2 ∧
      ∀ ch ∈ e.2.1, isKvSep ch = false) :
    (partsGet m κ = none ∧
      (match partsGet m κ with
       | some (k, v) => [k ++ '=' :: v]
       | none => ([] : List (List Char))) = []) ∨
    ∃ K V, partsGet m κ = some (K, V) ∧
      (match partsGet m κ with
       | some (k, v) => [k ++ '=' :: v]
       | none => ([] : List (List Char))) = [K ++ '=' :: V] ∧
      partsOfSegments [K ++ '=' :: V] = [(κ, K, V)] ∧
      K ≠ [] ∧ pyStrip K = K ∧ pyStrip V = V := by
  rcases hp : partsGet m κ with _ | ⟨K, V⟩
  · exact Or.inl ⟨rfl, rfl⟩
  · have hmem := partsGet_mem hp
    have hi := hinv _ hmem
    have hr := hpr _ hmem
    refine Or.inr ⟨K, V, rfl, rfl, ?_, hr.1, hr.2.1, hr.2.2.1⟩
    rw [partsOfSegments_single hr.1 hr.2.2.2 hr.2.1 hr.2.2.1, ← hi]

/-- The protocol field: always present in the canonical list, re-parsing to a
`defaultendpointsprotocol` entry whose echo is the field itself. -/
theorem protoGroup {m : List (List Char × List Char × List Char)}
    (hinv : ∀ e ∈ m, e.1 = lowerL e.2.1)
    (hpr : ∀ e ∈ m, e.2.1 ≠ [] ∧ pyStrip e.2.1 = e.2.1 ∧ pyStrip e.2.2 = e.2.2 ∧
      ∀ ch ∈ e.2.1, isKvSep ch = false) :
    ∃ K V, b2proto m = K ++ '=' :: V ∧
      partsOfSegments [b2proto m] = [(("defaultendpointsprotocol".data), K, V)] ∧
      K ≠ [] ∧ pyStrip K = K ∧ pyStrip V = V := by
  unfold b2proto
  rcases hp : partsGet m ("defaultendpointsprotocol".data) with _ | ⟨K, V⟩
  · exact ⟨("DefaultEndpointsProtocol".data), ("https".data), by decide, by decide,
      by decide, by decide, by decide⟩
  · have hmem := partsGet_mem hp
    have hi := hinv _ hmem
    have hr := hpr _ hmem
    refine ⟨K, V, rfl, ?_, hr.1, hr.2.1, hr.2.2.1⟩
    rw [partsOfSegments_single hr.1 hr.2.2.2 hr.2.1 hr.2.2.1, ← hi]

/-- The `AccountName` field group. -/
theorem nameGroup {m : List (List Char × List Char × List Char)} {storage : List Char}
    (hpr : ∀ e ∈ m, e.2.1 ≠ [] ∧ pyStrip e.2.1 = e.2.1 ∧ pyStrip e.2.2 = e.2.2 ∧
      ∀ ch ∈ e.2.1, isKvSep ch = false)
    (hstor : partsGet m ("accountname".data) = none → storage = [] ∨ pyStrip storage = storage) :
    (b2name m storage = [] ∧
      (match partsGet m ("accountname".data) with
       | some e => e.2
       | none => storage) = []) ∨
    ∃ V, V ≠ [] ∧ pyStrip V = V ∧
      (match partsGet m ("accountname".data) with
       | some e => e.2
       | none => storage) = V ∧
      b2name m storage = [("AccountName=".data) ++ V] ∧
      partsOfSegments (b2name m storage) =
        [(("accountname".data), ("AccountName".data), V)] := by
  unfold b2name
  rcases hp : partsGet m ("accountname".data) with _ | ⟨K0, V0⟩
  · by_cases hs : storage = []
    · left
      refine ⟨?_, hs⟩
      rw [if_neg (by simpa using hs)]
    · right
      have hstrip : pyStrip storage = storage := by
        rcases hstor hp with h | h
        · exact absurd h hs
        · exact h
      refine ⟨storage, hs, hstrip, rfl, ?_, ?_⟩
      · rw [if_pos (by simpa using hs)]
      · rw [if_pos (by simpa using hs)]
        rw [show ("AccountName=".data) ++ storage = ("AccountName".data) ++ '=' :: storage from rfl]
        rw [partsOfSegments_single (by decide) (by decide) (by decide) hstrip]
        rfl
  · have hmem := partsGet_mem hp
    have hr := hpr _ hmem
    by_cases hv : V0 = []
    · left
      subst hv
      refine ⟨?_, rfl⟩
      rw [if_neg (by simp)]
    · right
      refine ⟨V0, hv, hr.2.2.1, rfl, ?_, ?_⟩
      · rw [if_pos (by simpa using hv)]
      · rw [if_pos (by simpa using hv)]
        rw [show ("AccountName=".data) ++ V0 = ("AccountName".data) ++ '=' :: V0 from rfl]
        rw [partsOfSegments_single (by decide) (by decide) (by decide) hr.2.2.1]
        rfl

/-- The `AccountKey` field group. -/
theorem keyGroup {m : List (List Char × List Char × List Char)}
    (hpr : ∀ e ∈ m, e.2.1 ≠ [] ∧ pyStrip e.2.1 = e.2.1 ∧ pyStrip e.2.2 = e.2.2 ∧
      ∀ ch ∈ e.2.1, isKvSep ch = false) :
    (partsGet m ("accountkey".data) = none ∧ b2key m = []) ∨
    (∃ K0, partsGet m ("accountkey".data) = some (K0, []) ∧ b2key m = []) ∨
    ∃ K0 V, partsGet m ("accountkey".data) = some (K0, V) ∧ V ≠ [] ∧ pyStrip V = V ∧
      b2key m = [("AccountKey=".data) ++ V] ∧
      partsOfSegments (b2key m) = [(("accountkey".data), ("AccountKey".data), V)] := by
  unfold b2key
  rcases hp : partsGet m ("accountkey".data) with _ | ⟨K0, V⟩
  · exact Or.inl ⟨rfl, rfl⟩
  · have hmem := partsGet_mem hp
    have hr := hpr _ hmem
    by_cases hv : V = []
    · subst hv
      refine Or.inr (Or.inl ⟨K0, rfl, ?_⟩)
      show (if ([] : List Char) ≠ [] then [("AccountKey=".data) ++ ([] : List Char)]
        else []) = []
      rw [if_neg (by simp)]
    · refine Or.inr (Or.inr ⟨K0, V, rfl, hv, hr.2.2.1, ?_, ?_⟩)
      · show (if V ≠ [] then [("AccountKey=".data) ++ V] else []) = [("AccountKey=".data) ++ V]
        rw [if_pos (by simpa using hv)]
      · show partsOfSegments (if V ≠ [] then [("AccountKey=".data) ++ V] else []) =
          [(("accountkey".data), ("AccountKey".data), V)]
        rw [if_pos (by simpa using hv)]
        rw [show ("AccountKey=".data) ++ V = ("AccountKey".data) ++ '=' :: V from rfl]
        rw [partsOfSegments_single (by decide) (by decide) (by decide) hr.2.2.1]
        rfl

/-- The `SharedAccessSignature` field group. -/
theorem sasGroup {m : List (List Char × List Char × List Char)}
    (hpr : ∀ e ∈ m, e.2.1 ≠ [] ∧ pyStrip e.2.1 = e.2.1 ∧ pyStrip e.2.2 = e.2.2 ∧
      ∀ ch ∈ e.2.1, isKvSep ch = false) :
    (partsGet m ("sharedaccesssignature".data) = none ∧ b2sas m = []) ∨
    (∃ K0, partsGet m ("sharedaccesssignature".data) = some (K0, []) ∧ b2sas m = []) ∨
    ∃ K0 V, partsGet m ("sharedaccesssignature".data) = some (K0, V) ∧ V ≠ [] ∧
      pyStrip V = V ∧
      b2sas m = [("SharedAccessSignature=".data) ++ V] ∧
      partsOfSegments (b2sas m) =
        [(("sharedaccesssignature".data), ("SharedAccessSignature".data), V)] := by
  unfold b2sas
  rcases hp : partsGet m ("sharedaccesssignature".data) with _ | ⟨K0, V⟩
  · exact Or.inl ⟨rfl, rfl⟩
  · have hmem := partsGet_mem hp
    have hr := hpr _ hmem
    by_cases hv : V = []
    · subst hv
      refine Or.inr (Or.inl ⟨K0, rfl, ?_⟩)
      show (if ([] : List Char) ≠ [] then [("SharedAccessSignature=".data) ++ ([] : List Char)]
        else []) = []
      rw [if_neg (by simp)]
    · refine Or.inr (Or.inr ⟨K0, V, rfl, hv, hr.2.2.1, ?_, ?_⟩)
      · show (if V ≠ [] then [("SharedAccessSignature=".data) ++ V] else []) =
          [("SharedAccessSignature=".data) ++ V]
        rw [if_pos (by simpa using hv)]
      · show partsOfSegments (if V ≠ [] then [("SharedAccessSignature=".data) ++ V] else []) =
          [(("sharedaccesssignature".data), ("SharedAccessSignature".data), V)]
        rw [if_pos (by simpa using hv)]
        rw [show ("SharedAccessSignature=".data) ++ V =
          ("SharedAccessSignature".data) ++ '=' :: V from rfl]
        rw [partsOfSegments_single (by decide) (by decide) (by decide) hr.2.2.1]
        rfl

/-- The `EndpointSuffix` field group. -/
theorem suffixGroup {m : List (List Char × List Char × List Char)}
    (hinv : ∀ e ∈ m, e.1 = lowerL e.2.1)
    (hpr : ∀ e ∈ m, e.2.1 ≠ [] ∧ pyStrip e.2.1 = e.2.1 ∧ pyStrip e.2.2 = e.2.2 ∧
      ∀ ch ∈ e.2.1, isKvSep ch = false) :
    (∃ K V, partsGet m ("endpointsuffix".data) = some (K, V) ∧
      b2suffix m = [K ++ '=' :: V] ∧
      partsOfSegments (b2suffix m) = [(("endpointsuffix".data), K, V)] ∧
      K ≠ [] ∧ pyStrip K = K ∧ pyStrip V = V) ∨
    (partsGet m ("endpointsuffix".data) = none ∧ partsGet m ("blobendpoint".data) = none ∧
      b2suffix m = [("EndpointSuffix=core.windows.net".data)] ∧
      partsOfSegments (b2suffix m) =
        [(("endpointsuffix".data), ("EndpointSuffix".data), ("core.windows.net".data))]) ∨
    (partsGet m ("endpointsuffix".data) = none ∧
      partsGet m ("blobendpoint".data) ≠ none ∧ b2suffix m = []) := by
  unfold b2suffix
  rcases hp : partsGet m ("endpointsuffix".data) with _ | ⟨K, V⟩
  · rcases hb : partsGet m ("blobendpoint".data) with _ | ⟨Kb, Vb⟩
    · refine Or.inr (Or.inl ⟨rfl, rfl, ?_, ?_⟩)
      · rw [if_pos rfl]
      · rw [if_pos rfl]
        decide
    · refine Or.inr (Or.inr ⟨rfl, by simp, ?_⟩)
      rw [if_neg (by simp)]
  · have hmem := partsGet_mem hp
    have hi := hinv _ hmem
    have hr := hpr _ hmem
    refine Or.inl ⟨K, V, rfl, rfl, ?_, hr.1, hr.2.1, hr.2.2.1⟩
    rw [partsOfSegments_single hr.1 hr.2.2.2 hr.2.1 hr.2.2.1, ← hi]

theorem entries_ne_append {A B : List (List Char × List Char × List Char)} {κ : List Char}
    (hA : ∀ e ∈ A, e.1 ≠ κ) (hB : ∀ e ∈ B, e.1 ≠ κ) : ∀ e ∈ A ++ B, e.1 ≠ κ :=
  fun e he => (List.mem_append.mp he).elim (hA e) (hB e)

theorem partsGet_append_skipright {A B : List (List Char × List Char × List Char)}
    {κ : List Char} (hB : ∀ e ∈ B, e.1 ≠ κ) :
    partsGet (A ++ B) κ = partsGet A κ := by
  unfold partsGet
  rw [List.find?_append]
  rcases hA : A.find? (fun e => e.1 = κ) with _ | ⟨x⟩
  · rw [hA, List.find?_eq_none.mpr (fun e he => by simpa using hB e he)]
    rfl
  · rw [hA]
    rcases x with ⟨x1, x2, x3⟩
    rfl

theorem partsGet_cases {A : List (List Char × List Char × List Char)} {κ : List Char} :
    partsGet A κ = none ∨ ∃ K V, partsGet A κ = some (K, V) := by
  rcases h : partsGet A κ with _ | ⟨K, V⟩
  · exact Or.inl rfl
  · exact Or.inr ⟨K, V, rfl⟩

theorem partsOfSegments_nil : partsOfSegments [] = [] := rfl

theorem echoEntries {m : List (List Char × List Char × List Char)} (κ : List Char)
    (hinv : ∀ e ∈ m, e.1 = lowerL e.2.1)
    (hpr : ∀ e ∈ m, e.2.1 ≠ [] ∧ pyStrip e.2.1 = e.2.1 ∧ pyStrip e.2.2 = e.2.2 ∧
      ∀ ch ∈ e.2.1, isKvSep ch = false) :
    ∀ e ∈ partsOfSegments (match partsGet m κ with
      | some (k, v) => [k ++ '=' :: v]
      | none => ([] : List (List Char))), e.1 = κ := by
  rcases echoGroup κ hinv hpr with ⟨hp, hnil⟩ | ⟨K, V, hp, hf, hparts, _⟩
  · intro e he
    rw [hnil, partsOfSegments_nil] at he
    cases he
  · intro e he
    rw [hf, hparts] at he
    rw [List.mem_singleton.mp he]

theorem echoPartsGet {m : List (List Char × List Char × List Char)} (κ : List Char)
    (hinv : ∀ e ∈ m, e.1 = lowerL e.2.1)
    (hpr : ∀ e ∈ m, e.2.1 ≠ [] ∧ pyStrip e.2.1 = e.2.1 ∧ pyStrip e.2.2 = e.2.2 ∧
      ∀ ch ∈ e.2.1, isKvSep ch = false) :
    partsGet (partsOfSegments (match partsGet m κ with
      | some (k, v) => [k ++ '=' :: v]
      | none => ([] : List (List Char)))) κ = partsGet m κ := by
  rcases echoGroup κ hinv hpr with ⟨hp, hnil⟩ | ⟨K, V, hp, hf, hparts, _⟩
  · rw [hnil, partsOfSegments_nil, partsGet_nil, hp]
  · rw [hf, hparts, partsGet_singleton, if_pos rfl, hp]

theorem entriesProto {m : List (List Char × List Char × List Char)}
    (hinv : ∀ e ∈ m, e.1 = lowerL e.2.1)
    (hpr : ∀ e ∈ m, e.2.1 ≠ [] ∧ pyStrip e.2.1 = e.2.1 ∧ pyStrip e.2.2 = e.2.2 ∧
      ∀ ch ∈ e.2.1, isKvSep ch = false) :
    ∀ e ∈ partsOfSegments [b2proto m], e.1 = ("defaultendpointsprotocol".data) := by
  obtain ⟨K, V, hf, hparts, _⟩ := protoGroup hinv hpr
  intro e he
  rw [hparts] at he
  rw [List.mem_singleton.mp he]

theorem entriesName {m : List (List Char × List Char × List Char)} {storage : List Char}
    (hpr : ∀ e ∈ m, e.2.1 ≠ [] ∧ pyStrip e.2.1 = e.2.1 ∧ pyStrip e.2.2 = e.2.2 ∧
      ∀ ch ∈ e.2.1, isKvSep ch = false)
    (hstor : partsGet m ("accountname".data) = none →
      storage = [] ∨ pyStrip storage = storage) :
    ∀ e ∈ partsOfSegments (b2name m storage), e.1 = ("accountname".data) := by
  rcases nameGroup hpr hstor with ⟨hnil, _⟩ | ⟨V, _, _, _, _, hparts⟩
  · intro e he
    rw [hnil, partsOfSegments_nil] at he
    cases he
  · intro e he
    rw [hparts] at he
    rw [List.mem_singleton.mp he]

theorem entriesKey {m : List (List Char × List Char × List Char)}
    (hpr : ∀ e ∈ m, e.2.1 ≠ [] ∧ pyStrip e.2.1 = e.2.1 ∧ pyStrip e.2.2 = e.2.2 ∧
      ∀ ch ∈ e.2.1, isKvSep ch = false) :
    ∀ e ∈ partsOfSegments (b2key m), e.1 = ("accountkey".data) := by
  rcases keyGroup hpr with ⟨_, hnil⟩ | ⟨K0, _, hnil⟩ | ⟨K0, V, _, _, _, _, hparts⟩
  · intro e he
    rw [hnil, partsOfSegments_nil] at he
    cases he
  · intro e he
    rw [hnil, partsOfSegments_nil] at he
    cases he
  · intro e he
    rw [hparts] at he
    rw [List.mem_singleton.mp he]

theorem entriesSas {m : List (List Char × List Char × List Char)}
    (hpr : ∀ e ∈ m, e.2.1 ≠ [] ∧ pyStrip e.2.1 = e.2.1 ∧ pyStrip e.2.2 = e.2.2 ∧
      ∀ ch ∈ e.2.1, isKvSep ch = false) :
    ∀ e ∈ partsOfSegments (b2sas m), e.1 = ("sharedaccesssignature".data) := by
  rcases sasGroup hpr with ⟨_, hnil⟩ | ⟨K0, _, hnil⟩ | ⟨K0, V, _, _, _, _, hparts⟩
  · intro e he
    rw [hnil, partsOfSegments_nil] at he
    cases he
  · intro e he
    rw [hnil, partsOfSegments_nil] at he
    cases he
  · intro e he
    rw [hparts] at he
    rw [List.mem_singleton.mp he]

theorem entriesSuffix {m : List (List Char × List Char × List Char)}
    (hinv : ∀ e ∈ m, e.1 = lowerL e.2.1)
    (hpr : ∀ e ∈ m, e.2.1 ≠ [] ∧ pyStrip e.2.1 = e.2.1 ∧ pyStrip e.2.2 = e.2.2 ∧
      ∀ ch ∈ e.2.1, isKvSep ch = false) :
    ∀ e ∈ partsOfSegments (b2suffix m), e.1 = ("endpointsuffix".data) := by
  rcases suffixGroup hinv hpr with ⟨K, V, _, _, hparts, _⟩ | ⟨_, _, _, hparts⟩ |
    ⟨_, _, hnil⟩
  · intro e he
    rw [hparts] at he
    rw [List.mem_singleton.mp he]
  · intro e he
    rw [hparts] at he
    rw [List.mem_singleton.mp he]
  · intro e he
    rw [hnil, partsOfSegments_nil] at he
    cases he

theorem extra_decomp (m : List (List Char × List Char × List Char)) :
    partsOfSegments (b2extra m) =
      partsOfSegments (match partsGet m ("fileendpoint".data) with
        | some (k, v) => [k ++ '=' :: v]
        | none => ([] : List (List Char))) ++
      (partsOfSegments (match partsGet m ("tableendpoint".data) with
        | some (k, v) => [k ++ '=' :: v]
        | none => ([] : List (List Char))) ++
       partsOfSegments (match partsGet m ("queueendpoint".data) with
        | some (k, v) => [k ++ '=' :: v]
        | none => ([] : List (List Char)))) := by
  show partsOfSegments
    (((match partsGet m ("queueendpoint".data) with
       | some (k, v) => [k ++ '=' :: v]
       | none => ([] : List (List Char))) ++
      (match partsGet m ("tableendpoint".data) with
       | some (k, v) => [k ++ '=' :: v]
       | none => ([] : List (List Char)))) ++
     (match partsGet m ("fileendpoint".data) with
      | some (k, v) => [k ++ '=' :: v]
      | none => ([] : List (List Char)))) = _
  rw [partsOfSegments_append, partsOfSegments_append]

theorem entriesExtra {m : List (List Char × List Char × List Char)}
    (hinv : ∀ e ∈ m, e.1 = lowerL e.2.1)
    (hpr : ∀ e ∈ m, e.2.1 ≠ [] ∧ pyStrip e.2.1 = e.2.1 ∧ pyStrip e.2.2 = e.2.2 ∧
      ∀ ch ∈ e.2.1, isKvSep ch = false) :
    ∀ e ∈ partsOfSegments (b2extra m),
      e.1 = ("queueendpoint".data) ∨ e.1 = ("tableendpoint".data) ∨
        e.1 = ("fileendpoint".data) := by
  intro e he
  rw [extra_decomp] at he
  rcases List.mem_append.mp he with h2 | h2
  · exact Or.inr (Or.inr (echoEntries ("fileendpoint".data) hinv hpr e h2))
  · rcases List.mem_append.mp h2 with h3 | h3
    · exact Or.inr (Or.inl (echoEntries ("tableendpoint".data) hinv hpr e h3))
    · exact Or.inl (echoEntries ("queueendpoint".data) hinv hpr e h3)

theorem m2_decomp (m : List (List Char × List Char × List Char)) (storage : List Char) :
    partsOfSegments (branch2Fields m storage) =
      (partsOfSegments (b2extra m) ++
        (partsOfSegments (b2suffix m) ++ (partsOfSegments (b2sas m) ++
          (partsOfSegments (b2key m) ++ (partsOfSegments (b2blob m) ++
            partsOfSegments (b2name m storage)))))) ++
      partsOfSegments [b2proto m] := by
  rw [show branch2Fields m storage = b2proto m ::
    (((((b2name m storage ++ b2blob m) ++ b2key m) ++ b2sas m) ++ b2suffix m) ++ b2extra m)
    from rfl]
  rw [partsOfSegments_cons]
  congr 1
  rw [partsOfSegments_append, partsOfSegments_append, partsOfSegments_append,
    partsOfSegments_append, partsOfSegments_append]


theorem neExtra {m : List (List Char × List Char × List Char)}
    (hinv : ∀ e ∈ m, e.1 = lowerL e.2.1)
    (hpr : ∀ e ∈ m, e.2.1 ≠ [] ∧ pyStrip e.2.1 = e.2.1 ∧ pyStrip e.2.2 = e.2.2 ∧
      ∀ ch ∈ e.2.1, isKvSep ch = false) (κ : List Char) (h1 : ("queueendpoint".data) ≠ κ)
    (h2 : ("tableendpoint".data) ≠ κ) (h3 : ("fileendpoint".data) ≠ κ) :
    ∀ e ∈ partsOfSegments (b2extra m), e.1 ≠ κ := by
  intro e he
  rcases entriesExtra hinv hpr e he with h | h | h
  · rw [h]; exact h1
  · rw [h]; exact h2
  · rw [h]; exact h3

theorem Eproto {m : List (List Char × List Char × List Char)} {storage : List Char}
    (hinv : ∀ e ∈ m, e.1 = lowerL e.2.1)
    (hpr : ∀ e ∈ m, e.2.1 ≠ [] ∧ pyStrip e.2.1 = e.2.1 ∧ pyStrip e.2.2 = e.2.2 ∧
      ∀ ch ∈ e.2.1, isKvSep ch = false)
    (hstor : partsGet m ("accountname".data) = none →
      storage = [] ∨ pyStrip storage = storage) :
    partsGet (partsOfSegments (branch2Fields m storage)) ("defaultendpointsprotocol".data) =
      partsGet (partsOfSegments [b2proto m]) ("defaultendpointsprotocol".data) := by
  rw [m2_decomp]
  apply partsGet_append_right
  apply entries_ne_append (neExtra hinv hpr _ (by decide) (by decide) (by decide))
  apply entries_ne_append (fun e he => by rw [entriesSuffix hinv hpr e he]; decide)
  apply entries_ne_append (fun e he => by rw [entriesSas hpr e he]; decide)
  apply entries_ne_append (fun e he => by rw [entriesKey hpr e he]; decide)
  apply entries_ne_append
    (fun e he => by rw [echoEntries ("blobendpoint".data) hinv hpr e he]; decide)
  exact fun e he => by rw [entriesName hpr hstor e he]; decide

theorem Ename {m : List (List Char × List Char × List Char)} {storage : List Char}
    (hinv : ∀ e ∈ m, e.1 = lowerL e.2.1)
    (hpr : ∀ e ∈ m, e.2.1 ≠ [] ∧ pyStrip e.2.1 = e.2.1 ∧ pyStrip e.2.2 = e.2.2 ∧
      ∀ ch ∈ e.2.1, isKvSep ch = false)
    (hstor : partsGet m ("accountname".data) = none →
      storage = [] ∨ pyStrip storage = storage) :
    partsGet (partsOfSegments (branch2Fields m storage)) ("accountname".data) =
      partsGet (partsOfSegments (b2name m storage)) ("accountname".data) := by
  rw [m2_decomp]
  rw [partsGet_append_skipright (fun e he => by rw [entriesProto hinv hpr e he]; decide)]
  rw [partsGet_append_right (neExtra hinv hpr _ (by decide) (by decide) (by decide))]
  rw [partsGet_append_right (fun e he => by rw [entriesSuffix hinv hpr e he]; decide)]
  rw [partsGet_append_right (fun e he => by rw [entriesSas hpr e he]; decide)]
  rw [partsGet_append_right (fun e he => by rw [entriesKey hpr e he]; decide)]
  rw [partsGet_append_right (fun e he => by rw [echoEntries ("blobendpoint".data) hinv hpr e he]; decide)]

theorem Eblob {m : List (List Char × List Char × List Char)} {storage : List Char}
    (hinv : ∀ e ∈ m, e.1 = lowerL e.2.1)
    (hpr : ∀ e ∈ m, e.2.1 ≠ [] ∧ pyStrip e.2.1 = e.2.1 ∧ pyStrip e.2.2 = e.2.2 ∧
      ∀ ch ∈ e.2.1, isKvSep ch = false)
    (hstor : partsGet m ("accountname".data) = none →
      storage = [] ∨ pyStrip storage = storage) :
    partsGet (partsOfSegments (branch2Fields m storage)) ("blobendpoint".data) =
      partsGet m ("blobendpoint".data) := by
  rw [m2_decomp]
  rw [partsGet_append_skipright (fun e he => by rw [entriesProto hinv hpr e he]; decide)]
  rw [partsGet_append_right (neExtra hinv hpr _ (by decide) (by decide) (by decide))]
  rw [partsGet_append_right (fun e he => by rw [entriesSuffix hinv hpr e he]; decide)]
  rw [partsGet_append_right (fun e he => by rw [entriesSas hpr e he]; decide)]
  rw [partsGet_append_right (fun e he => by rw [entriesKey hpr e he]; decide)]
  rw [partsGet_append_skipright (fun e he => by rw [entriesName hpr hstor e he]; decide)]
  exact echoPartsGet ("blobendpoint".data) hinv hpr

theorem Ekey {m : List (List Char × List Char × List Char)} {storage : List Char}
    (hinv : ∀ e ∈ m, e.1 = lowerL e.2.1)
    (hpr : ∀ e ∈ m, e.2.1 ≠ [] ∧ pyStrip e.2.1 = e.2.1 ∧ pyStrip e.2.2 = e.2.2 ∧
      ∀ ch ∈ e.2.1, isKvSep ch = false)
    (hstor : partsGet m ("accountname".data) = none →
      storage = [] ∨ pyStrip storage = storage) :
    partsGet (partsOfSegments (branch2Fields m storage)) ("accountkey".data) =
      partsGet (partsOfSegments (b2key m)) ("accountkey".data) := by
  rw [m2_decomp]
  rw [partsGet_append_skipright (fun e he => by rw [entriesProto hinv hpr e he]; decide)]
  rw [partsGet_append_right (neExtra hinv hpr _ (by decide) (by decide) (by decide))]
  rw [partsGet_append_right (fun e he => by rw [entriesSuffix hinv hpr e he]; decide)]
  rw [partsGet_append_right (fun e he => by rw [entriesSas hpr e he]; decide)]
  rw [partsGet_append_skipright (entries_ne_append
    (fun e he => by rw [echoEntries ("blobendpoint".data) hinv hpr e he]; decide)
    (fun e he => by rw [entriesName hpr hstor e he]; decide))]

theorem Esas {m : List (List Char × List Char × List Char)} {storage : List Char}
    (hinv : ∀ e ∈ m, e.1 = lowerL e.2.1)
    (hpr : ∀ e ∈ m, e.2.1 ≠ [] ∧ pyStrip e.2.1 = e.2.1 ∧ pyStrip e.2.2 = e.2.2 ∧
      ∀ ch ∈ e.2.1, isKvSep ch = false)
    (hstor : partsGet m ("accountname".data) = none →
      storage = [] ∨ pyStrip storage = storage) :
    partsGet (partsOfSegments (branch2Fields m storage)) ("sharedaccesssignature".data) =
      partsGet (partsOfSegments (b2sas m)) ("sharedaccesssignature".data) := by
  rw [m2_decomp]
  rw [partsGet_append_skipright (fun e he => by rw [entriesProto hinv hpr e he]; decide)]
  rw [partsGet_append_right (neExtra hinv hpr _ (by decide) (by decide) (by decide))]
  rw [partsGet_append_right (fun e he => by rw [entriesSuffix hinv hpr e he]; decide)]
  rw [partsGet_append_skipright (entries_ne_append
    (fun e he => by rw [entriesKey hpr e he]; decide)
    (entries_ne_append
      (fun e he => by rw [echoEntries ("blobendpoint".data) hinv hpr e he]; decide)
      (fun e he => by rw [entriesName hpr hstor e he]; decide)))]

theorem Esuffix {m : List (List Char × List Char × List Char)} {storage : List Char}
    (hinv : ∀ e ∈ m, e.1 = lowerL e.2.1)
    (hpr : ∀ e ∈ m, e.2.1 ≠ [] ∧ pyStrip e.2.1 = e.2.1 ∧ pyStrip e.2.2 = e.2.2 ∧
      ∀ ch ∈ e.2.1, isKvSep ch = false)
    (hstor : partsGet m ("accountname".data) = none →
      storage = [] ∨ pyStrip storage = storage) :
    partsGet (partsOfSegments (branch2Fields m storage)) ("endpointsuffix".data) =
      partsGet (partsOfSegments (b2suffix m)) ("endpointsuffix".data) := by
  rw [m2_decomp]
  rw [partsGet_append_skipright (fun e he => by rw [entriesProto hinv hpr e he]; decide)]
  rw [partsGet_append_right (neExtra hinv hpr _ (by decide) (by decide) (by decide))]
  rw [partsGet_append_skipright (entries_ne_append
    (fun e he => by rw [entriesSas hpr e he]; decide)
    (entries_ne_append
      (fun e he => by rw [entriesKey hpr e he]; decide)
      (entries_ne_append
        (fun e he => by rw [echoEntries ("blobendpoint".data) hinv hpr e he]; decide)
        (fun e he => by rw [entriesName hpr hstor e he]; decide))))]

theorem Equeue {m : List (List Char × List Char × List Char)} {storage : List Char}
    (hinv : ∀ e ∈ m, e.1 = lowerL e.2.1)
    (hpr : ∀ e ∈ m, e.2.1 ≠ [] ∧ pyStrip e.2.1 = e.2.1 ∧ pyStrip e.2.2 = e.2.2 ∧
      ∀ ch ∈ e.2.1, isKvSep ch = false)
    (hstor : partsGet m ("accountname".data) = none →
      storage = [] ∨ pyStrip storage = storage) :
    partsGet (partsOfSegments (branch2Fields m storage)) ("queueendpoint".data) =
      partsGet m ("queueendpoint".data) := by
  rw [m2_decomp]
  rw [partsGet_append_skipright (fun e he => by rw [entriesProto hinv hpr e he]; decide)]
  rw [partsGet_append_skipright (entries_ne_append
    (fun e he => by rw [entriesSuffix hinv hpr e he]; decide)
    (entries_ne_append
      (fun e he => by rw [entriesSas hpr e he]; decide)
      (entries_ne_append
        (fun e he => by rw [entriesKey hpr e he]; decide)
        (entries_ne_append
          (fun e he => by rw [echoEntries ("blobendpoint".data) hinv hpr e he]; decide)
          (fun e he => by rw [entriesName hpr hstor e he]; decide)))))]
  rw [extra_decomp]
  rw [partsGet_append_right
    (fun e he => by rw [echoEntries ("fileendpoint".data) hinv hpr e he]; decide)]
  rw [partsGet_append_right
    (fun e he => by rw [echoEntries ("tableendpoint".data) hinv hpr e he]; decide)]
  exact echoPartsGet ("queueendpoint".data) hinv hpr

theorem Etable {m : List (List Char × List Char × List Char)} {storage : List Char}
    (hinv : ∀ e ∈ m, e.1 = lowerL e.2.1)
    (hpr : ∀ e ∈ m, e.2.1 ≠ [] ∧ pyStrip e.2.1 = e.2.1 ∧ pyStrip e.2.2 = e.2.2 ∧
      ∀ ch ∈ e.2.1, isKvSep ch = false)
    (hstor : partsGet m ("accountname".data) = none →
      storage = [] ∨ pyStrip storage = storage) :
    partsGet (partsOfSegments (branch2Fields m storage)) ("tableendpoint".data) =
      partsGet m ("tableendpoint".data) := by
  rw [m2_decomp]
  rw [partsGet_append_skipright (fun e he => by rw [entriesProto hinv hpr e he]; decide)]
  rw [partsGet_append_skipright (entries_ne_append
    (fun e he => by rw [entriesSuffix hinv hpr e he]; decide)
    (entries_ne_append
      (fun e he => by rw [entriesSas hpr e he]; decide)
      (entries_ne_append
        (fun e he => by rw [entriesKey hpr e he]; decide)
        (entries_ne_append
          (fun e he => by rw [echoEntries ("blobendpoint".data) hinv hpr e he]; decide)
          (fun e he => by rw [entriesName hpr hstor e he]; decide)))))]
  rw [extra_decomp]
  rw [partsGet_append_right
    (fun e he => by rw [echoEntries ("fileendpoint".data) hinv hpr e he]; decide)]
  rw [partsGet_append_skipright
    (fun e he => by rw [echoEntries ("queueendpoint".data) hinv hpr e he]; decide)]
  exact echoPartsGet ("tableendpoint".data) hinv hpr

theorem Efile {m : List (List Char × List Char × List Char)} {storage : List Char}
    (hinv : ∀ e ∈ m, e.1 = lowerL e.2.1)
    (hpr : ∀ e ∈ m, e.2.1 ≠ [] ∧ pyStrip e.2.1 = e.2.1 ∧ pyStrip e.2.2 = e.2.2 ∧
      ∀ ch ∈ e.2.1, isKvSep ch = false)
    (hstor : partsGet m ("accountname".data) = none →
      storage = [] ∨ pyStrip storage = storage) :
    partsGet (partsOfSegments (branch2Fields m storage)) ("fileendpoint".data) =
      partsGet m ("fileendpoint".data) := by
  rw [m2_decomp]
  rw [partsGet_append_skipright (fun e he => by rw [entriesProto hinv hpr e he]; decide)]
  rw [partsGet_append_skipright (entries_ne_append
    (fun e he => by rw [entriesSuffix hinv hpr e he]; decide)
    (entries_ne_append
      (fun e he => by rw [entriesSas hpr e he]; decide)
      (entries_ne_append
        (fun e he => by rw [entriesKey hpr e he]; decide)
        (entries_ne_append
          (fun e he => by rw [echoEntries ("blobendpoint".data) hinv hpr e he]; decide)
          (fun e he => by rw [entriesName hpr hstor e he]; decide)))))]
  rw [extra_decomp]
  rw [partsGet_append_skipright (entries_ne_append
    (fun e he => by rw [echoEntries ("tableendpoint".data) hinv hpr e he]; decide)
    (fun e he => by rw [echoEntries ("queueendpoint".data) hinv hpr e he]; decide))]
  exact echoPartsGet ("fileendpoint".data) hinv hpr

/-- Re-parsing the canonical field list of the delimited branch reproduces all
four credential components, under the non-degeneracy conditions of
`goodParts`. -/
theorem branch2_reparse {m : List (List Char × List Char × List Char)} {storage : List Char}
    (hinv : ∀ e ∈ m, e.1 = lowerL e.2.1)
    (hpr : ∀ e ∈ m, e.2.1 ≠ [] ∧ pyStrip e.2.1 = e.2.1 ∧ pyStrip e.2.2 = e.2.2 ∧
      ∀ ch ∈ e.2.1, isKvSep ch = false)
    (hstor : partsGet m ("accountname".data) = none →
      storage = [] ∨ pyStrip storage = storage)
    (hgood1 : ∀ K0 V0, partsGet m ("accountname".data) = some (K0, V0) →
      V0 ≠ [] ∨ storage = [])
    (hgoodK : ∀ K0 V0, partsGet m ("accountkey".data) = some (K0, V0) → V0 ≠ [])
    (hgoodS : ∀ K0 V0, partsGet m ("sharedaccesssignature".data) = some (K0, V0) →
      V0 ≠ []) :
    ∃ storage2 : List Char,
      (if (match partsGet m ("accountname".data) with
           | some (_, v) => v
           | none => storage) = [] then storage
       else (match partsGet m ("accountname".data) with
             | some (_, v) => v
             | none => storage)) = storage2 ∧
      branch2Fields (partsOfSegments (branch2Fields m storage)) storage2 =
        branch2Fields m storage ∧
      (if (match partsGet (partsOfSegments (branch2Fields m storage)) ("accountname".data) with
           | some (_, v) => v
           | none => storage2) = [] then storage2
       else (match partsGet (partsOfSegments (branch2Fields m storage)) ("accountname".data) with
             | some (_, v) => v
             | none => storage2)) = storage2 ∧
      (partsGet (partsOfSegments (branch2Fields m storage)) ("accountkey".data)).map
        (fun e => e.2) = (partsGet m ("accountkey".data)).map (fun e => e.2) ∧
      (partsGet (partsOfSegments (branch2Fields m storage)) ("sharedaccesssignature".data)).map
        (fun e => e.2) = (partsGet m ("sharedaccesssignature".data)).map (fun e => e.2) := by
  -- the protocol component
  have hproto : b2proto (partsOfSegments (branch2Fields m storage)) = b2proto m := by
    obtain ⟨K, V, hf, hparts, _⟩ := protoGroup hinv hpr
    show (match partsGet (partsOfSegments (branch2Fields m storage))
        ("defaultendpointsprotocol".data) with
      | some (k, v) => k ++ '=' :: v
      | none => ("DefaultEndpointsProtocol=https".data)) = b2proto m
    rw [Eproto hinv hpr hstor, hparts, partsGet_singleton, if_pos rfl]
    exact hf.symm
  -- the blob component
  have hblob : b2blob (partsOfSegments (branch2Fields m storage)) = b2blob m := by
    show (match partsGet (partsOfSegments (branch2Fields m storage)) ("blobendpoint".data) with
      | some (k, v) => [k ++ '=' :: v]
      | none => ([] : List (List Char))) = b2blob m
    rw [Eblob hinv hpr hstor]
    rfl
  -- the queue/table/file components
  have hextra : b2extra (partsOfSegments (branch2Fields m storage)) = b2extra m := by
    show ((match partsGet (partsOfSegments (branch2Fields m storage)) ("queueendpoint".data) with
      | some (k, v) => [k ++ '=' :: v]
      | none => ([] : List (List Char))) ++
      (match partsGet (partsOfSegments (branch2Fields m storage)) ("tableendpoint".data) with
      | some (k, v) => [k ++ '=' :: v]
      | none => ([] : List (List Char)))) ++
      (match partsGet (partsOfSegments (branch2Fields m storage)) ("fileendpoint".data) with
      | some (k, v) => [k ++ '=' :: v]
      | none => ([] : List (List Char))) = b2extra m
    rw [Equeue hinv hpr hstor, Etable hinv hpr hstor, Efile hinv hpr hstor]
    rfl
  -- the account-key component
  have hkey : b2key (partsOfSegments (branch2Fields m storage)) = b2key m ∧
      (partsGet (partsOfSegments (branch2Fields m storage)) ("accountkey".data)).map
        (fun e => e.2) = (partsGet m ("accountkey".data)).map (fun e => e.2) := by
    rcases keyGroup hpr with ⟨hpk, hknil⟩ | ⟨K0, hpk, _⟩ | ⟨K0, V, hpk, hVne, hVs, hf, hparts⟩
    · have hEk : partsGet (partsOfSegments (branch2Fields m storage)) ("accountkey".data) =
          none := by
        rw [Ekey hinv hpr hstor, hknil, partsOfSegments_nil, partsGet_nil]
      constructor
      · show (match (partsGet (partsOfSegments (branch2Fields m storage))
            ("accountkey".data)).map (fun e => e.2) with
          | some k => if k ≠ [] then [("AccountKey=".data) ++ k] else []
          | none => ([] : List (List Char))) = b2key m
        rw [hEk, hknil]
        rfl
      · rw [hEk, hpk]
    · exact ((hgoodK K0 [] hpk) rfl).elim
    · have hEk : partsGet (partsOfSegments (branch2Fields m storage)) ("accountkey".data) =
          some (("AccountKey".data), V) := by
        rw [Ekey hinv hpr hstor, hparts, partsGet_singleton, if_pos rfl]
      constructor
      · show (match (partsGet (partsOfSegments (branch2Fields m storage))
            ("accountkey".data)).map (fun e => e.2) with
          | some k => if k ≠ [] then [("AccountKey=".data) ++ k] else []
          | none => ([] : List (List Char))) = b2key m
        rw [hEk, hf]
        show (if V ≠ [] then [("AccountKey=".data) ++ V] else []) = [("AccountKey=".data) ++ V]
        rw [if_pos (by simpa using hVne)]
      · rw [hEk, hpk]
        rfl
  -- the SAS component
  have hsas : b2sas (partsOfSegments (branch2Fields m storage)) = b2sas m ∧
      (partsGet (partsOfSegments (branch2Fields m storage)) ("sharedaccesssignature".data)).map
        (fun e => e.2) = (partsGet m ("sharedaccesssignature".data)).map (fun e => e.2) := by
    rcases sasGroup hpr with ⟨hpk, hknil⟩ | ⟨K0, hpk, _⟩ | ⟨K0, V, hpk, hVne, hVs, hf, hparts⟩
    · have hEk : partsGet (partsOfSegments (branch2Fields m storage))
          ("sharedaccesssignature".data) = none := by
        rw [Esas hinv hpr hstor, hknil, partsOfSegments_nil, partsGet_nil]
      constructor
      · show (match (partsGet (partsOfSegments (branch2Fields m storage))
            ("sharedaccesssignature".data)).map (fun e => e.2) with
          | some s => if s ≠ [] then [("SharedAccessSignature=".data) ++ s] else []
          | none => ([] : List (List Char))) = b2sas m
        rw [hEk, hknil]
        rfl
      · rw [hEk, hpk]
    · exact ((hgoodS K0 [] hpk) rfl).elim
    · have hEk : partsGet (partsOfSegments (branch2Fields m storage))
          ("sharedaccesssignature".data) = some (("SharedAccessSignature".data), V) := by
        rw [Esas hinv hpr hstor, hparts, partsGet_singleton, if_pos rfl]
      constructor
      · show (match (partsGet (partsOfSegments (branch2Fields m storage))
            ("sharedaccesssignature".data)).map (fun e => e.2) with
          | some s => if s ≠ [] then [("SharedAccessSignature=".data) ++ s] else []
          | none => ([] : List (List Char))) = b2sas m
        rw [hEk, hf]
        show (if V ≠ [] then [("SharedAccessSignature=".data) ++ V] else []) =
          [("SharedAccessSignature=".data) ++ V]
        rw [if_pos (by simpa using hVne)]
      · rw [hEk, hpk]
        rfl
  -- the suffix component
  have hsuffix : b2suffix (partsOfSegments (branch2Fields m storage)) = b2suffix m := by
    rcases suffixGroup hinv hpr with ⟨K, V, hps, hf, hparts, _⟩ |
      ⟨hps, hpb, hf, hparts⟩ | ⟨hps, hpbne, hf⟩
    · have hEs : partsGet (partsOfSegments (branch2Fields m storage))
          ("endpointsuffix".data) = some (K, V) := by
        rw [Esuffix hinv hpr hstor, hparts, partsGet_singleton, if_pos rfl]
      show (match partsGet (partsOfSegments (branch2Fields m storage))
          ("endpointsuffix".data) with
        | some (k, v) => [k ++ '=' :: v]
        | none =>
          if partsGet (partsOfSegments (branch2Fields m storage)) ("blobendpoint".data) = none
          then [("EndpointSuffix=core.windows.net".data)]
          else []) = b2suffix m
      rw [hEs]
      exact hf.symm
    · have hEs : partsGet (partsOfSegments (branch2Fields m storage))
          ("endpointsuffix".data) =
          some (("EndpointSuffix".data), ("core.windows.net".data)) := by
        rw [Esuffix hinv hpr hstor, hparts, partsGet_singleton, if_pos rfl]
      show (match partsGet (partsOfSegments (branch2Fields m storage))
          ("endpointsuffix".data) with
        | some (k, v) => [k ++ '=' :: v]
        | none =>
          if partsGet (partsOfSegments (branch2Fields m storage)) ("blobendpoint".data) = none
          then [("EndpointSuffix=core.windows.net".data)]
          else []) = b2suffix m
      rw [hEs, hf]
      rfl
    · have hEs : partsGet (partsOfSegments (branch2Fields m storage))
          ("endpointsuffix".data) = none := by
        rw [Esuffix hinv hpr hstor, hf, partsOfSegments_nil, partsGet_nil]
      show (match partsGet (partsOfSegments (branch2Fields m storage))
          ("endpointsuffix".data) with
        | some (k, v) => [k ++ '=' :: v]
        | none =>
          if partsGet (partsOfSegments (branch2Fields m storage)) ("blobendpoint".data) = none
          then [("EndpointSuffix=core.windows.net".data)]
          else []) = b2suffix m
      rw [hEs]
      show (if partsGet (partsOfSegments (branch2Fields m storage)) ("blobendpoint".data) = none
        then [("EndpointSuffix=core.windows.net".data)]
        else []) = b2suffix m
      rw [Eblob hinv hpr hstor, if_neg hpbne]
      exact hf.symm
  -- the account-name component, together with the fallback-account analysis
  rcases hp : partsGet m ("accountname".data) with _ | ⟨K0, V0⟩
  · by_cases hs : storage = []
    · refine ⟨storage, ?_, ?_, ?_, hkey.2, hsas.2⟩
      · show (if storage = [] then storage else storage) = storage
        rw [if_pos hs]
      · have hbn : b2name m storage = [] := by
          show (if (match partsGet m ("accountname".data) with
              | some (_, v) => v
              | none => storage) ≠ [] then
            [("AccountName=".data) ++ (match partsGet m ("accountname".data) with
              | some (_, v) => v
              | none => storage)] else []) = []
          rw [hp]
          show (if storage ≠ [] then [("AccountName=".data) ++ storage] else []) = []
          rw [if_neg (by simpa using hs)]
        have hEn : partsGet (partsOfSegments (branch2Fields m storage))
            ("accountname".data) = none := by
          rw [Ename hinv hpr hstor, hbn, partsOfSegments_nil, partsGet_nil]
        have hname : b2name (partsOfSegments (branch2Fields m storage)) storage =
            b2name m storage := by
          show (if (match partsGet (partsOfSegments (branch2Fields m storage))
              ("accountname".data) with
              | some (_, v) => v
              | none => storage) ≠ [] then
            [("AccountName=".data) ++ (match partsGet (partsOfSegments (branch2Fields m storage))
              ("accountname".data) with
              | some (_, v) => v
              | none => storage)] else []) = b2name m storage
          rw [hEn, hbn]
          show (if storage ≠ [] then [("AccountName=".data) ++ storage] else []) = []
          rw [if_neg (by simpa using hs)]
        show b2proto (partsOfSegments (branch2Fields m storage)) ::
          (b2name (partsOfSegments (branch2Fields m storage)) storage ++
            b2blob (partsOfSegments (branch2Fields m storage)) ++
            b2key (partsOfSegments (branch2Fields m storage)) ++
            b2sas (partsOfSegments (branch2Fields m storage)) ++
            b2suffix (partsOfSegments (branch2Fields m storage)) ++
            b2extra (partsOfSegments (branch2Fields m storage))) = branch2Fields m storage
        rw [hproto, hname, hblob, hkey.1, hsas.1, hsuffix, hextra]
        rfl
      · have hEn : partsGet (partsOfSegments (branch2Fields m storage))
            ("accountname".data) = none := by
          have hbn : b2name m storage = [] := by
            show (if (match partsGet m ("accountname".data) with
                | some (_, v) => v
                | none => storage) ≠ [] then
              [("AccountName=".data) ++ (match partsGet m ("accountname".data) with
                | some (_, v) => v
                | none => storage)] else []) = []
            rw [hp]
            show (if storage ≠ [] then [("AccountName=".data) ++ storage] else []) = []
            rw [if_neg (by simpa using hs)]
          rw [Ename hinv hpr hstor, hbn, partsOfSegments_nil, partsGet_nil]
        rw [hEn]
        show (if storage = [] then storage else storage) = storage
        rw [if_pos hs]
    · have hstrip : pyStrip storage = storage := by
        rcases hstor hp with h | h
        · exact absurd h hs
        · exact h
      refine ⟨storage, ?_, ?_, ?_, hkey.2, hsas.2⟩
      · show (if storage = [] then storage else storage) = storage
        split <;> rfl
      · have hbn : b2name m storage = [("AccountName=".data) ++ storage] := by
          show (if (match partsGet m ("accountname".data) with
              | some (_, v) => v
              | none => storage) ≠ [] then
            [("AccountName=".data) ++ (match partsGet m ("accountname".data) with
              | some (_, v) => v
              | none => storage)] else []) = _
          rw [hp]
          show (if storage ≠ [] then [("AccountName=".data) ++ storage] else []) = _
          rw [if_pos (by simpa using hs)]
        have hpn : partsOfSegments (b2name m storage) =
            [(("accountname".data), ("AccountName".data), storage)] := by
          rw [hbn, show ("AccountName=".data) ++ storage =
            ("AccountName".data) ++ '=' :: storage from rfl]
          rw [partsOfSegments_single (by decide) (by decide) (by decide) hstrip]
          rfl
        have hEn : partsGet (partsOfSegments (branch2Fields m storage))
            ("accountname".data) = some (("AccountName".data), storage) := by
          rw [Ename hinv hpr hstor, hpn, partsGet_singleton, if_pos rfl]
        have hname : b2name (partsOfSegments (branch2Fields m storage)) storage =
            b2name m storage := by
          show (if (match partsGet (partsOfSegments (branch2Fields m storage))
              ("accountname".data) with
              | some (_, v) => v
              | none => storage) ≠ [] then
            [("AccountName=".data) ++ (match partsGet (partsOfSegments (branch2Fields m storage))
              ("accountname".data) with
              | some (_, v) => v
              | none => storage)] else []) = b2name m storage
          rw [hEn, hbn]
          show (if storage ≠ [] then [("AccountName=".data) ++ storage] else []) = _
          rw [if_pos (by simpa using hs)]
        show b2proto (partsOfSegments (branch2Fields m storage)) ::
          (b2name (partsOfSegments (branch2Fields m storage)) storage ++
            b2blob (partsOfSegments (branch2Fields m storage)) ++
            b2key (partsOfSegments (branch2Fields m storage)) ++
            b2sas (partsOfSegments (branch2Fields m storage)) ++
            b2suffix (partsOfSegments (branch2Fields m storage)) ++
            b2extra (partsOfSegments (branch2Fields m storage))) = branch2Fields m storage
        rw [hproto, hname, hblob, hkey.1, hsas.1, hsuffix, hextra]
        rfl
      · have hbn : b2name m storage = [("AccountName=".data) ++ storage] := by
          show (if (match partsGet m ("accountname".data) with
              | some (_, v) => v
              | none => storage) ≠ [] then
            [("AccountName=".data) ++ (match partsGet m ("accountname".data) with
              | some (_, v) => v
              | none => storage)] else []) = _
          rw [hp]
          show (if storage ≠ [] then [("AccountName=".data) ++ storage] else []) = _
          rw [if_pos (by simpa using hs)]
        have hpn : partsOfSegments (b2name m storage) =
            [(("accountname".data), ("AccountName".data), storage)] := by
          rw [hbn, show ("AccountName=".data) ++ storage =
            ("AccountName".data) ++ '=' :: storage from rfl]
          rw [partsOfSegments_single (by decide) (by decide) (by decide) hstrip]
          rfl
        have hEn : partsGet (partsOfSegments (branch2Fields m storage))
            ("accountname".data) = some (("AccountName".data), storage) := by
          rw [Ename hinv hpr hstor, hpn, partsGet_singleton, if_pos rfl]
        rw [hEn]
        show (if storage = [] then storage else storage) = storage
        split <;> rfl
  · have hmem := partsGet_mem hp
    have hprE := hpr _ hmem
    by_cases hv0 : V0 = []
    · subst hv0
      have hs : storage = [] := by
        rcases hgood1 K0 [] hp with h | h
        · exact absurd rfl h
        · exact h
      refine ⟨storage, ?_, ?_, ?_, hkey.2, hsas.2⟩
      · show (if ([] : List Char) = [] then storage else []) = storage
        rw [if_pos rfl]
      · have hbn : b2name m storage = [] := by
          show (if (match partsGet m ("accountname".data) with
              | some (_, v) => v
              | none => storage) ≠ [] then
            [("AccountName=".data) ++ (match partsGet m ("accountname".data) with
              | some (_, v) => v
              | none => storage)] else []) = []
          rw [hp]
          show (if ([] : List Char) ≠ [] then [("AccountName=".data) ++ ([] : List Char)]
            else []) = []
          rw [if_neg (by simp)]
        have hEn : partsGet (partsOfSegments (branch2Fields m storage))
            ("accountname".data) = none := by
          rw [Ename hinv hpr hstor, hbn, partsOfSegments_nil, partsGet_nil]
        have hname : b2name (partsOfSegments (branch2Fields m storage)) storage =
            b2name m storage := by
          show (if (match partsGet (partsOfSegments (branch2Fields m storage))
              ("accountname".data) with
              | some (_, v) => v
              | none => storage) ≠ [] then
            [("AccountName=".data) ++ (match partsGet (partsOfSegments (branch2Fields m storage))
              ("accountname".data) with
              | some (_, v) => v
              | none => storage)] else []) = b2name m storage
          rw [hEn, hbn]
          show (if storage ≠ [] then [("AccountName=".data) ++ storage] else []) = []
          rw [if_neg (by simpa using hs)]
        show b2proto (partsOfSegments (branch2Fields m storage)) ::
          (b2name (partsOfSegments (branch2Fields m storage)) storage ++
            b2blob (partsOfSegments (branch2Fields m storage)) ++
            b2key (partsOfSegments (branch2Fields m storage)) ++
            b2sas (partsOfSegments (branch2Fields m storage)) ++
            b2suffix (partsOfSegments (branch2Fields m storage)) ++
            b2extra (partsOfSegments (branch2Fields m storage))) = branch2Fields m storage
        rw [hproto, hname, hblob, hkey.1, hsas.1, hsuffix, hextra]
        rfl
      · have hbn : b2name m storage = [] := by
          show (if (match partsGet m ("accountname".data) with
              | some (_, v) => v
              | none => storage) ≠ [] then
            [("AccountName=".data) ++ (match partsGet m ("accountname".data) with
              | some (_, v) => v
              | none => storage)] else []) = []
          rw [hp]
          show (if ([] : List Char) ≠ [] then [("AccountName=".data) ++ ([] : List Char)]
            else []) = []
          rw [if_neg (by simp)]
        have hEn : partsGet (partsOfSegments (branch2Fields m storage))
            ("accountname".data) = none := by
          rw [Ename hinv hpr hstor, hbn, partsOfSegments_nil, partsGet_nil]
        rw [hEn]
        show (if storage = [] then storage else storage) = storage
        split <;> rfl
    · refine ⟨V0, ?_, ?_, ?_, hkey.2, hsas.2⟩
      · show (if V0 = [] then storage else V0) = V0
        rw [if_neg hv0]
      · have hbn : b2name m storage = [("AccountName=".data) ++ V0] := by
          show (if (match partsGet m ("accountname".data) with
              | some (_, v) => v
              | none => storage) ≠ [] then
            [("AccountName=".data) ++ (match partsGet m ("accountname".data) with
              | some (_, v) => v
              | none => storage)] else []) = _
          rw [hp]
          show (if V0 ≠ [] then [("AccountName=".data) ++ V0] else []) = _
          rw [if_pos (by simpa using hv0)]
        have hpn : partsOfSegments (b2name m storage) =
            [(("accountname".data), ("AccountName".data), V0)] := by
          rw [hbn, show ("AccountName=".data) ++ V0 =
            ("AccountName".data) ++ '=' :: V0 from rfl]
          rw [partsOfSegments_single (by decide) (by decide) (by decide) hprE.2.2.1]
          rfl
        have hEn : partsGet (partsOfSegments (branch2Fields m storage))
            ("accountname".data) = some (("AccountName".data), V0) := by
          rw [Ename hinv hpr hstor, hpn, partsGet_singleton, if_pos rfl]
        have hname : b2name (partsOfSegments (branch2Fields m storage)) V0 =
            b2name m storage := by
          show (if (match partsGet (partsOfSegments (branch2Fields m storage))
              ("accountname".data) with
              | some (_, v) => v
              | none => V0) ≠ [] then
            [("AccountName=".data) ++ (match partsGet (partsOfSegments (branch2Fields m storage))
              ("accountname".data) with
              | some (_, v) => v
              | none => V0)] else []) = b2name m storage
          rw [hEn, hbn]
          show (if V0 ≠ [] then [("AccountName=".data) ++ V0] else []) = _
          rw [if_pos (by simpa using hv0)]
        show b2proto (partsOfSegments (branch2Fields m storage)) ::
          (b2name (partsOfSegments (branch2Fields m storage)) V0 ++
            b2blob (partsOfSegments (branch2Fields m storage)) ++
            b2key (partsOfSegments (branch2Fields m storage)) ++
            b2sas (partsOfSegments (branch2Fields m storage)) ++
            b2suffix (partsOfSegments (branch2Fields m storage)) ++
            b2extra (partsOfSegments (branch2Fields m storage))) = branch2Fields m storage
        rw [hproto, hname, hblob, hkey.1, hsas.1, hsuffix, hextra]
        rfl
      · have hEn : partsGet (partsOfSegments (branch2Fields m storage))
            ("accountname".data) = some (("AccountName".data), V0) := by
          have hbn : b2name m storage = [("AccountName=".data) ++ V0] := by
            show (if (match partsGet m ("accountname".data) with
                | some (_, v) => v
                | none => storage) ≠ [] then
              [("AccountName=".data) ++ (match partsGet m ("accountname".data) with
                | some (_, v) => v
                | none => storage)] else []) = _
            rw [hp]
            show (if V0 ≠ [] then [("AccountName=".data) ++ V0] else []) = _
            rw [if_pos (by simpa using hv0)]
          have hpn : partsOfSegments (b2name m storage) =
              [(("accountname".data), ("AccountName".data), V0)] := by
            rw [hbn, show ("AccountName=".data) ++ V0 =
              ("AccountName".data) ++ '=' :: V0 from rfl]
            rw [partsOfSegments_single (by decide) (by decide) (by decide) hprE.2.2.1]
            rfl
          rw [Ename hinv hpr hstor, hpn, partsGet_singleton, if_pos rfl]
        rw [hEn]
        show (if V0 = [] then V0 else V0) = V0
        split <;> rfl

theorem containsChar_of_mem {cs : List Char} {ch : Char} (h : ch ∈ cs) :
    containsChar cs ch = true := by
  induction cs with
  | nil => cases h
  | cons c rest ih =>
    rw [containsChar, List.contains_cons]
    rcases List.mem_cons.mp h with rfl | h2
    · simp
    · rw [containsChar] at ih
      rw [ih h2]
      simp

theorem joinSep_head_eq (s : Char) (x : List Char) (rest : List (List Char)) (hx : x ≠ []) :
    (joinSep s (x :: rest)).head? = x.head? := by
  cases rest with
  | nil => rw [joinSep]
  | cons y ys =>
    rw [show joinSep s (x :: y :: ys) = x ++ s :: joinSep s (y :: ys) from rfl]
    cases x with
    | nil => exact absurd rfl hx
    | cons c t => rfl

theorem joinSep_last_mem (s : Char) :
    ∀ (parts : List (List Char)) (x : List Char), (∀ q ∈ x :: parts, q ≠ []) →
      ∃ q ∈ x :: parts, (joinSep s (x :: parts)).getLast? = q.getLast? := by
  intro parts
  induction parts with
  | nil =>
    intro x _
    exact ⟨x, List.mem_cons_self _ _, by rw [joinSep]⟩
  | cons y ys ih =>
    intro x hne
    obtain ⟨q, hq, hlast⟩ := ih y (fun q hq => hne q (List.mem_cons_of_mem _ hq))
    refine ⟨q, List.mem_cons_of_mem _ hq, ?_⟩
    rw [show joinSep s (x :: y :: ys) = x ++ s :: joinSep s (y :: ys) from rfl]
    have h1 : (x ++ s :: joinSep s (y :: ys)).getLast? =
        (s :: joinSep s (y :: ys)).getLast? := List.getLast?_append_of_ne_nil _ (by simp)
    rw [h1]
    have hjne : joinSep s (y :: ys) ≠ [] := by
      intro hj
      have hh := joinSep_head_eq s y ys (hne y (List.mem_cons_of_mem _ (List.mem_cons_self _ _)))
      rw [hj] at hh
      cases hyc : y with
      | nil => exact hne y (List.mem_cons_of_mem _ (List.mem_cons_self _ _)) hyc
      | cons c t =>
        rw [hyc] at hh
        cases hh
    have h2 : ([s] ++ joinSep s (y :: ys)).getLast? = (joinSep s (y :: ys)).getLast? :=
      List.getLast?_append_of_ne_nil _ hjne
    rw [show (s :: joinSep s (y :: ys)) = [s] ++ joinSep s (y :: ys) from rfl, h2]
    exact hlast

theorem pyWs_toLower_fix {c : Char} (h : pyWs c = true) : c.toLower = c := by
  unfold pyWs at h
  rcases Bool.or_eq_true_iff.mp h with h2 | h2
  · rcases Bool.or_eq_true_iff.mp h2 with h3 | h3
    · rcases Bool.or_eq_true_iff.mp h3 with h4 | h4
      · rcases Bool.or_eq_true_iff.mp h4 with h5 | h5
        · rcases Bool.or_eq_true_iff.mp h5 with h6 | h6
          · rw [show c = ' ' by simpa using h6]
            decide
          · rw [show c = '\t' by simpa using h6]
            decide
        · rw [show c = '\n' by simpa using h5]
          decide
      · rw [show c = '\r' by simpa using h4]
        decide
    · rw [show c = '\x0b' by simpa using h3]
      decide
  · rw [show c = '\x0c' by simpa using h2]
    decide

theorem head_toLower_d_props {c : Char} (h : c.toLower = 'd') :
    pyWs c = false ∧ c ≠ '"' ∧ c ≠ chApos := by
  refine ⟨?_, ?_, ?_⟩
  · by_contra hw
    have hw2 : pyWs c = true := by simpa using hw
    rw [pyWs_toLower_fix hw2] at h
    subst h
    simp [pyWs] at hw2
  · intro hc
    subst hc
    exact absurd h (by decide)
  · intro hc
    subst hc
    exact absurd h (by decide)

theorem startsWithL_nil (hay : List Char) : startsWithL hay [] = true := by
  cases hay <;> rfl

theorem startsWithL_append_weaken {a pat : List Char} (b : List Char)
    (h : startsWithL a pat = true) : startsWithL (a ++ b) pat = true := by
  induction pat generalizing a with
  | nil => exact startsWithL_nil _
  | cons p ps ih =>
    cases a with
    | nil => cases h
    | cons c t =>
      rw [List.cons_append]
      rw [startsWithL] at h ⊢
      rcases Bool.and_eq_true_iff.mp h with ⟨h1, h2⟩
      rw [h1, ih h2]
      rfl

theorem field_wf_of {K V : List Char} (hK : K ≠ []) (hsK : pyStrip K = K)
    (hsV : pyStrip V = V)
    (hcK : ∀ ch ∈ K, isSemiNl ch = false ∧ ch ≠ '\r')
    (hcV : ∀ ch ∈ V, isSemiNl ch = false ∧ ch ≠ '\r') :
    (K ++ '=' :: V) ≠ [] ∧ pyStrip (K ++ '=' :: V) = K ++ '=' :: V ∧
      ∀ ch ∈ K ++ '=' :: V, isSemiNl ch = false ∧ ch ≠ '\r' := by
  refine ⟨?_, ?_, ?_⟩
  · cases K with
    | nil => exact absurd rfl hK
    | cons c t => simp
  · apply pyStrip_eq_self
    · intro c h
      have hh : (K ++ '=' :: V).head? = K.head? := by
        cases K with
        | nil => exact absurd rfl hK
        | cons k0 kt => rfl
      rw [hh] at h
      apply pyStrip_head K
      rw [hsK]
      exact h
    · intro c h
      have h2 : (K ++ '=' :: V).getLast? = ('=' :: V).getLast? :=
        List.getLast?_append_of_ne_nil _ (by simp)
      rw [h2] at h
      cases V with
      | nil =>
        simp at h
        rw [← h]
        decide
      | cons v0 vt =>
        rw [List.getLast?_cons_cons] at h
        apply pyStrip_last (v0 :: vt)
        rw [hsV]
        exact h
  · intro ch hch
    rcases List.mem_append.mp hch with h2 | h2
    · exact hcK ch h2
    · rcases List.mem_cons.mp h2 with rfl | h3
      · exact ⟨by decide, by decide⟩
      · exact hcV ch h3

theorem fields_wf {m : List (List Char × List Char × List Char)} {storage : List Char}
    (hinv : ∀ e ∈ m, e.1 = lowerL e.2.1)
    (hpr : ∀ e ∈ m, e.2.1 ≠ [] ∧ pyStrip e.2.1 = e.2.1 ∧ pyStrip e.2.2 = e.2.2 ∧
      ∀ ch ∈ e.2.1, isKvSep ch = false)
    (hmc : ∀ e ∈ m, (∀ ch ∈ e.2.1, isSemiNl ch = false ∧ ch ≠ '\r') ∧
      (∀ ch ∈ e.2.2, isSemiNl ch = false ∧ ch ≠ '\r'))
    (hstor3 : partsGet m ("accountname".data) = none →
      storage = [] ∨ (pyStrip storage = storage ∧
        ∀ ch ∈ storage, isSemiNl ch = false ∧ ch ≠ '\r')) :
    ∀ f ∈ branch2Fields m storage, f ≠ [] ∧ pyStrip f = f ∧
      ∀ ch ∈ f, isSemiNl ch = false ∧ ch ≠ '\r' := by
  have hecho : ∀ (κ : List Char), ∀ f ∈ (match partsGet m κ with
      | some (k, v) => [k ++ '=' :: v]
      | none => ([] : List (List Char))), f ≠ [] ∧ pyStrip f = f ∧
      ∀ ch ∈ f, isSemiNl ch = false ∧ ch ≠ '\r' := by
    intro κ f hf
    rcases hp : partsGet m κ with _ | ⟨K, V⟩
    · rw [hp] at hf
      cases hf
    · rw [hp] at hf
      rw [List.mem_singleton.mp hf]
      have hmem := partsGet_mem hp
      have hr := hpr _ hmem
      have hc := hmc _ hmem
      exact field_wf_of hr.1 hr.2.1 hr.2.2.1 hc.1 hc.2
  intro f hf
  rcases List.mem_cons.mp hf with rfl | hf2
  · -- the protocol field
    rcases hp : partsGet m ("defaultendpointsprotocol".data) with _ | ⟨K, V⟩
    · show b2proto m ≠ [] ∧ _
      unfold b2proto
      rw [hp]
      refine ⟨by decide, by decide, by decide⟩
    · have hmem := partsGet_mem hp
      have hr := hpr _ hmem
      have hc := hmc _ hmem
      show b2proto m ≠ [] ∧ _
      unfold b2proto
      rw [hp]
      exact field_wf_of hr.1 hr.2.1 hr.2.2.1 hc.1 hc.2
  · rcases List.mem_append.mp hf2 with hf3 | hf3
    · rcases List.mem_append.mp hf3 with hf4 | hf4
      · rcases List.mem_append.mp hf4 with hf5 | hf5
        · rcases List.mem_append.mp hf5 with hf6 | hf6
          · rcases List.mem_append.mp hf6 with hf7 | hf7
            · -- the AccountName field
              rcases hp : partsGet m ("accountname".data) with _ | ⟨K, V⟩
              · rcases hstor3 hp with hs | ⟨hstrip, hchars⟩
                · subst hs
                  have hbn : b2name m [] = [] := by
                    show (if (match partsGet m ("accountname".data) with
                        | some (_, v) => v
                        | none => ([] : List Char)) ≠ [] then
                      [("AccountName=".data) ++ (match partsGet m ("accountname".data) with
                        | some (_, v) => v
                        | none => ([] : List Char))] else []) = []
                    rw [hp]
                    rfl
                  rw [hbn] at hf7
                  cases hf7
                · by_cases hs : storage = []
                  · have hbn : b2name m storage = [] := by
                      show (if (match partsGet m ("accountname".data) with
                          | some (_, v) => v
                          | none => storage) ≠ [] then
                        [("AccountName=".data) ++ (match partsGet m ("accountname".data) with
                          | some (_, v) => v
                          | none => storage)] else []) = []
                      rw [hp]
                      show (if storage ≠ [] then [("AccountName=".data) ++ storage]
                        else []) = []
                      rw [if_neg (by simpa using hs)]
                    rw [hbn] at hf7
                    cases hf7
                  · have hbn : b2name m storage = [("AccountName=".data) ++ storage] := by
                      show (if (match partsGet m ("accountname".data) with
                          | some (_, v) => v
                          | none => storage) ≠ [] then
                        [("AccountName=".data) ++ (match partsGet m ("accountname".data) with
                          | some (_, v) => v
                          | none => storage)] else []) = _
                      rw [hp]
                      show (if storage ≠ [] then [("AccountName=".data) ++ storage]
                        else []) = _
                      rw [if_pos (by simpa using hs)]
                    rw [hbn] at hf7
                    rw [List.mem_singleton.mp hf7]
                    rw [show ("AccountName=".data) ++ storage =
                      ("AccountName".data) ++ '=' :: storage from rfl]
                    exact field_wf_of (by decide) (by decide) hstrip (by decide) hchars
              · have hmem := partsGet_mem hp
                have hr := hpr _ hmem
                have hc := hmc _ hmem
                by_cases hv : V = []
                · subst hv
                  have hbn : b2name m storage = [] := by
                    show (if (match partsGet m ("accountname".data) with
                        | some (_, v) => v
                        | none => storage) ≠ [] then
                      [("AccountName=".data) ++ (match partsGet m ("accountname".data) with
                        | some (_, v) => v
                        | none => storage)] else []) = []
                    rw [hp]
                    rfl
                  rw [hbn] at hf7
                  cases hf7
                · have hbn : b2name m storage = [("AccountName=".data) ++ V] := by
                    show (if (match partsGet m ("accountname".data) with
                        | some (_, v) => v
                        | none => storage) ≠ [] then
                      [("AccountName=".data) ++ (match partsGet m ("accountname".data) with
                        | some (_, v) => v
                        | none => storage)] else []) = _
                    rw [hp]
                    show (if V ≠ [] then [("AccountName=".data) ++ V] else []) = _
                    rw [if_pos (by simpa using hv)]
                  rw [hbn] at hf7
                  rw [List.mem_singleton.mp hf7]
                  rw [show ("AccountName=".data) ++ V =
                    ("AccountName".data) ++ '=' :: V from rfl]
                  exact field_wf_of (by decide) (by decide) hr.2.2.1 (by decide) hc.2
            · exact hecho ("blobendpoint".data) f hf7
          · -- the AccountKey field
            rcases keyGroup hpr with ⟨_, hknil⟩ | ⟨K0, _, hknil⟩ |
              ⟨K0, V, hpk, hVne, hVs, hkf, _⟩
            · rw [hknil] at hf6
              cases hf6
            · rw [hknil] at hf6
              cases hf6
            · rw [hkf] at hf6
              rw [List.mem_singleton.mp hf6]
              rw [show ("AccountKey=".data) ++ V = ("AccountKey".data) ++ '=' :: V from rfl]
              have hc := hmc _ (partsGet_mem hpk)
              exact field_wf_of (by decide) (by decide) hVs (by decide) hc.2
        · -- the SharedAccessSignature field
          rcases sasGroup hpr with ⟨_, hknil⟩ | ⟨K0, _, hknil⟩ |
            ⟨K0, V, hpk, hVne, hVs, hkf, _⟩
          · rw [hknil] at hf5
            cases hf5
          · rw [hknil] at hf5
            cases hf5
          · rw [hkf] at hf5
            rw [List.mem_singleton.mp hf5]
            rw [show ("SharedAccessSignature=".data) ++ V =
              ("SharedAccessSignature".data) ++ '=' :: V from rfl]
            have hc := hmc _ (partsGet_mem hpk)
            exact field_wf_of (by decide) (by decide) hVs (by decide) hc.2
      · -- the EndpointSuffix field
        rcases suffixGroup hinv hpr with ⟨K, V, hps, hsf, _, hKne, hKs, hVs⟩ |
          ⟨_, _, hsf, _⟩ | ⟨_, _, hsf⟩
        · rw [hsf] at hf4
          rw [List.mem_singleton.mp hf4]
          have hc := hmc _ (partsGet_mem hps)
          exact field_wf_of hKne hKs hVs hc.1 hc.2
        · rw [hsf] at hf4
          rw [List.mem_singleton.mp hf4]
          refine ⟨by decide, by decide, by decide⟩
        · rw [hsf] at hf4
          cases hf4
    · -- the queue/table/file fields
      show f ≠ [] ∧ _
      have hdec : b2extra m =
          ((match partsGet m ("queueendpoint".data) with
            | some (k, v) => [k ++ '=' :: v]
            | none => ([] : List (List Char))) ++
           (match partsGet m ("tableendpoint".data) with
            | some (k, v) => [k ++ '=' :: v]
            | none => ([] : List (List Char)))) ++
          (match partsGet m ("fileendpoint".data) with
           | some (k, v) => [k ++ '=' :: v]
           | none => ([] : List (List Char))) := rfl
      rw [hdec] at hf3
      rcases List.mem_append.mp hf3 with hf4 | hf4
      · rcases List.mem_append.mp hf4 with hf5 | hf5
        · exact hecho ("queueendpoint".data) f hf5
        · exact hecho ("tableendpoint".data) f hf5
      · exact hecho ("fileendpoint".data) f hf4

theorem mem_splitRunsBy (p : Char → Bool) :
    ∀ (cs piece : List Char), piece ∈ splitRunsBy p cs → ∀ ch ∈ piece, ch ∈ cs := by
  intro cs
  induction cs with
  | nil =>
    intro piece hp ch hch
    simp [splitRunsBy] at hp
    subst hp
    cases hch
  | cons c cs ih =>
    intro piece hp ch hch
    unfold splitRunsBy at hp
    simp only [] at hp
    split at hp
    · split at hp
      · rcases List.mem_cons.mp hp with rfl | h2
        · cases hch
        · exact List.mem_cons_of_mem _ (ih piece h2 ch hch)
      · split at hp
        · exact List.mem_cons_of_mem _ (ih piece hp ch hch)
        · rcases List.mem_cons.mp hp with rfl | h2
          · cases hch
          · exact List.mem_cons_of_mem _ (ih piece h2 ch hch)
    · split at hp
      · rename_i hr
        rw [List.mem_singleton] at hp
        subst hp
        rcases List.mem_cons.mp hch with rfl | h2
        · exact List.mem_cons_self _ _
        · cases h2
      · rename_i h0 t0 hr
        rcases List.mem_cons.mp hp with rfl | h2
        · rcases List.mem_cons.mp hch with rfl | h3
          · exact List.mem_cons_self _ _
          · exact List.mem_cons_of_mem _
              (ih h0 (by rw [hr]; exact List.mem_cons_self _ _) ch h3)
        · exact List.mem_cons_of_mem _
            (ih piece (by rw [hr]; exact List.mem_cons_of_mem _ h2) ch hch)

theorem goodStr_spec {s : List Char} (h : goodStr s = true) :
    pyStrip s = s ∧ ∀ ch ∈ s, isSemiNl ch = false ∧ ch ≠ '\r' := by
  unfold goodStr at h
  rcases Bool.and_eq_true_iff.mp h with ⟨h1, h4⟩
  rcases Bool.and_eq_true_iff.mp h1 with ⟨h2, h3⟩
  rcases Bool.and_eq_true_iff.mp h2 with ⟨h5, h6⟩
  refine ⟨by simpa using h5, ?_⟩
  intro ch hch
  have hn1 : ch ≠ ';' := by
    intro he
    subst he
    rw [containsChar_of_mem hch] at h6
    simp at h6
  have hn2 : ch ≠ '\n' := by
    intro he
    subst he
    rw [containsChar_of_mem hch] at h3
    simp at h3
  have hn3 : ch ≠ '\r' := by
    intro he
    subst he
    rw [containsChar_of_mem hch] at h4
    simp at h4
  refine ⟨?_, hn3⟩
  unfold isSemiNl
  simp [hn1, hn2]

theorem goodParts_split {m : List (List Char × List Char × List Char)} {storage : List Char}
    (h : goodParts m storage = true) :
    (partsGet m ("accountname".data) = none → storage = [] ∨ goodStr storage = true) ∧
    (∀ K0 V0, partsGet m ("accountname".data) = some (K0, V0) → V0 ≠ [] ∨ storage = []) ∧
    (∀ K0 V0, partsGet m ("accountkey".data) = some (K0, V0) → V0 ≠ []) ∧
    (∀ K0 V0, partsGet m ("sharedaccesssignature".data) = some (K0, V0) → V0 ≠ []) := by
  unfold goodParts at h
  rcases Bool.and_eq_true_iff.mp h with ⟨h1, h3⟩
  rcases Bool.and_eq_true_iff.mp h1 with ⟨hname, h2⟩
  refine ⟨?_, ?_, ?_, ?_⟩
  · intro hp
    rw [hp] at hname
    simpa using hname
  · intro K0 V0 hp
    rw [hp] at hname
    have := Bool.or_eq_true_iff.mp hname
    rcases this with h5 | h5
    · exact Or.inl (by simpa using h5)
    · exact Or.inr (by simpa using h5)
  · intro K0 V0 hp
    rw [hp] at h2
    simpa using h2
  · intro K0 V0 hp
    rw [hp] at h3
    simpa using h3

theorem parseCred_branch2_step (decode : List Char → Option Json) (fuel : Nat)
    (conn stor : List Char)
    (hval : unquoteStrip conn = conn) (hne : conn ≠ [])
    (hnn : normNl conn = conn)
    (hdev : devCond conn = false) (hb2 : branch2cond conn = true) :
    parseCredGo decode (fuel + 1) conn stor = .ok (branch2 conn stor) := by
  conv_lhs => unfold parseCredGo
  simp only []
  rw [hval, if_neg hne, hnn, hdev, hb2]
  rfl

/-- The canonical connection string built by the delimited branch re-enters
the delimited branch on a re-parse, splitting back into exactly its fields. -/
theorem conn_wf {m : List (List Char × List Char × List Char)} {storage : List Char}
    (hinv : ∀ e ∈ m, e.1 = lowerL e.2.1)
    (hpr : ∀ e ∈ m, e.2.1 ≠ [] ∧ pyStrip e.2.1 = e.2.1 ∧ pyStrip e.2.2 = e.2.2 ∧
      ∀ ch ∈ e.2.1, isKvSep ch = false)
    (hmc : ∀ e ∈ m, (∀ ch ∈ e.2.1, isSemiNl ch = false ∧ ch ≠ '\r') ∧
      (∀ ch ∈ e.2.2, isSemiNl ch = false ∧ ch ≠ '\r'))
    (hstor3 : partsGet m ("accountname".data) = none →
      storage = [] ∨ (pyStrip storage = storage ∧
        ∀ ch ∈ storage, isSemiNl ch = false ∧ ch ≠ '\r')) :
    unquoteStrip (joinSep ';' (branch2Fields m storage)) =
      joinSep ';' (branch2Fields m storage) ∧
    joinSep ';' (branch2Fields m storage) ≠ [] ∧
    normNl (joinSep ';' (branch2Fields m storage)) = joinSep ';' (branch2Fields m storage) ∧
    devCond (joinSep ';' (branch2Fields m storage)) = false ∧
    branch2cond (joinSep ';' (branch2Fields m storage)) = true ∧
    splitRunsBy isSemiNl (joinSep ';' (branch2Fields m storage)) = branch2Fields m storage := by
  have hwf := fields_wf hinv hpr hmc hstor3
  -- the protocol field and its key
  have hshape : ∃ K V k0 kt, b2proto m = K ++ '=' :: V ∧ K = k0 :: kt ∧
      lowerL K = ("defaultendpointsprotocol".data) ∧ pyStrip V = V := by
    rcases hp : partsGet m ("defaultendpointsprotocol".data) with _ | ⟨K, V⟩
    · refine ⟨("DefaultEndpointsProtocol".data), ("https".data), 'D',
        ("efaultEndpointsProtocol".data), ?_, by decide, by decide, by decide⟩
      unfold b2proto
      rw [hp]
      rfl
    · have hmem := partsGet_mem hp
      have hr := hpr _ hmem
      have hi := (hinv _ hmem).symm
      cases hK : K with
      | nil => exact absurd hK hr.1
      | cons k0 kt =>
        refine ⟨K, V, k0, kt, ?_, hK, hi, hr.2.2.1⟩
        unfold b2proto
        rw [hp]
  obtain ⟨K, V, k0, kt, hf, hKc, hlowK, hVs⟩ := hshape
  have hk0d : k0.toLower = 'd' := by
    have := congrArg List.head? hlowK
    rw [hKc] at this
    simpa [lowerL] using this
  have hk0p := head_toLower_d_props hk0d
  -- shape of the whole joined string
  have hproto_ne : b2proto m ≠ [] := by
    rw [hf, hKc]
    simp
  have hconnX : ∃ X, joinSep ';' (branch2Fields m storage) = (K ++ '=' :: V) ++ X := by
    show ∃ X, joinSep ';' (b2proto m ::
      (b2name m storage ++ b2blob m ++ b2key m ++ b2sas m ++ b2suffix m ++ b2extra m)) = _
    cases htail : (b2name m storage ++ b2blob m ++ b2key m ++ b2sas m ++ b2suffix m ++
        b2extra m) with
    | nil =>
      refine ⟨[], ?_⟩
      rw [joinSep, hf]
      rw [List.append_nil]
    | cons t ts =>
      refine ⟨';' :: joinSep ';' (t :: ts), ?_⟩
      rw [show joinSep ';' (b2proto m :: t :: ts) =
        b2proto m ++ ';' :: joinSep ';' (t :: ts) from rfl, hf]
  obtain ⟨X, hX⟩ := hconnX
  have hhead : (joinSep ';' (branch2Fields m storage)).head? = some k0 := by
    rw [hX, hKc]
    rfl
  -- the last character is the last character of some (stripped, nonempty) field
  have hfne : ∀ q ∈ branch2Fields m storage, q ≠ [] := fun q hq => (hwf q hq).1
  obtain ⟨q, hq, hlast⟩ := joinSep_last_mem ';'
    (b2name m storage ++ b2blob m ++ b2key m ++ b2sas m ++ b2suffix m ++ b2extra m)
    (b2proto m) hfne
  have hqprops := hwf q hq
  obtain ⟨z, hz⟩ : ∃ z, q.getLast? = some z := by
    rcases hql : q.getLast? with _ | ⟨z⟩
    · exact absurd (List.getLast?_eq_none_iff.mp hql) hqprops.1
    · exact ⟨z, rfl⟩
  have hzw : pyWs z = false := by
    apply pyStrip_last q
    rw [hqprops.2.1]
    exact hz
  have hlast2 : (joinSep ';' (branch2Fields m storage)).getLast? = some z := by
    have hl3 : (joinSep ';' (branch2Fields m storage)).getLast? = q.getLast? := hlast
    rw [hl3, hz]
  -- strip and quote identity
  have hval : unquoteStrip (joinSep ';' (branch2Fields m storage)) =
      joinSep ';' (branch2Fields m storage) :=
    unquoteStrip_id hhead hlast2 hk0p.1 hzw hk0p.2.1 hk0p.2.2
  have hne : joinSep ';' (branch2Fields m storage) ≠ [] := by
    intro h
    rw [h] at hhead
    cases hhead
  -- carriage-return freedom
  have hnn : normNl (joinSep ';' (branch2Fields m storage)) =
      joinSep ';' (branch2Fields m storage) := by
    apply normNl_eq_self
    intro x hx
    rcases mem_joinSep hx with rfl | ⟨piece, hpiece, hxp⟩
    · decide
    · exact ((hwf piece hpiece).2.2 x hxp).2
  -- development-storage prefix ruled out
  have hdev : devCond (joinSep ';' (branch2Fields m storage)) = false :=
    branch2_not_dev m storage
      (fun k v hp => ((hinv _ (partsGet_mem hp))).symm)
  -- the delimited-branch trigger
  have heqmem : ('=' : Char) ∈ joinSep ';' (branch2Fields m storage) := by
    apply mem_joinSep_of (List.mem_cons_self _ _)
    rw [hf]
    exact List.mem_append.mpr (Or.inr (List.mem_cons_self _ _))
  have hkwAt : kwAt (joinSep ';' (branch2Fields m storage)) = true := by
    unfold kwAt
    apply List.any_eq_true.mpr
    refine ⟨("defaultendpointsprotocol".data), by decide, ?_⟩
    rw [hX]
    rw [show (K ++ '=' :: V) ++ X = K ++ '=' :: (V ++ X) by
      rw [List.append_assoc]; rfl]
    have hl : lowerL (K ++ '=' :: (V ++ X)) =
        ("defaultendpointsprotocol".data) ++ '=' :: lowerL (V ++ X) := by
      unfold lowerL
      rw [List.map_append, List.map_cons]
      unfold lowerL at hlowK
      rw [hlowK]
      rfl
    rw [hl]
    rw [show ("defaultendpointsprotocol".data) ++ '=' :: lowerL (V ++ X) =
      (("defaultendpointsprotocol".data) ++ ['=']) ++ lowerL (V ++ X) by
      rw [List.append_assoc]; rfl]
    rw [show ("defaultendpointsprotocol".data) ++ ['='] =
      ("defaultendpointsprotocol=".data) from rfl]
    exact startsWithL_append_self _ _
  have hkw : kwSearch (joinSep ';' (branch2Fields m storage)) = true := by
    unfold kwSearch
    rcases hcs : joinSep ';' (branch2Fields m storage) with _ | ⟨c1, rest1⟩
    · exact absurd hcs hne
    · rw [kwSearchGo]
      rw [← hcs, hkwAt]
      rfl
  have hb2 : branch2cond (joinSep ';' (branch2Fields m storage)) = true := by
    unfold branch2cond
    rw [containsChar_of_mem heqmem, hkw]
    simp
  -- the round trip of the split
  have hsplit : splitRunsBy isSemiNl (joinSep ';' (branch2Fields m storage)) =
      branch2Fields m storage := by
    apply splitRunsBy_joinSep isSemiNl (by decide)
    · exact hfne _ (List.mem_cons_self _ _)
    · exact fun ch hch => ((hwf _ (List.mem_cons_self _ _)).2.2 ch hch).1
    · intro q2 hq2
      have h := hwf q2 (List.mem_cons_of_mem _ hq2)
      exact ⟨h.1, fun ch hch => (h.2.2 ch hch).1⟩
  exact ⟨hval, hne, hnn, hdev, hb2, hsplit⟩

/-- Idempotence for the delimited key=value branch: its canonical output
re-parses (through the same branch) to the identical credential. -/
theorem branch2_idem (decode : List Char → Option Json) {normalized storage : List Char}
    (hnocr : ∀ ch ∈ normalized, ch ≠ '\r')
    (hgp : goodParts (partsOfSegments (splitRunsBy isSemiNl normalized)) storage = true) :
    parse_credential decode (branch2 normalized storage).connection_string
      (branch2 normalized storage).storage_account = .ok (branch2 normalized storage) := by
  have hinv := partsOfSegments_inv (splitRunsBy isSemiNl normalized)
  have hpr : ∀ e ∈ partsOfSegments (splitRunsBy isSemiNl normalized),
      e.2.1 ≠ [] ∧ pyStrip e.2.1 = e.2.1 ∧ pyStrip e.2.2 = e.2.2 ∧
      ∀ ch ∈ e.2.1, isKvSep ch = false := fun e he => partsOfSegments_keyprops e he
  have hcp1 := partsOfSegments_charprop isSemiNl
    (fun s hs ch hch => splitRunsBy_no_sep isSemiNl normalized s hs ch hch)
  have hcp2 := partsOfSegments_charprop (fun ch => decide (ch = '\r'))
    (fun s hs ch hch => by
      simpa using hnocr ch (mem_splitRunsBy isSemiNl normalized s hs ch hch))
  have hmc : ∀ e ∈ partsOfSegments (splitRunsBy isSemiNl normalized),
      (∀ ch ∈ e.2.1, isSemiNl ch = false ∧ ch ≠ '\r') ∧
      (∀ ch ∈ e.2.2, isSemiNl ch = false ∧ ch ≠ '\r') := by
    intro e he
    refine ⟨fun ch hch => ⟨(hcp1 e he).1 ch hch, ?_⟩,
      fun ch hch => ⟨(hcp1 e he).2 ch hch, ?_⟩⟩
    · simpa using (hcp2 e he).1 ch hch
    · simpa using (hcp2 e he).2 ch hch
  obtain ⟨hg1, hg2, hgK, hgS⟩ := goodParts_split hgp
  have hstor3 : partsGet (partsOfSegments (splitRunsBy isSemiNl normalized))
      ("accountname".data) = none →
      storage = [] ∨ (pyStrip storage = storage ∧
        ∀ ch ∈ storage, isSemiNl ch = false ∧ ch ≠ '\r') := by
    intro hp
    rcases hg1 hp with h | h
    · exact Or.inl h
    · exact Or.inr (goodStr_spec h)
  have hstor : partsGet (partsOfSegments (splitRunsBy isSemiNl normalized))
      ("accountname".data) = none → storage = [] ∨ pyStrip storage = storage := by
    intro hp
    rcases hstor3 hp with h | h
    · exact Or.inl h
    · exact Or.inr h.1
  obtain ⟨hval, hne, hnn, hdev, hb2, hsplit⟩ := conn_wf hinv hpr hmc hstor3
  obtain ⟨storage2, hst2, hfields, hacc2, hkm, hsm⟩ :=
    branch2_reparse hinv hpr hstor hg2 hgK hgS
  have hSA : (branch2 normalized storage).storage_account = storage2 := hst2
  have hCS : (branch2 normalized storage).connection_string =
      joinSep ';' (branch2Fields (partsOfSegments (splitRunsBy isSemiNl normalized)) storage) :=
    rfl
  rw [hSA, hCS]
  show parseCredGo decode
    ((joinSep ';' (branch2Fields (partsOfSegments (splitRunsBy isSemiNl normalized))
      storage)).length + 1)
    (joinSep ';' (branch2Fields (partsOfSegments (splitRunsBy isSemiNl normalized)) storage))
    storage2 = .ok (branch2 normalized storage)
  rw [parseCred_branch2_step decode _ _ _ hval hne hnn hdev hb2]
  refine congrArg Except.ok ?_
  unfold branch2
  simp only []
  rw [hsplit]
  rw [AzureCredential.mk.injEq]
  exact ⟨hacc2.trans hst2.symm, congrArg (joinSep ';') hfields, hkm, hsm⟩

/-- The last character of a `Key=Value` segment with a stripped value is never
whitespace (it is `=` when the value is empty). -/
theorem kv_last_nonws {K V : List Char} (hsV : pyStrip V = V) :
    ∀ z, (K ++ '=' :: V).getLast? = some z → pyWs z = false := by
  intro z hz
  rcases hV : V with _ | ⟨v0, vt⟩
  · subst hV
    have h1 : (K ++ ['=']).getLast? = (['=']  : List Char).getLast? :=
      List.getLast?_append_of_ne_nil _ (by decide)
    rw [h1] at hz
    have hz2 : z = '=' := by
      have : some '=' = some z := by rw [← hz]; rfl
      exact (Option.some.inj this).symm
    subst hz2
    decide
  · have hVne : V ≠ [] := by rw [hV]; exact List.cons_ne_nil _ _
    subst hV
    have h1 : (K ++ '=' :: (v0 :: vt)).getLast? = ((K ++ ['=']) ++ (v0 :: vt)).getLast? := by
      rw [List.append_assoc]
      rfl
    have h2 : ((K ++ ['=']) ++ (v0 :: vt)).getLast? = (v0 :: vt).getLast? :=
      List.getLast?_append_of_ne_nil _ (List.cons_ne_nil _ _)
    rw [h1, h2] at hz
    apply pyStrip_last (v0 :: vt)
    rw [hsV]
    exact hz

/-- Re-parsing a canonical SAS connection string (protocol, account name,
blob endpoint, shared-access signature — the exact shape produced by the
URL-with-SAS and bare-SAS branches) re-enters the delimited branch and
reproduces the credential that produced it. -/
theorem sas_record_reparse (decode : List Char → Option Json) {A B T : List Char}
    (hA : A ≠ []) (hT : T ≠ [])
    (hsA : pyStrip A = A) (hcA : ∀ ch ∈ A, isSemiNl ch = false ∧ ch ≠ '\r')
    (hsB : pyStrip B = B) (hcB : ∀ ch ∈ B, isSemiNl ch = false ∧ ch ≠ '\r')
    (hsT : pyStrip T = T) (hcT : ∀ ch ∈ T, isSemiNl ch = false ∧ ch ≠ '\r') :
    parse_credential decode
      (("DefaultEndpointsProtocol=https;AccountName=".data) ++ A ++ (";BlobEndpoint=".data) ++ B
        ++ (";SharedAccessSignature=".data) ++ T) A =
      .ok { storage_account := A
            connection_string := ("DefaultEndpointsProtocol=https;AccountName=".data) ++ A ++
              (";BlobEndpoint=".data) ++ B ++ (";SharedAccessSignature=".data) ++ T
            account_key := none
            sas_token := some T } := by
  have hshape : ("DefaultEndpointsProtocol=https;AccountName=".data) ++ A ++
      (";BlobEndpoint=".data) ++ B ++ (";SharedAccessSignature=".data) ++ T =
      joinSep ';' [("DefaultEndpointsProtocol".data ++ '=' :: "https".data),
        ("AccountName".data ++ '=' :: A),
        ("BlobEndpoint".data ++ '=' :: B),
        ("SharedAccessSignature".data ++ '=' :: T)] := by
    simp only [List.append_assoc]
    rfl
  rw [hshape]
  have hS1 : ∀ ch ∈ ("DefaultEndpointsProtocol".data ++ '=' :: "https".data : List Char),
      isSemiNl ch = false := by decide
  have hS2 : ∀ ch ∈ ("AccountName".data ++ '=' :: A), isSemiNl ch = false := by
    intro ch hch
    rcases List.mem_append.mp hch with h | h
    · exact (show ∀ c ∈ ("AccountName".data : List Char), isSemiNl c = false by decide) ch h
    · rcases List.mem_cons.mp h with rfl | h2
      · decide
      · exact (hcA ch h2).1
  have hS3 : ∀ ch ∈ ("BlobEndpoint".data ++ '=' :: B), isSemiNl ch = false := by
    intro ch hch
    rcases List.mem_append.mp hch with h | h
    · exact (show ∀ c ∈ ("BlobEndpoint".data : List Char), isSemiNl c = false by decide) ch h
    · rcases List.mem_cons.mp h with rfl | h2
      · decide
      · exact (hcB ch h2).1
  have hS4 : ∀ ch ∈ ("SharedAccessSignature".data ++ '=' :: T), isSemiNl ch = false := by
    intro ch hch
    rcases List.mem_append.mp hch with h | h
    · exact (show ∀ c ∈ ("SharedAccessSignature".data : List Char),
        isSemiNl c = false by decide) ch h
    · rcases List.mem_cons.mp h with rfl | h2
      · decide
      · exact (hcT ch h2).1
  have hC2 : ∀ ch ∈ ("AccountName".data ++ '=' :: A), ch ≠ '\r' := by
    intro ch hch
    rcases List.mem_append.mp hch with h | h
    · exact (show ∀ c ∈ ("AccountName".data : List Char), c ≠ '\r' by decide) ch h
    · rcases List.mem_cons.mp h with rfl | h2
      · decide
      · exact (hcA ch h2).2
  have hC3 : ∀ ch ∈ ("BlobEndpoint".data ++ '=' :: B), ch ≠ '\r' := by
    intro ch hch
    rcases List.mem_append.mp hch with h | h
    · exact (show ∀ c ∈ ("BlobEndpoint".data : List Char), c ≠ '\r' by decide) ch h
    · rcases List.mem_cons.mp h with rfl | h2
      · decide
      · exact (hcB ch h2).2
  have hC4 : ∀ ch ∈ ("SharedAccessSignature".data ++ '=' :: T), ch ≠ '\r' := by
    intro ch hch
    rcases List.mem_append.mp hch with h | h
    · exact (show ∀ c ∈ ("SharedAccessSignature".data : List Char), c ≠ '\r' by decide) ch h
    · rcases List.mem_cons.mp h with rfl | h2
      · decide
      · exact (hcT ch h2).2
  have hne2 : ("AccountName".data ++ '=' :: A) ≠ [] := by simp
  have hne3 : ("BlobEndpoint".data ++ '=' :: B) ≠ [] := by simp
  have hne4 : ("SharedAccessSignature".data ++ '=' :: T) ≠ [] := by simp
  have hall : ∀ q ∈ [("DefaultEndpointsProtocol".data ++ '=' :: "https".data),
      ("AccountName".data ++ '=' :: A), ("BlobEndpoint".data ++ '=' :: B),
      ("SharedAccessSignature".data ++ '=' :: T)], q ≠ [] := by
    intro q hq
    rcases List.mem_cons.mp hq with rfl | hq2
    · decide
    rcases List.mem_cons.mp hq2 with rfl | hq3
    · exact hne2
    rcases List.mem_cons.mp hq3 with rfl | hq4
    · exact hne3
    rcases List.mem_cons.mp hq4 with rfl | hq5
    · exact hne4
    · cases hq5
  have hsplit : splitRunsBy isSemiNl (joinSep ';'
      [("DefaultEndpointsProtocol".data ++ '=' :: "https".data),
       ("AccountName".data ++ '=' :: A), ("BlobEndpoint".data ++ '=' :: B),
       ("SharedAccessSignature".data ++ '=' :: T)]) =
      [("DefaultEndpointsProtocol".data ++ '=' :: "https".data),
       ("AccountName".data ++ '=' :: A), ("BlobEndpoint".data ++ '=' :: B),
       ("SharedAccessSignature".data ++ '=' :: T)] := by
    refine splitRunsBy_joinSep isSemiNl (by decide) _ _ (by decide) hS1 ?_
    intro q hq
    rcases List.mem_cons.mp hq with rfl | hq2
    · exact ⟨hne2, hS2⟩
    rcases List.mem_cons.mp hq2 with rfl | hq3
    · exact ⟨hne3, hS3⟩
    rcases List.mem_cons.mp hq3 with rfl | hq4
    · exact ⟨hne4, hS4⟩
    · cases hq4
  have hsg1 : partsOfSegments [("DefaultEndpointsProtocol".data ++ '=' :: "https".data)] =
      [(("defaultendpointsprotocol".data), ("DefaultEndpointsProtocol".data), ("https".data))] :=
    partsOfSegments_single (by decide) (by decide) (by decide) (by decide)
  have hsg2 : partsOfSegments [("AccountName".data ++ '=' :: A)] =
      [(("accountname".data), ("AccountName".data), A)] :=
    partsOfSegments_single (by decide) (by decide) (by decide) hsA
  have hsg3 : partsOfSegments [("BlobEndpoint".data ++ '=' :: B)] =
      [(("blobendpoint".data), ("BlobEndpoint".data), B)] :=
    partsOfSegments_single (by decide) (by decide) (by decide) hsB
  have hsg4 : partsOfSegments [("SharedAccessSignature".data ++ '=' :: T)] =
      [(("sharedaccesssignature".data), ("SharedAccessSignature".data), T)] :=
    partsOfSegments_single (by decide) (by decide) (by decide) hsT
  have hm : partsOfSegments
      [("DefaultEndpointsProtocol".data ++ '=' :: "https".data),
       ("AccountName".data ++ '=' :: A), ("BlobEndpoint".data ++ '=' :: B),
       ("SharedAccessSignature".data ++ '=' :: T)] =
      [(("sharedaccesssignature".data), ("SharedAccessSignature".data), T),
       (("blobendpoint".data), ("BlobEndpoint".data), B),
       (("accountname".data), ("AccountName".data), A),
       (("defaultendpointsprotocol".data), ("DefaultEndpointsProtocol".data), ("https".data))] := by
    rw [show ([("DefaultEndpointsProtocol".data ++ '=' :: "https".data),
       ("AccountName".data ++ '=' :: A), ("BlobEndpoint".data ++ '=' :: B),
       ("SharedAccessSignature".data ++ '=' :: T)] : List (List Char)) =
      [("DefaultEndpointsProtocol".data ++ '=' :: "https".data)] ++
        ([("AccountName".data ++ '=' :: A)] ++ ([("BlobEndpoint".data ++ '=' :: B)] ++
          [("SharedAccessSignature".data ++ '=' :: T)])) from rfl]
    rw [partsOfSegments_append, partsOfSegments_append, partsOfSegments_append]
    rw [hsg1, hsg2, hsg3, hsg4]
    rfl
  have hpp : partsGet
      [(("sharedaccesssignature".data), ("SharedAccessSignature".data), T),
       (("blobendpoint".data), ("BlobEndpoint".data), B),
       (("accountname".data), ("AccountName".data), A),
       (("defaultendpointsprotocol".data), ("DefaultEndpointsProtocol".data), ("https".data))]
      ("defaultendpointsprotocol".data) =
      some (("DefaultEndpointsProtocol".data), ("https".data)) := rfl
  have hpn : partsGet
      [(("sharedaccesssignature".data), ("SharedAccessSignature".data), T),
       (("blobendpoint".data), ("BlobEndpoint".data), B),
       (("accountname".data), ("AccountName".data), A),
       (("defaultendpointsprotocol".data), ("DefaultEndpointsProtocol".data), ("https".data))]
      ("accountname".data) = some (("AccountName".data), A) := rfl
  have hpb : partsGet
      [(("sharedaccesssignature".data), ("SharedAccessSignature".data), T),
       (("blobendpoint".data), ("BlobEndpoint".data), B),
       (("accountname".data), ("AccountName".data), A),
       (("defaultendpointsprotocol".data), ("DefaultEndpointsProtocol".data), ("https".data))]
      ("blobendpoint".data) = some (("BlobEndpoint".data), B) := rfl
  have hpk : partsGet
      [(("sharedaccesssignature".data), ("SharedAccessSignature".data), T),
       (("blobendpoint".data), ("BlobEndpoint".data), B),
       (("accountname".data), ("AccountName".data), A),
       (("defaultendpointsprotocol".data), ("DefaultEndpointsProtocol".data), ("https".data))]
      ("accountkey".data) = none := rfl
  have hps : partsGet
      [(("sharedaccesssignature".data), ("SharedAccessSignature".data), T),
       (("blobendpoint".data), ("BlobEndpoint".data), B),
       (("accountname".data), ("AccountName".data), A),
       (("defaultendpointsprotocol".data), ("DefaultEndpointsProtocol".data), ("https".data))]
      ("sharedaccesssignature".data) = some (("SharedAccessSignature".data), T) := rfl
  have hpsuf : partsGet
      [(("sharedaccesssignature".data), ("SharedAccessSignature".data), T),
       (("blobendpoint".data), ("BlobEndpoint".data), B),
       (("accountname".data), ("AccountName".data), A),
       (("defaultendpointsprotocol".data), ("DefaultEndpointsProtocol".data), ("https".data))]
      ("endpointsuffix".data) = none := rfl
  have hpq : partsGet
      [(("sharedaccesssignature".data), ("SharedAccessSignature".data), T),
       (("blobendpoint".data), ("BlobEndpoint".data), B),
       (("accountname".data), ("AccountName".data), A),
       (("defaultendpointsprotocol".data), ("DefaultEndpointsProtocol".data), ("https".data))]
      ("queueendpoint".data) = none := rfl
  have hpt : partsGet
      [(("sharedaccesssignature".data), ("SharedAccessSignature".data), T),
       (("blobendpoint".data), ("BlobEndpoint".data), B),
       (("accountname".data), ("AccountName".data), A),
       (("defaultendpointsprotocol".data), ("DefaultEndpointsProtocol".data), ("https".data))]
      ("tableendpoint".data) = none := rfl
  have hpf : partsGet
      [(("sharedaccesssignature".data), ("SharedAccessSignature".data), T),
       (("blobendpoint".data), ("BlobEndpoint".data), B),
       (("accountname".data), ("AccountName".data), A),
       (("defaultendpointsprotocol".data), ("DefaultEndpointsProtocol".data), ("https".data))]
      ("fileendpoint".data) = none := rfl
  have hhead : (joinSep ';'
      [("DefaultEndpointsProtocol".data ++ '=' :: "https".data),
       ("AccountName".data ++ '=' :: A), ("BlobEndpoint".data ++ '=' :: B),
       ("SharedAccessSignature".data ++ '=' :: T)]).head? = some 'D' := by
    rw [joinSep_head_eq ';' _ _ (by decide)]
    rfl
  have hconn_ne : (joinSep ';'
      [("DefaultEndpointsProtocol".data ++ '=' :: "https".data),
       ("AccountName".data ++ '=' :: A), ("BlobEndpoint".data ++ '=' :: B),
       ("SharedAccessSignature".data ++ '=' :: T)]) ≠ [] := by
    intro h0
    rw [h0] at hhead
    cases hhead
  have hlast : ∃ z, (joinSep ';'
      [("DefaultEndpointsProtocol".data ++ '=' :: "https".data),
       ("AccountName".data ++ '=' :: A), ("BlobEndpoint".data ++ '=' :: B),
       ("SharedAccessSignature".data ++ '=' :: T)]).getLast? = some z ∧ pyWs z = false := by
    obtain ⟨q, hq, hl⟩ := joinSep_last_mem ';' _ _ hall
    have hqne : q ≠ [] := hall q hq
    obtain ⟨z, hz⟩ := Option.isSome_iff_exists.mp (List.getLast?_isSome.mpr hqne)
    refine ⟨z, by rw [hl, hz], ?_⟩
    rcases List.mem_cons.mp hq with rfl | hq2
    · exact @kv_last_nonws ("DefaultEndpointsProtocol".data) ("https".data) (by decide) z hz
    rcases List.mem_cons.mp hq2 with rfl | hq3
    · exact kv_last_nonws hsA z hz
    rcases List.mem_cons.mp hq3 with rfl | hq4
    · exact kv_last_nonws hsB z hz
    rcases List.mem_cons.mp hq4 with rfl | hq5
    · exact kv_last_nonws hsT z hz
    · cases hq5
  have hval : unquoteStrip (joinSep ';'
      [("DefaultEndpointsProtocol".data ++ '=' :: "https".data),
       ("AccountName".data ++ '=' :: A), ("BlobEndpoint".data ++ '=' :: B),
       ("SharedAccessSignature".data ++ '=' :: T)]) = joinSep ';'
      [("DefaultEndpointsProtocol".data ++ '=' :: "https".data),
       ("AccountName".data ++ '=' :: A), ("BlobEndpoint".data ++ '=' :: B),
       ("SharedAccessSignature".data ++ '=' :: T)] := by
    obtain ⟨z, hz, hwz⟩ := hlast
    exact unquoteStrip_id hhead hz (by decide) hwz (by decide) (by decide)
  have hnn : normNl (joinSep ';'
      [("DefaultEndpointsProtocol".data ++ '=' :: "https".data),
       ("AccountName".data ++ '=' :: A), ("BlobEndpoint".data ++ '=' :: B),
       ("SharedAccessSignature".data ++ '=' :: T)]) = joinSep ';'
      [("DefaultEndpointsProtocol".data ++ '=' :: "https".data),
       ("AccountName".data ++ '=' :: A), ("BlobEndpoint".data ++ '=' :: B),
       ("SharedAccessSignature".data ++ '=' :: T)] := by
    apply normNl_eq_self
    intro x hx
    rcases mem_joinSep hx with rfl | ⟨q, hq, hxq⟩
    · decide
    rcases List.mem_cons.mp hq with rfl | hq2
    · exact (show ∀ c ∈ ("DefaultEndpointsProtocol".data ++ '=' :: "https".data : List Char),
        c ≠ '\r' by decide) x hxq
    rcases List.mem_cons.mp hq2 with rfl | hq3
    · exact hC2 x hxq
    rcases List.mem_cons.mp hq3 with rfl | hq4
    · exact hC3 x hxq
    rcases List.mem_cons.mp hq4 with rfl | hq5
    · exact hC4 x hxq
    · cases hq5
  have hdev : devCond (joinSep ';'
      [("DefaultEndpointsProtocol".data ++ '=' :: "https".data),
       ("AccountName".data ++ '=' :: A), ("BlobEndpoint".data ++ '=' :: B),
       ("SharedAccessSignature".data ++ '=' :: T)]) = false :=
    devCond_false_of_head hhead (by decide)
  have hb2 : branch2cond (joinSep ';'
      [("DefaultEndpointsProtocol".data ++ '=' :: "https".data),
       ("AccountName".data ++ '=' :: A), ("BlobEndpoint".data ++ '=' :: B),
       ("SharedAccessSignature".data ++ '=' :: T)]) = true := rfl
  show parseCredGo decode _ _ A = _
  rw [parseCred_branch2_step decode _ _ _ hval hconn_ne hnn hdev hb2]
  refine congrArg Except.ok ?_
  unfold branch2
  simp only []
  rw [hsplit, hm]
  rw [AzureCredential.mk.injEq]
  refine ⟨?_, ?_, ?_, ?_⟩
  · rw [hpn]
    show (if A = [] then A else A) = A
    split <;> rfl
  · have hbp : b2proto
        [(("sharedaccesssignature".data), ("SharedAccessSignature".data), T),
         (("blobendpoint".data), ("BlobEndpoint".data), B),
         (("accountname".data), ("AccountName".data), A),
         (("defaultendpointsprotocol".data), ("DefaultEndpointsProtocol".data), ("https".data))] =
        ("DefaultEndpointsProtocol".data ++ '=' :: "https".data) := by
      unfold b2proto
      rw [hpp]
    have hbn : b2name
        [(("sharedaccesssignature".data), ("SharedAccessSignature".data), T),
         (("blobendpoint".data), ("BlobEndpoint".data), B),
         (("accountname".data), ("AccountName".data), A),
         (("defaultendpointsprotocol".data), ("DefaultEndpointsProtocol".data), ("https".data))] A =
        [("AccountName".data ++ '=' :: A)] := by
      unfold b2name
      rw [hpn]
      split
      · rfl
      · rename_i hcond
        exact absurd (not_not.mp hcond) hA
    have hbb : b2blob
        [(("sharedaccesssignature".data), ("SharedAccessSignature".data), T),
         (("blobendpoint".data), ("BlobEndpoint".data), B),
         (("accountname".data), ("AccountName".data), A),
         (("defaultendpointsprotocol".data), ("DefaultEndpointsProtocol".data), ("https".data))] =
        [("BlobEndpoint".data ++ '=' :: B)] := by
      unfold b2blob
      rw [hpb]
    have hbk : b2key
        [(("sharedaccesssignature".data), ("SharedAccessSignature".data), T),
         (("blobendpoint".data), ("BlobEndpoint".data), B),
         (("accountname".data), ("AccountName".data), A),
         (("defaultendpointsprotocol".data), ("DefaultEndpointsProtocol".data), ("https".data))] =
        [] := by
      unfold b2key
      rw [hpk]
      rfl
    have hbs : b2sas
        [(("sharedaccesssignature".data), ("SharedAccessSignature".data), T),
         (("blobendpoint".data), ("BlobEndpoint".data), B),
         (("accountname".data), ("AccountName".data), A),
         (("defaultendpointsprotocol".data), ("DefaultEndpointsProtocol".data), ("https".data))] =
        [("SharedAccessSignature".data ++ '=' :: T)] := by
      unfold b2sas
      rw [hps]
      show (if T ≠ [] then [("SharedAccessSignature=".data) ++ T] else []) = _
      split
      · rfl
      · rename_i hcond
        exact absurd (not_not.mp hcond) hT
    have hbsuf : b2suffix
        [(("sharedaccesssignature".data), ("SharedAccessSignature".data), T),
         (("blobendpoint".data), ("BlobEndpoint".data), B),
         (("accountname".data), ("AccountName".data), A),
         (("defaultendpointsprotocol".data), ("DefaultEndpointsProtocol".data), ("https".data))] =
        [] := by
      unfold b2suffix
      rw [hpsuf, hpb]
      rfl
    have hbe : b2extra
        [(("sharedaccesssignature".data), ("SharedAccessSignature".data), T),
         (("blobendpoint".data), ("BlobEndpoint".data), B),
         (("accountname".data), ("AccountName".data), A),
         (("defaultendpointsprotocol".data), ("DefaultEndpointsProtocol".data), ("https".data))] =
        [] := by
      unfold b2extra
      rw [hpq, hpt, hpf]
      rfl
    unfold branch2Fields
    rw [hbp, hbn, hbb, hbk, hbs, hbsuf, hbe]
    rfl
  · rw [hpk]
    rfl
  · rw [hps]
    rfl

/-- Re-parsing a canonical account-key connection string (protocol, account
name, account key, endpoint suffix — the exact shape produced by the bare
account-key branch) re-enters the delimited branch and reproduces the
credential that produced it. -/
theorem key_record_reparse (decode : List Char → Option Json) {S V : List Char}
    (hS : S ≠ []) (hV : V ≠ [])
    (hsS : pyStrip S = S) (hcS : ∀ ch ∈ S, isSemiNl ch = false ∧ ch ≠ '\r')
    (hsV : pyStrip V = V) (hcV : ∀ ch ∈ V, isSemiNl ch = false ∧ ch ≠ '\r') :
    parse_credential decode
      (("DefaultEndpointsProtocol=https;AccountName=".data) ++ S ++ (";AccountKey=".data) ++ V
        ++ (";EndpointSuffix=core.windows.net".data)) S =
      .ok { storage_account := S
            connection_string := ("DefaultEndpointsProtocol=https;AccountName=".data) ++ S ++
              (";AccountKey=".data) ++ V ++ (";EndpointSuffix=core.windows.net".data)
            account_key := some V
            sas_token := none } := by
  have hshape : ("DefaultEndpointsProtocol=https;AccountName=".data) ++ S ++
      (";AccountKey=".data) ++ V ++ (";EndpointSuffix=core.windows.net".data) =
      joinSep ';' [("DefaultEndpointsProtocol".data ++ '=' :: "https".data),
        ("AccountName".data ++ '=' :: S),
        ("AccountKey".data ++ '=' :: V),
        ("EndpointSuffix".data ++ '=' :: "core.windows.net".data)] := by
    simp only [List.append_assoc]
    rfl
  rw [hshape]
  have hS1 : ∀ ch ∈ ("DefaultEndpointsProtocol".data ++ '=' :: "https".data : List Char),
      isSemiNl ch = false := by decide
  have hS2 : ∀ ch ∈ ("AccountName".data ++ '=' :: S), isSemiNl ch = false := by
    intro ch hch
    rcases List.mem_append.mp hch with h | h
    · exact (show ∀ c ∈ ("AccountName".data : List Char), isSemiNl c = false by decide) ch h
    · rcases List.mem_cons.mp h with rfl | h2
      · decide
      · exact (hcS ch h2).1
  have hS3 : ∀ ch ∈ ("AccountKey".data ++ '=' :: V), isSemiNl ch = false := by
    intro ch hch
    rcases List.mem_append.mp hch with h | h
    · exact (show ∀ c ∈ ("AccountKey".data : List Char), isSemiNl c = false by decide) ch h
    · rcases List.mem_cons.mp h with rfl | h2
      · decide
      · exact (hcV ch h2).1
  have hS4 : ∀ ch ∈ ("EndpointSuffix".data ++ '=' :: "core.windows.net".data : List Char),
      isSemiNl ch = false := by decide
  have hC2 : ∀ ch ∈ ("AccountName".data ++ '=' :: S), ch ≠ '\r' := by
    intro ch hch
    rcases List.mem_append.mp hch with h | h
    · exact (show ∀ c ∈ ("AccountName".data : List Char), c ≠ '\r' by decide) ch h
    · rcases List.mem_cons.mp h with rfl | h2
      · decide
      · exact (hcS ch h2).2
  have hC3 : ∀ ch ∈ ("AccountKey".data ++ '=' :: V), ch ≠ '\r' := by
    intro ch hch
    rcases List.mem_append.mp hch with h | h
    · exact (show ∀ c ∈ ("AccountKey".data : List Char), c ≠ '\r' by decide) ch h
    · rcases List.mem_cons.mp h with rfl | h2
      · decide
      · exact (hcV ch h2).2
  have hne2 : ("AccountName".data ++ '=' :: S) ≠ [] := by simp
  have hne3 : ("AccountKey".data ++ '=' :: V) ≠ [] := by simp
  have hall : ∀ q ∈ [("DefaultEndpointsProtocol".data ++ '=' :: "https".data),
      ("AccountName".data ++ '=' :: S), ("AccountKey".data ++ '=' :: V),
      ("EndpointSuffix".data ++ '=' :: "core.windows.net".data)], q ≠ [] := by
    intro q hq
    rcases List.mem_cons.mp hq with rfl | hq2
    · decide
    rcases List.mem_cons.mp hq2 with rfl | hq3
    · exact hne2
    rcases List.mem_cons.mp hq3 with rfl | hq4
    · exact hne3
    rcases List.mem_cons.mp hq4 with rfl | hq5
    · decide
    · cases hq5
  have hsplit : splitRunsBy isSemiNl (joinSep ';'
      [("DefaultEndpointsProtocol".data ++ '=' :: "https".data),
       ("AccountName".data ++ '=' :: S), ("AccountKey".data ++ '=' :: V),
       ("EndpointSuffix".data ++ '=' :: "core.windows.net".data)]) =
      [("DefaultEndpointsProtocol".data ++ '=' :: "https".data),
       ("AccountName".data ++ '=' :: S), ("AccountKey".data ++ '=' :: V),
       ("EndpointSuffix".data ++ '=' :: "core.windows.net".data)] := by
    refine splitRunsBy_joinSep isSemiNl (by decide) _ _ (by decide) hS1 ?_
    intro q hq
    rcases List.mem_cons.mp hq with rfl | hq2
    · exact ⟨hne2, hS2⟩
    rcases List.mem_cons.mp hq2 with rfl | hq3
    · exact ⟨hne3, hS3⟩
    rcases List.mem_cons.mp hq3 with rfl | hq4
    · exact ⟨by decide, hS4⟩
    · cases hq4
  have hsg1 : partsOfSegments [("DefaultEndpointsProtocol".data ++ '=' :: "https".data)] =
      [(("defaultendpointsprotocol".data), ("DefaultEndpointsProtocol".data), ("https".data))] :=
    partsOfSegments_single (by decide) (by decide) (by decide) (by decide)
  have hsg2 : partsOfSegments [("AccountName".data ++ '=' :: S)] =
      [(("accountname".data), ("AccountName".data), S)] :=
    partsOfSegments_single (by decide) (by decide) (by decide) hsS
  have hsg3 : partsOfSegments [("AccountKey".data ++ '=' :: V)] =
      [(("accountkey".data), ("AccountKey".data), V)] :=
    partsOfSegments_single (by decide) (by decide) (by decide) hsV
  have hsg4 : partsOfSegments [("EndpointSuffix".data ++ '=' :: "core.windows.net".data)] =
      [(("endpointsuffix".data), ("EndpointSuffix".data), ("core.windows.net".data))] :=
    partsOfSegments_single (by decide) (by decide) (by decide) (by decide)
  have hm : partsOfSegments
      [("DefaultEndpointsProtocol".data ++ '=' :: "https".data),
       ("AccountName".data ++ '=' :: S), ("AccountKey".data ++ '=' :: V),
       ("EndpointSuffix".data ++ '=' :: "core.windows.net".data)] =
      [(("endpointsuffix".data), ("EndpointSuffix".data), ("core.windows.net".data)),
       (("accountkey".data), ("AccountKey".data), V),
       (("accountname".data), ("AccountName".data), S),
       (("defaultendpointsprotocol".data), ("DefaultEndpointsProtocol".data), ("https".data))] := by
    rw [show ([("DefaultEndpointsProtocol".data ++ '=' :: "https".data),
       ("AccountName".data ++ '=' :: S), ("AccountKey".data ++ '=' :: V),
       ("EndpointSuffix".data ++ '=' :: "core.windows.net".data)] : List (List Char)) =
      [("DefaultEndpointsProtocol".data ++ '=' :: "https".data)] ++
        ([("AccountName".data ++ '=' :: S)] ++ ([("AccountKey".data ++ '=' :: V)] ++
          [("EndpointSuffix".data ++ '=' :: "core.windows.net".data)])) from rfl]
    rw [partsOfSegments_append, partsOfSegments_append, partsOfSegments_append]
    rw [hsg1, hsg2, hsg3, hsg4]
    rfl
  have hpp : partsGet
      [(("endpointsuffix".data), ("EndpointSuffix".data), ("core.windows.net".data)),
       (("accountkey".data), ("AccountKey".data), V),
       (("accountname".data), ("AccountName".data), S),
       (("defaultendpointsprotocol".data), ("DefaultEndpointsProtocol".data), ("https".data))]
      ("defaultendpointsprotocol".data) =
      some (("DefaultEndpointsProtocol".data), ("https".data)) := rfl
  have hpn : partsGet
      [(("endpointsuffix".data), ("EndpointSuffix".data), ("core.windows.net".data)),
       (("accountkey".data), ("AccountKey".data), V),
       (("accountname".data), ("AccountName".data), S),
       (("defaultendpointsprotocol".data), ("DefaultEndpointsProtocol".data), ("https".data))]
      ("accountname".data) = some (("AccountName".data), S) := rfl
  have hpb : partsGet
      [(("endpointsuffix".data), ("EndpointSuffix".data), ("core.windows.net".data)),
       (("accountkey".data), ("AccountKey".data), V),
       (("accountname".data), ("AccountName".data), S),
       (("defaultendpointsprotocol".data), ("DefaultEndpointsProtocol".data), ("https".data))]
      ("blobendpoint".data) = none := rfl
  have hpk : partsGet
      [(("endpointsuffix".data), ("EndpointSuffix".data), ("core.windows.net".data)),
       (("accountkey".data), ("AccountKey".data), V),
       (("accountname".data), ("AccountName".data), S),
       (("defaultendpointsprotocol".data), ("DefaultEndpointsProtocol".data), ("https".data))]
      ("accountkey".data) = some (("AccountKey".data), V) := rfl
  have hps : partsGet
      [(("endpointsuffix".data), ("EndpointSuffix".data), ("core.windows.net".data)),
       (("accountkey".data), ("AccountKey".data), V),
       (("accountname".data), ("AccountName".data), S),
       (("defaultendpointsprotocol".data), ("DefaultEndpointsProtocol".data), ("https".data))]
      ("sharedaccesssignature".data) = none := rfl
  have hpsuf : partsGet
      [(("endpointsuffix".data), ("EndpointSuffix".data), ("core.windows.net".data)),
       (("accountkey".data), ("AccountKey".data), V),
       (("accountname".data), ("AccountName".data), S),
       (("defaultendpointsprotocol".data), ("DefaultEndpointsProtocol".data), ("https".data))]
      ("endpointsuffix".data) = some (("EndpointSuffix".data), ("core.windows.net".data)) := rfl
  have hpq : partsGet
      [(("endpointsuffix".data), ("EndpointSuffix".data), ("core.windows.net".data)),
       (("accountkey".data), ("AccountKey".data), V),
       (("accountname".data), ("AccountName".data), S),
       (("defaultendpointsprotocol".data), ("DefaultEndpointsProtocol".data), ("https".data))]
      ("queueendpoint".data) = none := rfl
  have hpt : partsGet
      [(("endpointsuffix".data), ("EndpointSuffix".data), ("core.windows.net".data)),
       (("accountkey".data), ("AccountKey".data), V),
       (("accountname".data), ("AccountName".data), S),
       (("defaultendpointsprotocol".data), ("DefaultEndpointsProtocol".data), ("https".data))]
      ("tableendpoint".data) = none := rfl
  have hpf : partsGet
      [(("endpointsuffix".data), ("EndpointSuffix".data), ("core.windows.net".data)),
       (("accountkey".data), ("AccountKey".data), V),
       (("accountname".data), ("AccountName".data), S),
       (("defaultendpointsprotocol".data), ("DefaultEndpointsProtocol".data), ("https".data))]
      ("fileendpoint".data) = none := rfl
  have hhead : (joinSep ';'
      [("DefaultEndpointsProtocol".data ++ '=' :: "https".data),
       ("AccountName".data ++ '=' :: S), ("AccountKey".data ++ '=' :: V),
       ("EndpointSuffix".data ++ '=' :: "core.windows.net".data)]).head? = some 'D' := by
    rw [joinSep_head_eq ';' _ _ (by decide)]
    rfl
  have hconn_ne : (joinSep ';'
      [("DefaultEndpointsProtocol".data ++ '=' :: "https".data),
       ("AccountName".data ++ '=' :: S), ("AccountKey".data ++ '=' :: V),
       ("EndpointSuffix".data ++ '=' :: "core.windows.net".data)]) ≠ [] := by
    intro h0
    rw [h0] at hhead
    cases hhead
  have hlast : ∃ z, (joinSep ';'
      [("DefaultEndpointsProtocol".data ++ '=' :: "https".data),
       ("AccountName".data ++ '=' :: S), ("AccountKey".data ++ '=' :: V),
       ("EndpointSuffix".data ++ '=' :: "core.windows.net".data)]).getLast? = some z ∧
      pyWs z = false := by
    obtain ⟨q, hq, hl⟩ := joinSep_last_mem ';' _ _ hall
    have hqne : q ≠ [] := hall q hq
    obtain ⟨z, hz⟩ := Option.isSome_iff_exists.mp (List.getLast?_isSome.mpr hqne)
    refine ⟨z, by rw [hl, hz], ?_⟩
    rcases List.mem_cons.mp hq with rfl | hq2
    · exact @kv_last_nonws ("DefaultEndpointsProtocol".data) ("https".data) (by decide) z hz
    rcases List.mem_cons.mp hq2 with rfl | hq3
    · exact kv_last_nonws hsS z hz
    rcases List.mem_cons.mp hq3 with rfl | hq4
    · exact kv_last_nonws hsV z hz
    rcases List.mem_cons.mp hq4 with rfl | hq5
    · exact @kv_last_nonws ("EndpointSuffix".data) ("core.windows.net".data) (by decide) z hz
    · cases hq5
  have hval : unquoteStrip (joinSep ';'
      [("DefaultEndpointsProtocol".data ++ '=' :: "https".data),
       ("AccountName".data ++ '=' :: S), ("AccountKey".data ++ '=' :: V),
       ("EndpointSuffix".data ++ '=' :: "core.windows.net".data)]) = joinSep ';'
      [("DefaultEndpointsProtocol".data ++ '=' :: "https".data),
       ("AccountName".data ++ '=' :: S), ("AccountKey".data ++ '=' :: V),
       ("EndpointSuffix".data ++ '=' :: "core.windows.net".data)] := by
    obtain ⟨z, hz, hwz⟩ := hlast
    exact unquoteStrip_id hhead hz (by decide) hwz (by decide) (by decide)
  have hnn : normNl (joinSep ';'
      [("DefaultEndpointsProtocol".data ++ '=' :: "https".data),
       ("AccountName".data ++ '=' :: S), ("AccountKey".data ++ '=' :: V),
       ("EndpointSuffix".data ++ '=' :: "core.windows.net".data)]) = joinSep ';'
      [("DefaultEndpointsProtocol".data ++ '=' :: "https".data),
       ("AccountName".data ++ '=' :: S), ("AccountKey".data ++ '=' :: V),
       ("EndpointSuffix".data ++ '=' :: "core.windows.net".data)] := by
    apply normNl_eq_self
    intro x hx
    rcases mem_joinSep hx with rfl | ⟨q, hq, hxq⟩
    · decide
    rcases List.mem_cons.mp hq with rfl | hq2
    · exact (show ∀ c ∈ ("DefaultEndpointsProtocol".data ++ '=' :: "https".data : List Char),
        c ≠ '\r' by decide) x hxq
    rcases List.mem_cons.mp hq2 with rfl | hq3
    · exact hC2 x hxq
    rcases List.mem_cons.mp hq3 with rfl | hq4
    · exact hC3 x hxq
    rcases List.mem_cons.mp hq4 with rfl | hq5
    · exact (show ∀ c ∈ ("EndpointSuffix".data ++ '=' :: "core.windows.net".data : List Char),
        c ≠ '\r' by decide) x hxq
    · cases hq5
  have hdev : devCond (joinSep ';'
      [("DefaultEndpointsProtocol".data ++ '=' :: "https".data),
       ("AccountName".data ++ '=' :: S), ("AccountKey".data ++ '=' :: V),
       ("EndpointSuffix".data ++ '=' :: "core.windows.net".data)]) = false :=
    devCond_false_of_head hhead (by decide)
  have hb2 : branch2cond (joinSep ';'
      [("DefaultEndpointsProtocol".data ++ '=' :: "https".data),
       ("AccountName".data ++ '=' :: S), ("AccountKey".data ++ '=' :: V),
       ("EndpointSuffix".data ++ '=' :: "core.windows.net".data)]) = true := rfl
  show parseCredGo decode _ _ S = _
  rw [parseCred_branch2_step decode _ _ _ hval hconn_ne hnn hdev hb2]
  refine congrArg Except.ok ?_
  unfold branch2
  simp only []
  rw [hsplit, hm]
  rw [AzureCredential.mk.injEq]
  refine ⟨?_, ?_, ?_, ?_⟩
  · rw [hpn]
    show (if S = [] then S else S) = S
    split <;> rfl
  · have hbp : b2proto
        [(("endpointsuffix".data), ("EndpointSuffix".data), ("core.windows.net".data)),
         (("accountkey".data), ("AccountKey".data), V),
         (("accountname".data), ("AccountName".data), S),
         (("defaultendpointsprotocol".data), ("DefaultEndpointsProtocol".data), ("https".data))] =
        ("DefaultEndpointsProtocol".data ++ '=' :: "https".data) := by
      unfold b2proto
      rw [hpp]
    have hbn : b2name
        [(("endpointsuffix".data), ("EndpointSuffix".data), ("core.windows.net".data)),
         (("accountkey".data), ("AccountKey".data), V),
         (("accountname".data), ("AccountName".data), S),
         (("defaultendpointsprotocol".data), ("DefaultEndpointsProtocol".data), ("https".data))] S =
        [("AccountName".data ++ '=' :: S)] := by
      unfold b2name
      rw [hpn]
      split
      · rfl
      · rename_i hcond
        exact absurd (not_not.mp hcond) hS
    have hbb : b2blob
        [(("endpointsuffix".data), ("EndpointSuffix".data), ("core.windows.net".data)),
         (("accountkey".data), ("AccountKey".data), V),
         (("accountname".data), ("AccountName".data), S),
         (("defaultendpointsprotocol".data), ("DefaultEndpointsProtocol".data), ("https".data))] =
        [] := by
      unfold b2blob
      rw [hpb]
    have hbk : b2key
        [(("endpointsuffix".data), ("EndpointSuffix".data), ("core.windows.net".data)),
         (("accountkey".data), ("AccountKey".data), V),
         (("accountname".data), ("AccountName".data), S),
         (("defaultendpointsprotocol".data), ("DefaultEndpointsProtocol".data), ("https".data))] =
        [("AccountKey".data ++ '=' :: V)] := by
      unfold b2key
      rw [hpk]
      show (if V ≠ [] then [("AccountKey=".data) ++ V] else []) = _
      split
      · rfl
      · rename_i hcond
        exact absurd (not_not.mp hcond) hV
    have hbs : b2sas
        [(("endpointsuffix".data), ("EndpointSuffix".data), ("core.windows.net".data)),
         (("accountkey".data), ("AccountKey".data), V),
         (("accountname".data), ("AccountName".data), S),
         (("defaultendpointsprotocol".data), ("DefaultEndpointsProtocol".data), ("https".data))] =
        [] := by
      unfold b2sas
      rw [hps]
      rfl
    have hbsuf : b2suffix
        [(("endpointsuffix".data), ("EndpointSuffix".data), ("core.windows.net".data)),
         (("accountkey".data), ("AccountKey".data), V),
         (("accountname".data), ("AccountName".data), S),
         (("defaultendpointsprotocol".data), ("DefaultEndpointsProtocol".data), ("https".data))] =
        [("EndpointSuffix".data ++ '=' :: "core.windows.net".data)] := by
      unfold b2suffix
      rw [hpsuf]
    have hbe : b2extra
        [(("endpointsuffix".data), ("EndpointSuffix".data), ("core.windows.net".data)),
         (("accountkey".data), ("AccountKey".data), V),
         (("accountname".data), ("AccountName".data), S),
         (("defaultendpointsprotocol".data), ("DefaultEndpointsProtocol".data), ("https".data))] =
        [] := by
      unfold b2extra
      rw [hpq, hpt, hpf]
      rfl
    unfold branch2Fields
    rw [hbp, hbn, hbb, hbk, hbs, hbsuf, hbe]
    rfl
  · rw [hpk]
    rfl
  · rw [hps]
    rfl

/-- A case-insensitive prefix match decomposes the string into a prefix whose
lowering is the pattern, and a remainder. -/
theorem lowerStartsWith_decomp : ∀ {hay pat : List Char},
    lowerStartsWith hay pat = true → ∃ P R, hay = P ++ R ∧ lowerL P = pat := by
  intro hay pat
  induction pat generalizing hay with
  | nil => exact fun _ => ⟨[], hay, rfl, rfl⟩
  | cons p ps ih =>
    intro h
    cases hay with
    | nil => exact Bool.noConfusion h
    | cons c cs =>
      have h2 : (decide (p = c.toLower) && startsWithL (lowerL cs) ps) = true := h
      rcases Bool.and_eq_true_iff.mp h2 with ⟨ha, hb⟩
      have hpc : p = c.toLower := of_decide_eq_true ha
      obtain ⟨P, R, hPR, hP⟩ := ih (show lowerStartsWith cs ps = true from hb)
      refine ⟨c :: P, R, by rw [List.cons_append, ← hPR], ?_⟩
      show c.toLower :: lowerL P = p :: ps
      rw [hP, hpc]

/-- Right-stripping whitespace from `P ++ X` never eats into a
whitespace-free `P`. -/
theorem rstrip_append_keep {P : List Char} (hw : ∀ c ∈ P, pyWs c = false) :
    ∀ (X : List Char), ∃ W, ((P ++ X).reverse.dropWhile pyWs).reverse = P ++ W := by
  intro X
  induction X using List.reverseRecOn with
  | nil =>
    rw [List.append_nil]
    rcases hrev : P.reverse with _ | ⟨q, t⟩
    · have hP : P = [] := by simpa using congrArg List.reverse hrev
      subst hP
      exact ⟨[], rfl⟩
    · have hq : q ∈ P := by
        rw [← List.mem_reverse, hrev]
        exact List.mem_cons_self _ _
      refine ⟨[], ?_⟩
      rw [List.dropWhile_cons, hw q hq]
      simp [← hrev]
  | append_singleton xs x ih =>
    obtain ⟨W, hW⟩ := ih
    by_cases hx : pyWs x = true
    · refine ⟨W, ?_⟩
      rw [show P ++ (xs ++ [x]) = (P ++ xs) ++ [x] from (List.append_assoc _ _ _).symm]
      rw [List.reverse_append, List.reverse_singleton, List.singleton_append,
        List.dropWhile_cons, hx, if_pos rfl]
      exact hW
    · refine ⟨xs ++ [x], ?_⟩
      rw [show P ++ (xs ++ [x]) = (P ++ xs) ++ [x] from (List.append_assoc _ _ _).symm]
      rw [List.reverse_append, List.reverse_singleton, List.singleton_append,
        List.dropWhile_cons]
      rw [show pyWs x = false by simpa using hx]
      rw [if_neg (by simp)]
      rw [List.reverse_cons, List.reverse_reverse, List.append_assoc]

/-- Stripping whitespace from `P ++ X` keeps a nonempty whitespace-free
prefix `P` intact. -/
theorem pyStrip_append_keep {P : List Char} (X : List Char) (hPne : P ≠ [])
    (hw : ∀ c ∈ P, pyWs c = false) : ∃ W, pyStrip (P ++ X) = P ++ W := by
  obtain ⟨p0, P', rfl⟩ : ∃ p0 P', P = p0 :: P' := by
    cases P with
    | nil => exact absurd rfl hPne
    | cons a b => exact ⟨a, b, rfl⟩
  unfold pyStrip
  rw [show (p0 :: P') ++ X = p0 :: (P' ++ X) from rfl]
  rw [List.dropWhile_cons, hw p0 (List.mem_cons_self _ _), if_neg (by simp)]
  obtain ⟨W, hW⟩ := rstrip_append_keep hw X
  exact ⟨W, hW⟩

/-- When the development-storage trigger fires, `parse_credential` takes the
first branch. -/
theorem parseCred_branch1_step (decode : List Char → Option Json) (fuel : Nat)
    (conn stor : List Char)
    (hval : unquoteStrip conn = conn) (hne : conn ≠ [])
    (hnn : normNl conn = conn) (hdev : devCond conn = true) :
    parseCredGo decode (fuel + 1) conn stor = .ok (branch1 conn stor) := by
  conv_lhs => unfold parseCredGo
  simp only []
  rw [hval, if_neg hne, hnn, hdev]
  rfl

/-- Idempotence for the development-storage branch: its canonical output
still starts (case-insensitively) with `UseDevelopmentStorage=true`, so the
re-parse takes the same branch and reproduces the identical credential. -/
theorem branch1_idem (decode : List Char → Option Json) {normalized storage : List Char}
    (hnocr : ∀ ch ∈ normalized, ch ≠ '\r') (hdev : devCond normalized = true) :
    parse_credential decode (branch1 normalized storage).connection_string
      (branch1 normalized storage).storage_account = .ok (branch1 normalized storage) := by
  obtain ⟨P, R, hPR, hlP⟩ := lowerStartsWith_decomp
    (show lowerStartsWith normalized ("usedevelopmentstorage=true".data) = true from hdev)
  subst hPR
  have hPne : P ≠ [] := by
    intro h0
    rw [h0] at hlP
    exact absurd hlP (by decide)
  have hPfree : ∀ c ∈ P, isSemiNl c = false ∧ pyWs c = false := by
    intro c hc
    have hmem : c.toLower ∈ ("usedevelopmentstorage=true".data : List Char) := by
      rw [← hlP]
      exact List.mem_map_of_mem _ hc
    constructor
    · cases hsn : isSemiNl c
      · rfl
      · exfalso
        have hsn2 : c = ';' ∨ c = '\n' := by simpa [isSemiNl] using hsn
        rcases hsn2 with rfl | rfl
        · exact absurd hmem (by decide)
        · exact absurd hmem (by decide)
    · cases hws : pyWs c
      · rfl
      · exfalso
        have hfix := pyWs_toLower_fix hws
        rw [hfix] at hmem
        have hcon : pyWs c = false :=
          (by decide : ∀ x ∈ ("usedevelopmentstorage=true".data : List Char),
            pyWs x = false) c hmem
        rw [hws] at hcon
        exact Bool.noConfusion hcon
  obtain ⟨p0, P', rfl⟩ : ∃ p0 P', P = p0 :: P' := by
    cases P with
    | nil => exact absurd rfl hPne
    | cons a b => exact ⟨a, b, rfl⟩
  have hp0low : p0.toLower = 'u' := by
    have h2 : p0.toLower :: lowerL P' = 'u' :: ("sedevelopmentstorage=true".data) := hlP
    exact Option.some.inj (congrArg List.head? h2)
  have hp0ws : pyWs p0 = false := (hPfree p0 (List.mem_cons_self _ _)).2
  have hp0q1 : p0 ≠ '"' := by
    intro h0
    rw [h0] at hp0low
    exact absurd hp0low (by decide)
  have hp0q2 : p0 ≠ chApos := by
    intro h0
    rw [h0] at hp0low
    exact absurd hp0low (by decide)
  rcases hR : splitRunsBy isSemiNl R with _ | ⟨h0, t0⟩
  · exact absurd hR (splitRunsBy_ne_nil isSemiNl R)
  have hsplitN : splitRunsBy isSemiNl ((p0 :: P') ++ R) = ((p0 :: P') ++ h0) :: t0 :=
    splitRunsBy_append_notSep isSemiNl (p0 :: P') (fun c hc => (hPfree c hc).1) hR
  obtain ⟨W, hW⟩ := pyStrip_append_keep h0 (List.cons_ne_nil p0 P')
    (fun c hc => (hPfree c hc).2)
  have hparts : (((splitRunsBy isSemiNl ((p0 :: P') ++ R)).map pyStrip).filter (· ≠ [])) =
      ((p0 :: P') ++ W) :: ((t0.map pyStrip).filter (· ≠ [])) := by
    rw [hsplitN, List.map_cons, hW, List.filter_cons_of_pos (by simp)]
  have hmemprops : ∀ q ∈ ((p0 :: P') ++ W) :: ((t0.map pyStrip).filter (· ≠ [])),
      q ≠ [] ∧ pyStrip q = q ∧ ∀ c ∈ q, isSemiNl c = false ∧ c ≠ '\r' := by
    intro q hq
    rcases List.mem_cons.mp hq with rfl | hq2
    · refine ⟨List.cons_ne_nil _ _, by rw [← hW]; exact pyStrip_idem _, ?_⟩
      intro c hc
      have hc1 : c ∈ pyStrip ((p0 :: P') ++ h0) := by rw [hW]; exact hc
      have hc2 : c ∈ (p0 :: P') ++ h0 := mem_pyStrip hc1
      have hpiece : ((p0 :: P') ++ h0) ∈ splitRunsBy isSemiNl ((p0 :: P') ++ R) := by
        rw [hsplitN]
        exact List.mem_cons_self _ _
      exact ⟨splitRunsBy_no_sep isSemiNl _ _ hpiece c hc2,
        hnocr c (mem_splitRunsBy isSemiNl _ _ hpiece c hc2)⟩
    · obtain ⟨hq3, hq4⟩ := List.mem_filter.mp hq2
      obtain ⟨s0, hs0, rfl⟩ := List.mem_map.mp hq3
      refine ⟨by simpa using hq4, pyStrip_idem _, ?_⟩
      intro c hc
      have hc2 : c ∈ s0 := mem_pyStrip hc
      have hpiece : s0 ∈ splitRunsBy isSemiNl ((p0 :: P') ++ R) := by
        rw [hsplitN]
        exact List.mem_cons_of_mem _ hs0
      exact ⟨splitRunsBy_no_sep isSemiNl _ _ hpiece c hc2,
        hnocr c (mem_splitRunsBy isSemiNl _ _ hpiece c hc2)⟩
  have hFne : ((p0 :: P') ++ W) ≠ [] := List.cons_ne_nil _ _
  have hh : (joinSep ';'
      (((p0 :: P') ++ W) :: ((t0.map pyStrip).filter (· ≠ [])))).head? = some p0 := by
    rw [joinSep_head_eq ';' _ _ hFne]
    rfl
  have hne : (joinSep ';' (((p0 :: P') ++ W) :: ((t0.map pyStrip).filter (· ≠ [])))) ≠ [] := by
    intro hz
    rw [hz] at hh
    cases hh
  have hlast : ∃ z, (joinSep ';'
      (((p0 :: P') ++ W) :: ((t0.map pyStrip).filter (· ≠ [])))).getLast? = some z ∧
      pyWs z = false := by
    obtain ⟨q, hq, hl⟩ := joinSep_last_mem ';' _ _ (fun q hq => (hmemprops q hq).1)
    have hqne : q ≠ [] := (hmemprops q hq).1
    obtain ⟨z, hz⟩ := Option.isSome_iff_exists.mp (List.getLast?_isSome.mpr hqne)
    refine ⟨z, by rw [hl, hz], ?_⟩
    apply pyStrip_last q
    rw [(hmemprops q hq).2.1]
    exact hz
  obtain ⟨z, hzl, hzw⟩ := hlast
  have hval : unquoteStrip (joinSep ';'
      (((p0 :: P') ++ W) :: ((t0.map pyStrip).filter (· ≠ [])))) = joinSep ';'
      (((p0 :: P') ++ W) :: ((t0.map pyStrip).filter (· ≠ []))) :=
    unquoteStrip_id hh hzl hp0ws hzw hp0q1 hp0q2
  have hnn : normNl (joinSep ';'
      (((p0 :: P') ++ W) :: ((t0.map pyStrip).filter (· ≠ [])))) = joinSep ';'
      (((p0 :: P') ++ W) :: ((t0.map pyStrip).filter (· ≠ []))) := by
    apply normNl_eq_self
    intro x hx
    rcases mem_joinSep hx with rfl | ⟨q, hq, hxq⟩
    · decide
    · exact ((hmemprops q hq).2.2 x hxq).2
  have hdev2 : devCond (joinSep ';'
      (((p0 :: P') ++ W) :: ((t0.map pyStrip).filter (· ≠ [])))) = true := by
    unfold devCond
    rcases hL : ((t0.map pyStrip).filter (· ≠ [])) with _ | ⟨l0, lt⟩
    · rw [hL]
      show lowerStartsWith ((p0 :: P') ++ W) ("usedevelopmentstorage=true".data) = true
      unfold lowerStartsWith
      rw [show lowerL ((p0 :: P') ++ W) = lowerL (p0 :: P') ++ lowerL W from
        List.map_append _ _ _]
      rw [hlP]
      exact startsWithL_append_self _ _
    · rw [hL]
      show lowerStartsWith (((p0 :: P') ++ W) ++ ';' :: joinSep ';' (l0 :: lt))
        ("usedevelopmentstorage=true".data) = true
      unfold lowerStartsWith
      rw [List.append_assoc]
      rw [show lowerL ((p0 :: P') ++ (W ++ ';' :: joinSep ';' (l0 :: lt))) =
        lowerL (p0 :: P') ++ lowerL (W ++ ';' :: joinSep ';' (l0 :: lt)) from
        List.map_append _ _ _]
      rw [hlP]
      exact startsWithL_append_self _ _
  have hb1conn : (branch1 ((p0 :: P') ++ R) storage).connection_string =
      joinSep ';' (((p0 :: P') ++ W) :: ((t0.map pyStrip).filter (· ≠ []))) := by
    show joinSep ';' (((splitRunsBy isSemiNl ((p0 :: P') ++ R)).map pyStrip).filter (· ≠ []))
      = _
    rw [hparts]
  rw [hb1conn]
  show parseCredGo decode _ _ ((branch1 ((p0 :: P') ++ R) storage).storage_account) = _
  rw [parseCred_branch1_step decode _ _ _ hval hne hnn hdev2]
  refine congrArg Except.ok ?_
  unfold branch1
  simp only []
  rw [AzureCredential.mk.injEq]
  refine ⟨rfl, ?_, rfl, rfl⟩
  have hsplit2 : splitRunsBy isSemiNl (joinSep ';'
      (((p0 :: P') ++ W) :: ((t0.map pyStrip).filter (· ≠ [])))) =
      ((p0 :: P') ++ W) :: ((t0.map pyStrip).filter (· ≠ [])) := by
    refine splitRunsBy_joinSep isSemiNl (by decide) _ _ hFne ?_ ?_
    · exact fun ch hch => ((hmemprops _ (List.mem_cons_self _ _)).2.2 ch hch).1
    · intro q hq
      exact ⟨(hmemprops q (List.mem_cons_of_mem _ hq)).1,
        fun ch hch => ((hmemprops q (List.mem_cons_of_mem _ hq)).2.2 ch hch).1⟩
  rw [hsplit2]
  have hmapfix : ∀ (l : List (List Char)), (∀ q ∈ l, pyStrip q = q) → l.map pyStrip = l := by
    intro l
    induction l with
    | nil => exact fun _ => rfl
    | cons a t ih =>
      intro hmemq
      rw [List.map_cons, hmemq a (List.mem_cons_self _ _),
        ih (fun q hq => hmemq q (List.mem_cons_of_mem _ hq))]
  have hfilfix : ∀ (l : List (List Char)), (∀ q ∈ l, q ≠ []) → l.filter (· ≠ []) = l := by
    intro l
    induction l with
    | nil => exact fun _ => rfl
    | cons a t ih =>
      intro hmemq
      rw [List.filter_cons_of_pos (by simpa using hmemq a (List.mem_cons_self _ _)),
        ih (fun q hq => hmemq q (List.mem_cons_of_mem _ hq))]
  rw [hmapfix _ (fun q hq => (hmemprops q hq).2.1)]
  rw [hfilfix _ (fun q hq => (hmemprops q hq).1)]
  rw [hparts]

/-- A successful URL-with-SAS parse always carries a nonempty query. -/
theorem branch3Parts_spec {value storage : List Char} {acg : List Char × List Char × List Char}
    (h : branch3Parts value storage = some acg) : acg.2.2 ≠ [] := by
  unfold branch3Parts at h
  simp only [] at h
  split at h
  · generalize hQ : (match splitFirst '?' (urlParse value).path with
      | some (_, b) => b
      | none => (urlParse value).query) = Q at h
    split at h
    · split at h
      · rename_i hout hin
        obtain rfl := Option.some.inj h
        rcases Bool.and_eq_true_iff.mp hout with ⟨_, hq⟩
        exact of_decide_eq_true hq
      · exact Option.noConfusion h
    · exact Option.noConfusion h
  · generalize hQ : (urlParse value).query = Q at h
    split at h
    · split at h
      · rename_i hout hin
        obtain rfl := Option.some.inj h
        rcases Bool.and_eq_true_iff.mp hout with ⟨_, hq⟩
        exact of_decide_eq_true hq
      · exact Option.noConfusion h
    · exact Option.noConfusion h

/-- Inversion of the bare-SAS branch: the exact produced record, and the
nonemptiness of the stripped token. -/
theorem branch4_spec {value storage : List Char} {cr : AzureCredential}
    (h : branch4 value storage = some cr) :
    lstripChar '?' value ≠ [] ∧ cr =
      { storage_account := storage
        connection_string := ("DefaultEndpointsProtocol=https;AccountName=".data) ++ storage ++
          (";BlobEndpoint=https://".data) ++ storage ++
          (".blob.core.windows.net/;SharedAccessSignature=".data) ++ lstripChar '?' value
        account_key := none
        sas_token := some (lstripChar '?' value) } := by
  unfold branch4 at h
  simp only [] at h
  split at h
  · rename_i hcond
    refine ⟨?_, (Option.some.inj h).symm⟩
    intro h0
    rw [h0] at hcond
    exact absurd hcond (by decide)
  · exact Option.noConfusion h

/-- Inversion of the bare-account-key branch: the exact produced record. -/
theorem branch5_spec {value normalized storage : List Char} {cr : AzureCredential}
    (h : branch5 value normalized storage = some cr) :
    cr = { storage_account := storage
           connection_string := ("DefaultEndpointsProtocol=https;AccountName=".data) ++ storage ++
             (";AccountKey=".data) ++ value ++ (";EndpointSuffix=core.windows.net".data)
           account_key := some value
           sas_token := none } := by
  unfold branch5 at h
  simp only [] at h
  split at h
  · exact (Option.some.inj h).symm
  · exact Option.noConfusion h

/-- The successful candidate of a `tryCands` walk whose `goodCands` companion
holds is itself parsed successfully and good. -/
theorem tryCands_goodCands (recurse : List Char → Except ParseErr AzureCredential)
    (good : List Char → Bool) (value : List Char) :
    ∀ (cands seen : List (List Char)) (c : AzureCredential),
      tryCands recurse value seen cands = some (.ok c) →
      goodCands recurse good value seen cands = true →
      ∃ cand, recurse cand = .ok c ∧ good cand = true := by
  intro cands
  induction cands with
  | nil =>
    intro seen c h _
    exact Option.noConfusion h
  | cons cand rest ih =>
    intro seen c h hg
    unfold tryCands at h
    unfold goodCands at hg
    by_cases hskip : (cand = value || seen.contains cand) = true
    · rw [if_pos hskip] at h hg
      exact ih seen c h hg
    · rw [if_neg hskip] at h hg
      rcases hrec : recurse cand with e | c0
      · rw [hrec] at h hg
        rcases e with _ | n | _
        · exact ih _ c h hg
        · exact ih _ c h hg
        · have hgfin : false = true := hg
          exact Bool.noConfusion hgfin
      · rw [hrec] at h hg
        have hfin : some (Except.ok c0) = some (Except.ok c) := h
        have hgfin : good cand = true := hg
        have hc : c0 = c := Except.ok.inj (Option.some.inj hfin)
        subst hc
        exact ⟨cand, hrec, hgfin⟩

/-- The JSON fallback succeeds only through some good candidate when its
`goodJsonF` companion holds. -/
theorem jsonStepF_good {recurse : List Char → Except ParseErr AzureCredential}
    {good : List Char → Bool} {decode : List Char → Option Json}
    {value normalized : List Char} {c : AzureCredential}
    (h : jsonStepF recurse decode value normalized = .ok c)
    (hg : goodJsonF recurse good decode value = true) :
    ∃ cand, recurse cand = .ok c ∧ good cand = true := by
  unfold jsonStepF at h
  unfold goodJsonF at hg
  rcases hdec : decode value with _ | j
  · rw [hdec] at hg
    have hgfin : false = true := hg
    exact Bool.noConfusion hgfin
  · rw [hdec] at h hg
    have h2 : (match tryCands recurse value [] (iterStrings j) with
      | some r => r
      | none => Except.error (ParseErr.unrecognized normalized)) = Except.ok c := h
    have hgfin : goodCands recurse good value [] (iterStrings j) = true := hg
    rcases htc : tryCands recurse value [] (iterStrings j) with _ | r
    · rw [htc] at h2
      have hfin : Except.error (ParseErr.unrecognized normalized) = Except.ok c := h2
      exact Except.noConfusion hfin
    · rw [htc] at h2
      have hfin : r = Except.ok c := h2
      subst hfin
      exact tryCands_goodCands recurse good value (iterStrings j) [] c htc hgfin

/-- Idempotence of `parse_credential` on its own canonical output, under the
`goodRun` side condition mirroring the branch that produced the credential. -/
theorem credOk_idem (decode : List Char → Option Json) :
    ∀ (fuel : Nat) (raw storage : List Char) (c : AzureCredential),
      parseCredGo decode fuel raw storage = .ok c →
      goodRun decode fuel raw storage = true →
      parse_credential decode c.connection_string c.storage_account = .ok c := by
  intro fuel
  induction fuel with
  | zero =>
    intro raw storage c h _
    exact Except.noConfusion h
  | succ fuel ih =>
    intro raw storage c h hg
    unfold parseCredGo at h
    unfold goodRun at hg
    simp only [] at h hg
    by_cases hv0 : unquoteStrip raw = []
    · rw [if_pos hv0] at h
      exact Except.noConfusion h
    rw [if_neg hv0] at h hg
    by_cases hdev : devCond (normNl (unquoteStrip raw)) = true
    · rw [if_pos hdev] at h
      have hc : branch1 (normNl (unquoteStrip raw)) storage = c := Except.ok.inj h
      subst hc
      exact branch1_idem decode (normNl_no_cr _) hdev
    rw [if_neg hdev] at h hg
    by_cases hb2 : branch2cond (normNl (unquoteStrip raw)) = true
    · rw [if_pos hb2] at h hg
      have hc : branch2 (normNl (unquoteStrip raw)) storage = c := Except.ok.inj h
      subst hc
      exact branch2_idem decode (normNl_no_cr _) hg
    rw [if_neg hb2] at h hg
    rcases hb3p : branch3Parts (unquoteStrip raw) storage with _ | acg
    · have hb3 : branch3 (unquoteStrip raw) storage = none := by
        unfold branch3
        rw [hb3p]
        rfl
      rw [hb3] at h
      rw [hb3p] at hg
      rcases hb4 : branch4 (unquoteStrip raw) storage with _ | cr4
      · rw [hb4] at h hg
        rcases hb5 : branch5 (unquoteStrip raw) (normNl (unquoteStrip raw)) storage with _ | cr5
        · rw [hb5] at h hg
          by_cases hml : mlCond (normNl (unquoteStrip raw)) = true
          · rw [if_pos hml] at h hg
            rcases hcs : colonSegments (normNl (unquoteStrip raw)) with _ | ⟨seg, segs⟩
            · rw [hcs] at h hg
              have hfin : jsonStepF (fun cand => parseCredGo decode fuel cand storage) decode
                  (unquoteStrip raw) (normNl (unquoteStrip raw)) = Except.ok c := h
              have hgfin : goodJsonF (fun cand => parseCredGo decode fuel cand storage)
                  (fun cand => goodRun decode fuel cand storage) decode
                  (unquoteStrip raw) = true := hg
              obtain ⟨cand, hok, hgood⟩ := jsonStepF_good hfin hgfin
              exact ih cand storage c hok hgood
            · rw [hcs] at h hg
              simp only [] at h hg
              rcases hrec : parseCredGo decode fuel (joinSep ';' (seg :: segs)) storage
                with e | c0
              · rw [hrec] at h hg
                rcases e with _ | n | _
                · have hfin : jsonStepF (fun cand => parseCredGo decode fuel cand storage)
                      decode (unquoteStrip raw) (normNl (unquoteStrip raw)) = Except.ok c := h
                  have hgfin : goodJsonF (fun cand => parseCredGo decode fuel cand storage)
                      (fun cand => goodRun decode fuel cand storage) decode
                      (unquoteStrip raw) = true := hg
                  obtain ⟨cand, hok, hgood⟩ := jsonStepF_good hfin hgfin
                  exact ih cand storage c hok hgood
                · have hfin : jsonStepF (fun cand => parseCredGo decode fuel cand storage)
                      decode (unquoteStrip raw) (normNl (unquoteStrip raw)) = Except.ok c := h
                  have hgfin : goodJsonF (fun cand => parseCredGo decode fuel cand storage)
                      (fun cand => goodRun decode fuel cand storage) decode
                      (unquoteStrip raw) = true := hg
                  obtain ⟨cand, hok, hgood⟩ := jsonStepF_good hfin hgfin
                  exact ih cand storage c hok hgood
                · have hgfin : false = true := hg
                  exact Bool.noConfusion hgfin
              · rw [hrec] at h hg
                have hfin : Except.ok c0 = Except.ok c := h
                have hgfin : goodRun decode fuel (joinSep ';' (seg :: segs)) storage = true := hg
                have hc : c0 = c := Except.ok.inj hfin
                subst hc
                exact ih (joinSep ';' (seg :: segs)) storage c0 hrec hgfin
          · rw [if_neg hml] at h hg
            have hfin : jsonStepF (fun cand => parseCredGo decode fuel cand storage) decode
                (unquoteStrip raw) (normNl (unquoteStrip raw)) = Except.ok c := h
            have hgfin : goodJsonF (fun cand => parseCredGo decode fuel cand storage)
                (fun cand => goodRun decode fuel cand storage) decode
                (unquoteStrip raw) = true := hg
            obtain ⟨cand, hok, hgood⟩ := jsonStepF_good hfin hgfin
            exact ih cand storage c hok hgood
        · rw [hb5] at h hg
          have hfin : Except.ok cr5 = Except.ok c := h
          have hgfin : ((decide (storage ≠ []) && goodStr storage) &&
              goodStr (unquoteStrip raw)) = true := hg
          have hc : cr5 = c := Except.ok.inj hfin
          subst hc
          have hspec := branch5_spec hb5
          subst hspec
          rcases Bool.and_eq_true_iff.mp hgfin with ⟨hg1, hgv⟩
          rcases Bool.and_eq_true_iff.mp hg1 with ⟨hgs0, hgs⟩
          have hsne : storage ≠ [] := of_decide_eq_true hgs0
          obtain ⟨hstr1, hstr2⟩ := goodStr_spec hgs
          obtain ⟨hval1, hval2⟩ := goodStr_spec hgv
          exact key_record_reparse decode hsne hv0 hstr1 hstr2 hval1 hval2
      · rw [hb4] at h hg
        have hfin : Except.ok cr4 = Except.ok c := h
        have hgfin : ((decide (storage ≠ []) && goodStr storage) &&
            goodStr (lstripChar '?' (unquoteStrip raw))) = true := hg
        have hc : cr4 = c := Except.ok.inj hfin
        subst hc
        obtain ⟨htne, hrec4⟩ := branch4_spec hb4
        subst hrec4
        rcases Bool.and_eq_true_iff.mp hgfin with ⟨hg1, hgt⟩
        rcases Bool.and_eq_true_iff.mp hg1 with ⟨hgs0, hgs⟩
        have hsne : storage ≠ [] := of_decide_eq_true hgs0
        obtain ⟨hstr1, hstr2⟩ := goodStr_spec hgs
        obtain ⟨htok1, htok2⟩ := goodStr_spec hgt
        have hsB : pyStrip (("https://".data) ++ storage ++ (".blob.core.windows.net/".data)) =
            ("https://".data) ++ storage ++ (".blob.core.windows.net/".data) := by
          apply pyStrip_eq_self
          · intro c0 hc0
            rw [show ((("https://".data) ++ storage ++
              (".blob.core.windows.net/".data)).head? : Option Char) = some 'h' from rfl] at hc0
            rw [(Option.some.inj hc0).symm]
            decide
          · intro c0 hc0
            have hl2 : ((("https://".data) ++ storage ++
                (".blob.core.windows.net/".data)).getLast?) = some '/' := by
              rw [List.getLast?_append_of_ne_nil _ (by decide)]
              rfl
            rw [hl2] at hc0
            rw [(Option.some.inj hc0).symm]
            decide
        have hcB : ∀ ch ∈ (("https://".data) ++ storage ++ (".blob.core.windows.net/".data)),
            isSemiNl ch = false ∧ ch ≠ '\r' := by
          intro ch hch
          rcases List.mem_append.mp hch with h1 | h1
          · rcases List.mem_append.mp h1 with h2 | h2
            · exact ⟨(by decide : ∀ x ∈ ("https://".data : List Char),
                isSemiNl x = false) ch h2,
                (by decide : ∀ x ∈ ("https://".data : List Char), x ≠ '\r') ch h2⟩
            · exact hstr2 ch h2
          · exact ⟨(by decide : ∀ x ∈ (".blob.core.windows.net/".data : List Char),
              isSemiNl x = false) ch h1,
              (by decide : ∀ x ∈ (".blob.core.windows.net/".data : List Char), x ≠ '\r') ch h1⟩
        have hbridge : ("DefaultEndpointsProtocol=https;AccountName=".data) ++ storage ++
            (";BlobEndpoint=https://".data) ++ storage ++
            (".blob.core.windows.net/;SharedAccessSignature=".data) ++
            (lstripChar '?' (unquoteStrip raw)) =
            ("DefaultEndpointsProtocol=https;AccountName=".data) ++ storage ++
            (";BlobEndpoint=".data) ++
            (("https://".data) ++ storage ++ (".blob.core.windows.net/".data)) ++
            (";SharedAccessSignature=".data) ++ (lstripChar '?' (unquoteStrip raw)) := by
          simp only [List.append_assoc]
          rfl
        rw [hbridge]
        exact sas_record_reparse decode hsne htne hstr1 hstr2 hsB hcB htok1 htok2
    · have hb3 : branch3 (unquoteStrip raw) storage = some
          { storage_account := acg.1
            connection_string := ("DefaultEndpointsProtocol=https;AccountName=".data) ++
              acg.1 ++ (";BlobEndpoint=".data) ++ acg.2.1 ++
              (";SharedAccessSignature=".data) ++ acg.2.2
            account_key := none
            sas_token := some acg.2.2 } := by
        unfold branch3
        rw [hb3p]
        rfl
      rw [hb3] at h
      rw [hb3p] at hg
      have hfin : Except.ok (⟨acg.1,
          ("DefaultEndpointsProtocol=https;AccountName=".data) ++ acg.1 ++
            (";BlobEndpoint=".data) ++ acg.2.1 ++ (";SharedAccessSignature=".data) ++ acg.2.2,
          none, some acg.2.2⟩ : AzureCredential) = Except.ok c := h
      have hgfin : (((decide (acg.1 ≠ []) && goodStr acg.1) && goodStr acg.2.1) &&
          goodStr acg.2.2) = true := hg
      have hc := Except.ok.inj hfin
      subst hc
      have hT := branch3Parts_spec hb3p
      rcases Bool.and_eq_true_iff.mp hgfin with ⟨hg1, hgT⟩
      rcases Bool.and_eq_true_iff.mp hg1 with ⟨hg2, hgB⟩
      rcases Bool.and_eq_true_iff.mp hg2 with ⟨hgA0, hgA⟩
      have hAne : acg.1 ≠ [] := of_decide_eq_true hgA0
      obtain ⟨hA1, hA2⟩ := goodStr_spec hgA
      obtain ⟨hB1, hB2⟩ := goodStr_spec hgB
      obtain ⟨hT1, hT2⟩ := goodStr_spec hgT
      exact sas_record_reparse decode hAne hT hA1 hA2 hB1 hB2 hT1 hT2

/-- C4 (amended): `parse_credential` is idempotent on its own canonical
output whenever the producing run is non-degenerate (`goodRun`: the branch
that produced the credential did so with nonempty account/key/signature
fields and separator-free, stripped components): if parsing `raw` with
fallback `storage` yields `c`, re-parsing `c.connection_string` with fallback
`c.storage_account` yields exactly `c` again.  Without the side condition the
re-parse can differ, e.g. by materialising the fallback account name. -/
theorem C4_idempotent_on_good_runs (decode : List Char → Option Json)
    (raw storage : List Char) (c : AzureCredential)
    (hok : parse_credential decode raw storage = .ok c)
    (hgood : goodRun decode (raw.length + 1) raw storage = true) :
    parse_credential decode c.connection_string c.storage_account = .ok c :=
  credOk_idem decode (raw.length + 1) raw storage c hok hgood

/-- Witness: `AccountName=x;AccountKey=abcd` parses to a canonical credential
whose re-parse reproduces it exactly. -/
theorem C4_witness :
    parse_credential (fun _ => none) ("AccountName=x;AccountKey=abcd".data) ("st".data) =
      .ok ⟨("x".data),
        ("DefaultEndpointsProtocol=https;AccountName=x;AccountKey=abcd;EndpointSuffix=core.windows.net".data),
        some ("abcd".data), none⟩ ∧
    goodRun (fun _ => none) (("AccountName=x;AccountKey=abcd".data).length + 1)
      ("AccountName=x;AccountKey=abcd".data) ("st".data) = true ∧
    parse_credential (fun _ => none)
      ("DefaultEndpointsProtocol=https;AccountName=x;AccountKey=abcd;EndpointSuffix=core.windows.net".data)
      ("x".data) =
      .ok ⟨("x".data),
        ("DefaultEndpointsProtocol=https;AccountName=x;AccountKey=abcd;EndpointSuffix=core.windows.net".data),
        some ("abcd".data), none⟩ :=
  ⟨rfl, by decide,
    C4_idempotent_on_good_runs (fun _ => none) ("AccountName=x;AccountKey=abcd".data)
      ("st".data)
      ⟨("x".data),
        ("DefaultEndpointsProtocol=https;AccountName=x;AccountKey=abcd;EndpointSuffix=core.windows.net".data),
        some ("abcd".data), none⟩ rfl (by decide)⟩

/-- Counterexample to C4 as frozen: parsing `AccountName=;AccountKey=k` with
fallback account `demoacct` succeeds, but re-parsing the produced
connection string (which carries no `AccountName` field) materialises
`AccountName=demoacct`, so the re-parse yields a different credential. -/
theorem C4_counterexample :
    parse_credential (fun _ => none) ("AccountName=;AccountKey=k".data) ("demoacct".data) =
      .ok ⟨("demoacct".data),
        ("DefaultEndpointsProtocol=https;AccountKey=k;EndpointSuffix=core.windows.net".data),
        some ("k".data), none⟩ ∧
    parse_credential (fun _ => none)
      ("DefaultEndpointsProtocol=https;AccountKey=k;EndpointSuffix=core.windows.net".data)
      ("demoacct".data) =
      .ok ⟨("demoacct".data),
        ("DefaultEndpointsProtocol=https;AccountName=demoacct;AccountKey=k;EndpointSuffix=core.windows.net".data),
        some ("k".data), none⟩ ∧
    (⟨("demoacct".data),
        ("DefaultEndpointsProtocol=https;AccountName=demoacct;AccountKey=k;EndpointSuffix=core.windows.net".data),
        some ("k".data), none⟩ : AzureCredential) ≠
      ⟨("demoacct".data),
        ("DefaultEndpointsProtocol=https;AccountKey=k;EndpointSuffix=core.windows.net".data),
        some ("k".data), none⟩ :=
  ⟨rfl, rfl, by decide⟩
